import Mathlib

/-!
The bookmark cluster navigation and the file collection of lnav.

A shallow embedding of the cluster navigator (`next_cluster`, `moveto_cluster`
in `src/view_helpers.cc` and `src/lnav.cc`), of the file collection (`merge`,
`close_file`, `watch_logfile`, `expand_filename`), of the sweep, the
duplicate-suppression pass and the scroll bookkeeping of `rebuild_indexes`
(`src/lnav.cc`), of the histogram index delegate and of the view stack
(`toggle_view`, `ensure_view`), followed by the properties proved about them.
-/

/-! ## Lines and bookmark vectors -/

/-- A `bookmark_vector<vis_line_t>` is the sorted vector of the marked lines of a
view.  Marked lines are indices of lines of the view, so they are stored as
natural numbers.  Every other line variable is a `vis_line_t`, a strongly typed
`int` in which the navigator uses `-1` for "no line": those are of type `Int`. -/
abbrev bookmark_vector := List Nat

namespace bookmark_vector

/-- Modelled from the spec: `bookmark_vector::next` is declared in
`bookmarks.hh`, which is not part of the sources at hand.  It is the least
bookmark strictly greater than `start`, and `-1` if there is none. -/
def next (bv : bookmark_vector) (start : Int) : Int :=
  match (bv.filter (fun (b : Nat) => decide (start < (b : Int)))).min? with
  | some b => (b : Int)
  | none => -1

/-- Modelled from the spec: `bookmark_vector::prev` is declared in
`bookmarks.hh`, which is not part of the sources at hand.  It is the greatest
bookmark strictly less than `start`, and `-1` if there is none. -/
def prev (bv : bookmark_vector) (start : Int) : Int :=
  match (bv.filter (fun (b : Nat) => decide ((b : Int) < start))).max? with
  | some b => (b : Int)
  | none => -1

/-- The call `binary_search(bv.begin(), bv.end(), top)`: on a sorted vector it
answers whether `top` is one of the bookmarks. -/
def binary_search (bv : bookmark_vector) (top : Int) : Bool :=
  decide (top ∈ bv.map (fun (b : Nat) => (b : Int)))

end bookmark_vector

/-- Modelled from the spec: `textview_curses` is declared in
`textview_curses.hh`, which is not part of the sources at hand.  The navigator
reads the bookmarks of the bookmark type it is asked about, the height given by
`get_dimensions`, the top line, the selection and whether the view is
selectable; `set_top` and `set_selection` move the view to the given line, and
the location history, when the sub-source has one, records the lines jumped
to. -/
structure textview_curses where
  tc_bookmarks : bookmark_vector
  tc_height : Int
  tc_top : Int
  tc_selection : Int
  tc_selectable : Bool
  tc_location_history : Option (List Int)
deriving DecidableEq, Repr

namespace textview_curses

def set_top (tc : textview_curses) (top : Int) : textview_curses :=
  { tc with tc_top := top }

def set_selection (tc : textview_curses) (sel : Int) : textview_curses :=
  { tc with tc_selection := sel }

/-- The call `get_location_history() | [..](auto lh) { lh->loc_history_append(l); }`. -/
def loc_history_append (tc : textview_curses) (l : Int) : textview_curses :=
  { tc with tc_location_history := tc.tc_location_history.map (fun lh => lh ++ [l]) }

end textview_curses

/-! ## `src/view_helpers.cc` -/

namespace view_helpers

/-- The inner `while` loop of `next_cluster` (lines 657-665) followed by the
`return last_top` of line 666.  `none` means the fuel ran out. -/
def next_cluster_inner (f : bookmark_vector → Int → Int)
    (bv : bookmark_vector) (top tc_height : Int) (hit_count : Int) :
    Nat → Int → Int → Option Int
  | 0, _, _ => none
  | fuel + 1, new_top, last_top =>
    let new_top := f bv new_top
    if new_top = -1 then
      some last_top
    else if ((last_top - new_top).natAbs : Int) > 1
        ∨ (hit_count > 1 ∧ ((top - new_top).natAbs : Int) ≥ tc_height) then
      some last_top
    else
      next_cluster_inner f bv top tc_height hit_count fuel new_top new_top

/-- The outer `while` loop of `next_cluster` (lines 645-669) followed by the
code after it (lines 671-675).  The outer `none` means the fuel ran out; the
inner option is the `nonstd::optional<vis_line_t>` the function returns. -/
def next_cluster_loop (f : bookmark_vector → Int → Int)
    (bv : bookmark_vector) (top_is_marked : Bool) (top tc_height : Int) :
    Nat → Int → Int → Int → Option (Option Int)
  | 0, _, _, _ => none
  | fuel + 1, new_top, last_top, hit_count =>
    let new_top := f bv new_top
    if new_top = -1 then
      if last_top ≠ top then some (some last_top) else some none
    else
      let diff := new_top - last_top
      let hit_count := hit_count + 1
      if !top_is_marked || decide (diff > 1) then
        some (some new_top)
      else if hit_count > 1 ∧ ((new_top - top).natAbs : Int) ≥ tc_height then
        some (some (new_top - diff))
      else if diff < -1 then
        (next_cluster_inner f bv top tc_height hit_count fuel new_top new_top).map some
      else
        next_cluster_loop f bv top_is_marked top tc_height fuel new_top new_top hit_count

/-- The function `next_cluster` of `view_helpers.cc`, on the view `tc` that
`get_textview_for_mode` selects.  Every iteration of either loop moves to a
further bookmark, so `length + 1` iterations are enough. -/
def next_cluster (f : bookmark_vector → Int → Int)
    (tc : textview_curses) (top : Int) : Option (Option Int) :=
  let bv := tc.tc_bookmarks
  let top_is_marked := bv.binary_search top
  next_cluster_loop f bv top_is_marked top tc.tc_height (bv.length + 1) top top 0

end view_helpers

/-! ## `src/lnav.cc` -/

namespace lnav

/-- The inner `while` loop of `next_cluster` (lines 733-739) followed by the
`return last_top` of line 740.  `none` means the fuel ran out. -/
def next_cluster_inner (f : bookmark_vector → Int → Int)
    (bv : bookmark_vector) (top tc_height : Int) (hit_count : Int) :
    Nat → Int → Int → Option Int
  | 0, _, _ => none
  | fuel + 1, new_top, last_top =>
    let new_top := f bv new_top
    if new_top = -1 then
      some last_top
    else if ((last_top - new_top).natAbs : Int) > 1
        ∨ (hit_count > 1 ∧ ((top - new_top).natAbs : Int) ≥ tc_height) then
      some last_top
    else
      next_cluster_inner f bv top tc_height hit_count fuel new_top new_top

/-- The outer `while` loop of `next_cluster` (lines 721-743) followed by the
code after it (lines 745-749): the result is a line, `-1` for "no target".
`none` means the fuel ran out. -/
def next_cluster_loop (f : bookmark_vector → Int → Int)
    (bv : bookmark_vector) (top_is_marked : Bool) (top tc_height : Int) :
    Nat → Int → Int → Int → Option Int
  | 0, _, _, _ => none
  | fuel + 1, new_top, last_top, hit_count =>
    let new_top := f bv new_top
    if new_top = -1 then
      if last_top ≠ top then some last_top else some (-1)
    else
      let diff := new_top - last_top
      let hit_count := hit_count + 1
      if !top_is_marked || decide (diff > 1) then
        some new_top
      else if hit_count > 1 ∧ ((new_top - top).natAbs : Int) ≥ tc_height then
        some (new_top - diff)
      else if diff < -1 then
        next_cluster_inner f bv top tc_height hit_count fuel new_top new_top
      else
        next_cluster_loop f bv top_is_marked top tc_height fuel new_top new_top hit_count

/-- The function `next_cluster` of `lnav.cc`, on the view `tc` at the top of the
view stack. -/
def next_cluster (f : bookmark_vector → Int → Int)
    (tc : textview_curses) (top : Int) : Option Int :=
  let bv := tc.tc_bookmarks
  let top_is_marked := bv.binary_search top
  next_cluster_loop f bv top_is_marked top tc.tc_height (bv.length + 1) top top 0

end lnav

/-! ## `moveto_cluster` -/

/-- How a call ends that can run out of fuel or does not return:
`nonstd::optional::value()` throws `bad_optional_access` on an empty optional,
and `*optional` on an empty optional has no value to give (the precondition of
`operator*` is broken). -/
inductive failure where
  | out_of_fuel
  | bad_optional_access
  | empty_optional_dereference
deriving DecidableEq, Repr

/-- The fuel of `next_cluster`, seen from its callers. -/
def with_fuel {α : Type} : Option α → Except failure α
  | some a => Except.ok a
  | none => Except.error failure.out_of_fuel

/-- The comparison `optional != value` of `nonstd::optional`: an empty optional
is different from every value. -/
def optional_ne (x : Option Int) (v : Int) : Bool :=
  match x with
  | some a => a != v
  | none => true

/-- The call `optional.value()`: it throws on an empty optional. -/
def optional_value (x : Option Int) : Except failure Int :=
  match x with
  | some a => Except.ok a
  | none => Except.error failure.bad_optional_access

/-- The dereference `*optional`: the call does not return on an empty optional. -/
def optional_deref {α : Type} (x : Option α) : Except failure α :=
  match x with
  | some a => Except.ok a
  | none => Except.error failure.empty_optional_dereference

namespace view_helpers

/-- The function `moveto_cluster` of `view_helpers.cc` (lines 678-705), on the
view `tc` that `get_textview_for_mode` selects: the result is the returned
boolean and the view after the call.  The chime of the alerter touches neither.
The location history is appended to only when the sub-source has one; in either
case the next statement evaluates `new_top.value()`. -/
def moveto_cluster (f : bookmark_vector → Int → Int) (tc : textview_curses) (top : Int) :
    Except failure (Bool × textview_curses) := do
  let new_top ← with_fuel (next_cluster f tc top)
  let new_top ← if new_top.isNone then
      with_fuel (next_cluster f tc (if tc.tc_selectable then tc.tc_selection else tc.tc_top))
    else pure new_top
  if optional_ne new_top (-1) then
    let v ← optional_value new_top
    let tc := tc.loc_history_append v
    if tc.tc_selectable then
      pure (true, tc.set_selection v)
    else
      pure (true, tc.set_top v)
  else
    pure (false, tc)

end view_helpers

namespace lnav

/-- The function `moveto_cluster` of `lnav.cc` (lines 752-775), on the view `tc`
at the top of the view stack: the result is the returned boolean and the view
after the call.  The chime of the alerter touches neither. -/
def moveto_cluster (f : bookmark_vector → Int → Int) (tc : textview_curses) (top : Int) :
    Except failure (Bool × textview_curses) := do
  let new_top ← with_fuel (next_cluster f tc top)
  let new_top ← if new_top = -1 then with_fuel (next_cluster f tc tc.tc_top) else pure new_top
  if new_top ≠ -1 then
    let tc := tc.loc_history_append new_top
    pure (true, tc.set_top new_top)
  else
    pure (false, tc)

end lnav

/-! ## Log files and the file collection -/

/-- A `shared_ptr<logfile>`: the address of the log file object it points to. -/
abbrev logfile_ptr := Nat

/-- Modelled from the spec: `logfile` is declared in `logfile.hh`, which is not
part of the sources at hand.  A tracked file has a file name (which can change),
the device and inode of its `stat` (its identity), its size, a visibility flag
and a content id; `lf_valid_filename`, `lf_exists` and `lf_closed` are what
`is_valid_filename()`, `exists()` and `is_closed()` answer. -/
structure logfile where
  lf_filename : String
  lf_valid_filename : Bool
  st_dev : Nat
  st_ino : Nat
  st_size : Int
  lf_content_id : String
  lf_visible : Bool
  lf_exists : Bool
  lf_closed : Bool
deriving DecidableEq, Repr

/-- The log file objects, by address. -/
abbrev heap := logfile_ptr → logfile

/-- The call `lf->hide()`. -/
def logfile_hide (h : heap) (lf : logfile_ptr) : heap :=
  Function.update h lf { h lf with lf_visible := false }

/-- The call `lf->set_filename(name)`. -/
def logfile_set_filename (h : heap) (lf : logfile_ptr) (name : String) : heap :=
  Function.update h lf { h lf with lf_filename := name }

/-- Modelled from the spec: `logfile_open_options` is declared in `logfile.hh`,
which is not part of the sources at hand: the open options of a watched path (an
explicit descriptor, a display name, visibility, a size limit). -/
structure logfile_open_options where
  loo_filename : String
  loo_fd : Int
  loo_is_visible : Bool
  loo_non_utf_is_visible : Bool
  loo_visible_size_limit : Int
deriving DecidableEq, Repr

/-- A `std::map<std::string, V>`, as the partial function from keys to values
that it represents. -/
abbrev string_map (V : Type) := String → Option V

/-- A `std::set<std::string>`, as its membership test. -/
abbrev string_set := String → Bool

/-- The call `m.insert(o.begin(), o.end())` on a `std::map`: a key of `o` is
inserted with its value unless `m` already has the key. -/
def map_insert_range {V : Type} (m o : string_map V) : string_map V :=
  fun k => match m k with
    | some v => some v
    | none => o k

/-- The call `s.insert(o.begin(), o.end())` on a `std::set`. -/
def set_insert_range (s o : string_set) : string_set :=
  fun k => s k || o k

/-- Modelled from the spec: `file_collection` is declared in
`file_collection.hh`, which is not part of the sources at hand: the map from
failed paths to error strings, the map from watched paths to open options, the
list of tracked files, the generation counter of that list, the pending
renames, the set of closed files and the map from non-log paths to a label. -/
structure file_collection where
  fc_name_to_errors : string_map String
  fc_file_names : string_map logfile_open_options
  fc_files : List logfile_ptr
  fc_files_generation : Nat
  fc_renamed_files : List (logfile_ptr × String)
  fc_closed_files : string_set
  fc_other_files : string_map String

namespace file_collection

/-- The method `file_collection::merge` (`lnav.cc`, lines 966-985): `this` after
the call, and the log file objects after the renames. -/
def merge (h : heap) (this other : file_collection) : heap × file_collection :=
  let fc_name_to_errors := map_insert_range this.fc_name_to_errors other.fc_name_to_errors
  let fc_file_names := map_insert_range this.fc_file_names other.fc_file_names
  let files_gen :=
    if ¬ other.fc_files.isEmpty then
      (this.fc_files ++ other.fc_files, this.fc_files_generation + 1)
    else
      (this.fc_files, this.fc_files_generation)
  let h := other.fc_renamed_files.foldl (fun h pair => logfile_set_filename h pair.1 pair.2) h
  let fc_closed_files := set_insert_range this.fc_closed_files other.fc_closed_files
  let fc_other_files := map_insert_range this.fc_other_files other.fc_other_files
  (h, { this with
          fc_name_to_errors := fc_name_to_errors
          fc_file_names := fc_file_names
          fc_files := files_gen.1
          fc_files_generation := files_gen.2
          fc_closed_files := fc_closed_files
          fc_other_files := fc_other_files })

/-- A sequence of merges into `this`, one delta after the other. -/
def merge_all (h : heap) (this : file_collection) : List file_collection → heap × file_collection
  | [] => (h, this)
  | d :: ds => merge_all (merge h this d).1 (merge h this d).2 ds

/-- A default-constructed collection, as in `file_collection retval;`. -/
def empty : file_collection :=
  { fc_name_to_errors := fun _ => none
    fc_file_names := fun _ => none
    fc_files := []
    fc_files_generation := 0
    fc_renamed_files := []
    fc_closed_files := fun _ => false
    fc_other_files := fun _ => none }

/-- A collection whose only content is the tracked files `files`. -/
def of_files (files : List logfile_ptr) : file_collection :=
  { empty with fc_files := files }

end file_collection

/-- The last name the pending renames `renames` give to the file `lf`, if they
rename it. -/
def last_rename (lf : logfile_ptr) : List (logfile_ptr × String) → Option String
  | [] => none
  | pair :: rest =>
    match last_rename lf rest with
    | some name => some name
    | none => if pair.1 = lf then some pair.2 else none

/-- The device and inode of a tracked file: what `same_file` compares
(`lnav.cc`, lines 921-937). -/
def file_identity (h : heap) (lf : logfile_ptr) : Nat × Nat :=
  ((h lf).st_dev, (h lf).st_ino)

/-- The tracked files of a list have pairwise distinct (device, inode) pairs. -/
def distinct_identities (h : heap) (files : List logfile_ptr) : Prop :=
  files.Pairwise (fun a b => file_identity h a ≠ file_identity h b)

/-! ## The duplicate-suppression pass of `rebuild_indexes` -/

/-- The statement `id_to_files[id].push_back(lf)` on the
`unordered_map<string, list<shared_ptr<logfile>>>`, kept as the list of its
pairs in the order the keys were first inserted. -/
def id_to_files_push_back :
    List (String × List logfile_ptr) → String → logfile_ptr → List (String × List logfile_ptr)
  | [], id, lf => [(id, [lf])]
  | (k, v) :: rest, id, lf =>
    if k = id then (k, v ++ [lf]) :: rest else (k, v) :: id_to_files_push_back rest id lf

/-- The first loop of the pass (`lnav.cc`, lines 603-609): the visible files
grouped by content id. -/
def build_id_to_files (h : heap) (files : List logfile_ptr) : List (String × List logfile_ptr) :=
  files.foldl
    (fun m lf => if ¬ (h lf).lf_visible then m else id_to_files_push_back m (h lf).lf_content_id lf)
    []

/-- The call `pair.second.sort(...)` with the comparison
`right->get_stat().st_size < left->get_stat().st_size`, where `size` reads the
size of a file: `list::sort` is stable, so the result is the list in decreasing
order of size, files of the same size in the order they had. -/
def sort_by_size_desc (size : logfile_ptr → Int) (lfs : List logfile_ptr) : List logfile_ptr :=
  lfs.insertionSort (fun left right => size right ≤ size left)

/-- One iteration of the second loop of the pass (`lnav.cc`, lines 611-630):
a group of one file is skipped; otherwise the group is sorted, its front is
popped and the rest is hidden, and `reload` is set. -/
def hide_duplicates_step (st : heap × Bool) (pair : String × List logfile_ptr) : heap × Bool :=
  if pair.2.length = 1 then
    st
  else
    let sorted := sort_by_size_desc (fun lf => (st.1 lf).st_size) pair.2
    let rest := sorted.tail
    (rest.foldl logfile_hide st.1, true)

/-- The duplicate-suppression pass of `rebuild_indexes` (`lnav.cc`, lines
599-635) on the active files: the collection and the log file objects after the
pass, and whether `lss.text_filters_changed()` was called. -/
def rebuild_indexes_hide_duplicates (h : heap) (active : file_collection) :
    heap × file_collection × Bool :=
  let id_to_files := build_id_to_files h active.fc_files
  let st := id_to_files.foldl hide_duplicates_step (h, false)
  (st.1, active, st.2)

/-- The visible tracked files of the list `files` whose content id is `id`, in
the order of the list. -/
def visible_with_id (h : heap) (files : List logfile_ptr) (id : String) : List logfile_ptr :=
  files.filter (fun lf => (h lf).lf_visible && decide ((h lf).lf_content_id = id))

/-- The files the second loop hides: the tail of each sorted group of more than
one file. -/
def hidden_files (size : logfile_ptr → Int) (groups : List (String × List logfile_ptr)) :
    List logfile_ptr :=
  groups.flatMap (fun pair =>
    if pair.2.length = 1 then [] else (sort_by_size_desc size pair.2).tail)

/-- A log file object of the given size, content id and visibility; every such
object has the same device and inode. -/
def sample_logfile (size : Int) (id : String) (visible : Bool) : logfile :=
  { lf_filename := "messages.log"
    lf_valid_filename := true
    st_dev := 1
    st_ino := 1
    st_size := size
    lf_content_id := id
    lf_visible := visible
    lf_exists := true
    lf_closed := false }

/-- Three visible log file objects with the same content id and the sizes 100,
50 and 75, at the addresses 0, 1 and 2. -/
def sample_heap : heap := fun lf =>
  match lf with
  | 0 => sample_logfile 100 "id" true
  | 1 => sample_logfile 50 "id" true
  | _ => sample_logfile 75 "id" true

/-- The visibility flags of the tracked files, in the order of the list. -/
def visible_flags (h : heap) (files : List logfile_ptr) : List Bool :=
  files.map (fun lf => (h lf).lf_visible)

/-! ## `file_collection::close_file` and the sweep of `rebuild_indexes` -/

/-- The call `m.erase(k)` on a `std::map`. -/
def map_erase {V : Type} (m : string_map V) (k : String) : string_map V :=
  fun k' => if k' = k then none else m k'

/-- The assignment `m[k] = v` on a `std::map`. -/
def map_set {V : Type} (m : string_map V) (k : String) (v : V) : string_map V :=
  fun k' => if k' = k then some v else m k'

namespace file_collection

/-- The method `file_collection::close_file` (`lnav.cc`, lines 939-953).  `find`
gives the first position of `lf` in the list and `erase` removes that position.
The call `regenerate_unique_file_names` recomputes display names only. -/
def close_file (h : heap) (this : file_collection) (lf : logfile_ptr) : file_collection :=
  let fc_file_names :=
    if ¬ (h lf).lf_valid_filename then
      map_erase this.fc_file_names (h lf).lf_filename
    else
      this.fc_file_names
  if lf ∈ this.fc_files then
    { this with
        fc_file_names := fc_file_names
        fc_files := this.fc_files.erase lf
        fc_files_generation := this.fc_files_generation + 1 }
  else
    { this with fc_file_names := fc_file_names }

end file_collection

/-- The loop of the sweep of `rebuild_indexes` (`lnav.cc`, lines 564-583) over the
files from the iterator on: the files that stay, and the watched-path map and
the generation after the loop. -/
def rebuild_indexes_sweep_loop (h : heap) :
    List logfile_ptr → string_map logfile_open_options × Nat →
    List logfile_ptr × string_map logfile_open_options × Nat
  | [], st => ([], st)
  | lf :: rest, st =>
    if ¬ (h lf).lf_exists ∨ (h lf).lf_closed then
      let names :=
        if ¬ (h lf).lf_valid_filename then map_erase st.1 (h lf).lf_filename else st.1
      rebuild_indexes_sweep_loop h rest (names, st.2 + 1)
    else
      let r := rebuild_indexes_sweep_loop h rest st
      (lf :: r.1, r.2)

/-- The sweep of `rebuild_indexes` on the active files: a file that no longer
exists or is closed is erased from the list.  The text source and the log source
it is also removed from are not part of the collection. -/
def rebuild_indexes_sweep (h : heap) (active : file_collection) : file_collection :=
  let r := rebuild_indexes_sweep_loop h active.fc_files
    (active.fc_file_names, active.fc_files_generation)
  { active with
      fc_files := r.1
      fc_file_names := r.2.1
      fc_files_generation := r.2.2 }

/-- The tracked files the sweep removes: those that no longer exist or are
closed. -/
def swept_files (h : heap) (files : List logfile_ptr) : List logfile_ptr :=
  files.filter (fun lf => !(h lf).lf_exists || (h lf).lf_closed)

/-- The heap in which the file object 0 exists and every other file object is
gone. -/
def gone_heap : heap := fun lf =>
  { sample_logfile 10 "id" true with lf_exists := decide (lf = 0) }

/-! ## `file_collection::watch_logfile` and `expand_filename` -/

/-- What `S_ISDIR` and `S_ISREG` tell of `st_mode`. -/
inductive file_type where
  | directory
  | regular
  | other
deriving DecidableEq, Repr

/-- The fields of `struct stat` that `watch_logfile` reads. -/
structure stat_t where
  st_mode : file_type
  st_dev : Nat
  st_ino : Nat
deriving DecidableEq, Repr

/-- Modelled from the spec: `file_format_t` is declared in `file_format.hh`,
which is not part of the sources at hand: a database, an archive, or anything
else. -/
inductive file_format_t where
  | FF_SQLITE_DB
  | FF_ARCHIVE
  | FF_UNKNOWN
deriving DecidableEq, Repr

/-- An entry that `archive_manager::walk_archive_files` hands to its callback:
`entry.path().string()`, `entry.path().extension()`, the path relative to the
temporary directory, and `entry.file_size()`. -/
structure archive_entry where
  ae_path : String
  ae_extension : String
  ae_relative : String
  ae_file_size : Nat
deriving DecidableEq, Repr

/-- The file system and the other collaborators of `watch_logfile` and
`expand_filename`, none of them part of the sources at hand: `stat` and `fstat`
(an error carries `strerror(errno)`), `strerror(EINVAL)`, the flag
`LNF_RECURSIVE`, `detect_file_format`, the entries of an archive, the
construction of a `logfile` (the new object, or the text of `logfile::error`),
`is_url`, `glob` with `GLOB_NOCHECK` (`none` when it fails), `access` with `F_OK`
and with `R_OK`, and `realpath`. -/
structure file_system where
  fs_stat : String → Except String stat_t
  fs_fstat : Int → Except String stat_t
  fs_strerror_EINVAL : String
  fs_recursive : Bool
  fs_detect_file_format : String → file_format_t
  fs_walk_archive_files : String → List archive_entry
  fs_open_logfile : String → logfile_open_options → Except String logfile_ptr
  fs_is_url : String → Bool
  fs_glob : String → Option (List String)
  fs_access_F_OK : String → Bool
  fs_access_R_OK : String → Bool
  fs_realpath : String → Option String

/-- Modelled from the spec: a default-constructed `logfile_open_options`; the
default member values are in `logfile.hh`, which is not part of the sources at
hand.  The descriptor `-1` stands for "no descriptor", as `watch_logfile` and
`rescan_files` test it. -/
def logfile_open_options.default : logfile_open_options :=
  { loo_filename := ""
    loo_fd := -1
    loo_is_visible := true
    loo_non_utf_is_visible := true
    loo_visible_size_limit := -1 }

/-- The comparison of `same_file` (`lnav.cc`, lines 921-937). -/
def same_file (h : heap) (st : stat_t) (lf : logfile_ptr) : Bool :=
  st.st_dev == (h lf).st_dev && st.st_ino == (h lf).st_ino

/-- The options an entry of an archive is registered with (`lnav.cc`, lines
1072-1092). -/
def archive_entry_options (filename : String) (entry : archive_entry) : logfile_open_options :=
  { logfile_open_options.default with
      loo_filename := filename ++ "/" ++ entry.ae_relative
      loo_is_visible := if entry.ae_file_size = 0 then false else true
      loo_non_utf_is_visible := false
      loo_visible_size_limit := 128 * 1024 }

/-- The extensions the callback leaves out (`lnav.cc`, line 1068). -/
def archive_entry_excluded (entry : archive_entry) : Bool :=
  entry.ae_extension == ".jar" || entry.ae_extension == ".war" || entry.ae_extension == ".zip"

/-- The callback given to `walk_archive_files` (`lnav.cc`, lines 1065-1093). -/
def walk_archive_callback (filename : String) (retval : file_collection)
    (entry : archive_entry) : file_collection :=
  if archive_entry_excluded entry then
    retval
  else
    { retval with
        fc_file_names :=
          map_set retval.fc_file_names entry.ae_path (archive_entry_options filename entry) }

namespace file_collection

/-- The task `watch_logfile` starts for a file that is not tracked yet
(`lnav.cc`, lines 1052-1115). -/
def watch_logfile_async (fs : file_system) (filename : String) (loo : logfile_open_options) :
    file_collection :=
  match fs.fs_detect_file_format filename with
  | file_format_t.FF_SQLITE_DB =>
    { empty with fc_other_files := map_set empty.fc_other_files filename "SQLite Database" }
  | file_format_t.FF_ARCHIVE =>
    (fs.fs_walk_archive_files filename).foldl (walk_archive_callback filename)
      { empty with fc_other_files := map_set empty.fc_other_files filename "Archive" }
  | file_format_t.FF_UNKNOWN =>
    match fs.fs_open_logfile filename loo with
    | Except.ok lf => { empty with fc_files := [lf] }
    | Except.error what =>
      { empty with fc_name_to_errors := map_set empty.fc_name_to_errors filename what }

/-- The block `if (rc == -1)` of `watch_logfile` (`lnav.cc`, lines 1037-1042),
with the text of `strerror(errno)`. -/
def watch_logfile_failed (filename : String) (required : Bool) (error : String) :
    file_collection :=
  if required then
    { empty with fc_name_to_errors := map_set empty.fc_name_to_errors filename error }
  else
    empty

/-- The `stat` of `watch_logfile` (`lnav.cc`, lines 1009-1014). -/
def watch_logfile_stat (fs : file_system) (filename : String) (loo : logfile_open_options) :
    Except String stat_t :=
  if loo.loo_fd ≠ -1 then fs.fs_fstat loo.loo_fd else fs.fs_stat filename

/-- The method `file_collection::watch_logfile` (`lnav.cc`, lines 996-1129): the
collection the returned future holds. -/
def watch_logfile (fs : file_system) (h : heap) (this : file_collection) (filename : String)
    (loo : logfile_open_options) (required : Bool) : file_collection :=
  if this.fc_closed_files filename then
    empty
  else
    match watch_logfile_stat fs filename loo with
    | Except.error error => watch_logfile_failed filename required error
    | Except.ok st =>
      if st.st_mode = file_type.directory ∧ fs.fs_recursive then
        let wilddir := filename ++ "/*"
        if (this.fc_file_names wilddir).isNone then
          { empty with
              fc_file_names := map_set empty.fc_file_names wilddir logfile_open_options.default }
        else
          empty
      else if st.st_mode ≠ file_type.regular then
        if required then
          watch_logfile_failed filename required fs.fs_strerror_EINVAL
        else
          empty
      else
        match this.fc_files.find? (same_file h st) with
        | none =>
          if (this.fc_other_files filename).isSome then
            empty
          else
            watch_logfile_async fs filename loo
        | some lf =>
          if (h lf).lf_valid_filename ∧ (h lf).lf_filename ≠ filename then
            { empty with fc_renamed_files := empty.fc_renamed_files ++ [(lf, filename)] }
          else
            empty

/-- The method `file_collection::expand_filename` (`lnav.cc`, lines 1137-1180).
Each call of `watch_logfile` is made when its path is reached; the
`future_queue` then hands the results to `retval.merge` in the order they were
pushed. -/
def expand_filename (fs : file_system) (h : heap) (this : file_collection) (path : String)
    (loo : logfile_open_options) (required : Bool) : heap × file_collection :=
  if fs.fs_is_url path then
    (h, empty)
  else
    match fs.fs_glob path with
    | none => (h, empty)
    | some gl_pathv =>
      let required :=
        if gl_pathv.length = 1 ∧ ¬ fs.fs_access_F_OK path then false else required
      let required :=
        if gl_pathv.length > 1 ∨ gl_pathv.head? ≠ some path then false else required
      let results := gl_pathv.filterMap (fun p =>
        match fs.fs_realpath p with
        | none => none
        | some abspath =>
          if required ∨ fs.fs_access_R_OK abspath then
            some (watch_logfile fs h this abspath loo required)
          else
            none)
      results.foldl (fun st fc => merge st.1 st.2 fc) (h, empty)

end file_collection

/-- A file system in which nothing exists: `stat` fails, `glob` gives the
pattern back, `access` fails and `realpath` fails. -/
def empty_file_system : file_system :=
  { fs_stat := fun _ => Except.error "No such file or directory"
    fs_fstat := fun _ => Except.error "Bad file descriptor"
    fs_strerror_EINVAL := "Invalid argument"
    fs_recursive := false
    fs_detect_file_format := fun _ => file_format_t.FF_UNKNOWN
    fs_walk_archive_files := fun _ => []
    fs_open_logfile := fun _ _ => Except.error "No such file or directory"
    fs_is_url := fun _ => false
    fs_glob := fun p => some [p]
    fs_access_F_OK := fun _ => false
    fs_access_R_OK := fun _ => false
    fs_realpath := fun _ => none }

/-- A file system in which every path is a regular file with device 1 and inode
1 that holds an archive with the entries `a.txt` of 500 bytes and `b.zip` of 0
bytes. -/
def archive_file_system : file_system :=
  { empty_file_system with
      fs_stat := fun _ => Except.ok { st_mode := file_type.regular, st_dev := 1, st_ino := 1 }
      fs_detect_file_format := fun _ => file_format_t.FF_ARCHIVE
      fs_walk_archive_files := fun _ =>
        [ { ae_path := "/tmp/x/a.txt", ae_extension := ".txt", ae_relative := "a.txt",
            ae_file_size := 500 },
          { ae_path := "/tmp/x/b.zip", ae_extension := ".zip", ae_relative := "b.zip",
            ae_file_size := 0 } ] }

/-! ## The histogram index delegate -/

/-- Modelled from the spec: `log_level_t` is declared in `log_level.hh`, which is
not part of the sources at hand: the four levels `index_line` names, and the
levels below them. -/
inductive log_level_t where
  | LEVEL_UNKNOWN
  | LEVEL_TRACE
  | LEVEL_DEBUG
  | LEVEL_INFO
  | LEVEL_STATS
  | LEVEL_NOTICE
  | LEVEL_WARNING
  | LEVEL_ERROR
  | LEVEL_CRITICAL
  | LEVEL_FATAL
deriving DecidableEq, Repr

/-- The bucket types of `hist_source2` that `index_line` uses. -/
inductive hist_type_t where
  | HT_NORMAL
  | HT_WARNING
  | HT_ERROR
  | HT_MARK
deriving DecidableEq, Repr

/-- Modelled from the spec: `logline` is declared in `logfile.hh`, which is not
part of the sources at hand: what `is_continued()`, `get_time()`,
`get_msg_level()`, `is_marked()` and `is_expr_marked()` answer for an indexed
line. -/
structure logline where
  ll_continued : Bool
  ll_time : Int
  ll_level : log_level_t
  ll_marked : Bool
  ll_expr_marked : Bool
deriving DecidableEq, Repr

/-- Modelled from the spec: `hist_source2` is declared in `hist_source.hh`, which
is not part of the sources at hand: the values added to it, one unit each, in
the order of the calls of `add_value(time, type)`. -/
abbrev hist_source2 := List (Int × hist_type_t)

/-- The call `hs.add_value(time, ht)`. -/
def hist_source2.add_value (hs : hist_source2) (time : Int) (ht : hist_type_t) : hist_source2 :=
  hs ++ [(time, ht)]

namespace view_helpers

/-- The method `hist_index_delegate::index_line` of `view_helpers.cc` (lines
787-816): the histogram source after the call. -/
def hist_index_delegate_index_line (hid_source : hist_source2) (ll : logline) : hist_source2 :=
  if ll.ll_continued ∨ ll.ll_time = 0 then
    hid_source
  else
    let ht :=
      match ll.ll_level with
      | log_level_t.LEVEL_FATAL => hist_type_t.HT_ERROR
      | log_level_t.LEVEL_CRITICAL => hist_type_t.HT_ERROR
      | log_level_t.LEVEL_ERROR => hist_type_t.HT_ERROR
      | log_level_t.LEVEL_WARNING => hist_type_t.HT_WARNING
      | _ => hist_type_t.HT_NORMAL
    let hid_source := hid_source.add_value ll.ll_time ht
    if ll.ll_marked ∨ ll.ll_expr_marked then
      hid_source.add_value ll.ll_time hist_type_t.HT_MARK
    else
      hid_source

end view_helpers

namespace lnav

/-- The method `hist_index_delegate::index_line` of `lnav.cc` (lines 435-460):
the histogram source after the call. -/
def hist_index_delegate_index_line (hid_source : hist_source2) (ll : logline) : hist_source2 :=
  if ll.ll_continued ∨ ll.ll_time = 0 then
    hid_source
  else
    let ht :=
      match ll.ll_level with
      | log_level_t.LEVEL_FATAL => hist_type_t.HT_ERROR
      | log_level_t.LEVEL_CRITICAL => hist_type_t.HT_ERROR
      | log_level_t.LEVEL_ERROR => hist_type_t.HT_ERROR
      | log_level_t.LEVEL_WARNING => hist_type_t.HT_WARNING
      | _ => hist_type_t.HT_NORMAL
    let hid_source := hid_source.add_value ll.ll_time ht
    if ll.ll_marked then
      hid_source.add_value ll.ll_time hist_type_t.HT_MARK
    else
      hid_source

end lnav

/-- The bucket type of a level, as the claim about `index_line` words it: error
for fatal, critical and error, warning for warning, normal for every other
level. -/
def level_bucket (level : log_level_t) : hist_type_t :=
  if level = log_level_t.LEVEL_FATAL ∨ level = log_level_t.LEVEL_CRITICAL
      ∨ level = log_level_t.LEVEL_ERROR then
    hist_type_t.HT_ERROR
  else if level = log_level_t.LEVEL_WARNING then
    hist_type_t.HT_WARNING
  else
    hist_type_t.HT_NORMAL

/-! ## The scroll position of the log view in `rebuild_indexes` -/

/-- Modelled from the spec: the result of `logfile_sub_source::rebuild_index`,
declared in `logfile_sub_source.hh`, which is not part of the sources at hand:
no change, an incremental append, or a full rebuild. -/
inductive rebuild_result where
  | rr_no_change
  | rr_incremental
  | rr_full_rebuild
deriving DecidableEq, Repr

/-- The conversion `vis_line_t(new_count)` of a `size_t` to the `int` that a
`vis_line_t` holds: the value modulo `2^32`, read as a signed number of 32
bits. -/
def to_vis_line_t (n : Nat) : Int :=
  if n % 2 ^ 32 < 2 ^ 31 then ((n % 2 ^ 32 : Nat) : Int) else ((n % 2 ^ 32 : Nat) : Int) - 2 ^ 32

/-- The flag `scroll_downs[LNV_LOG]` of `rebuild_indexes` when the last loop
reads it (`lnav.cc`, lines 531-536 and 585-595): `top` is the top of the log
view, which nothing moves before the last loop, `old_bottom` its
top-for-last-row at the start of the pass, `headless` the flag `LNF_HEADLESS`
and `new_count` the line count after `rebuild_index`, a `size_t`. -/
def rebuild_indexes_scroll_down (headless : Bool) (result : rebuild_result) (new_count : Nat)
    (old_bottom top : Int) : Bool :=
  let scroll_down := decide (top ≥ old_bottom) && !headless
  if result ≠ rebuild_result.rr_no_change then
    let force := decide (result = rebuild_result.rr_full_rebuild)
    if (!scroll_down || decide (top > to_vis_line_t new_count)) && force then
      false
    else
      scroll_down
  else
    scroll_down

/-- The log view after a pass of `rebuild_indexes`, as far as its top goes
(`lnav.cc`, lines 531-536, 585-597 and 638-644): `new_bottom` is the
top-for-last-row of the log view when the last loop reads it.  The calls of
`rebuild_index` and `reload_data`, which are not part of the sources at hand,
are taken to leave the top where it is. -/
def rebuild_indexes_log_view (headless : Bool) (result : rebuild_result) (new_count : Nat)
    (old_bottom new_bottom : Int) (log_view : textview_curses) : textview_curses :=
  let scroll_down :=
    rebuild_indexes_scroll_down headless result new_count old_bottom log_view.tc_top
  if scroll_down ∧ new_bottom > log_view.tc_top then
    log_view.set_top new_bottom
  else
    log_view

/-! ## The view stack -/

/-- Modelled from the spec: `lnav_view_t` is declared in `lnav.hh`, which is not
part of the sources at hand: the indices of `ld_views` that the sources name. -/
inductive lnav_view_t where
  | LNV_LOG
  | LNV_TEXT
  | LNV_HELP
  | LNV_HISTOGRAM
  | LNV_DB
  | LNV_SCHEMA
  | LNV_PRETTY
  | LNV_SPECTRO
deriving DecidableEq, Repr

/-- The part of `lnav_data` that `toggle_view` writes: the view stack, whose top
is its last element, and `ld_last_view`.  A view is named by its index in
`ld_views`. -/
structure view_stack_state where
  ld_view_stack : List lnav_view_t
  ld_last_view : Option lnav_view_t
deriving DecidableEq, Repr

namespace view_helpers

/-- The function `open_pretty_view` of `view_helpers.cc` (lines 113-215), as far
as the view stack goes.  Its first statement reads the view on top of the stack
through `*lnav_data.ld_view_stack.top()`; what it builds from that view is the
sub source of the pretty view, which is not part of the state here, and the
stack is left alone. -/
def open_pretty_view (s : view_stack_state) : Except failure Unit :=
  match optional_deref s.ld_view_stack.getLast? with
  | Except.ok _ => Except.ok ()
  | Except.error e => Except.error e

/-- The function `toggle_view` of `view_helpers.cc` (lines 570-603): the returned
boolean and the state after the call.  Opening the schema view, rebuilding the
histogram and building the help text fill the view that is pushed and do not
read the stack; opening the pretty view reads its top. -/
def toggle_view (s : view_stack_state) (toggle_tc : lnav_view_t) :
    Except failure (Bool × view_stack_state) :=
  let tc := s.ld_view_stack.getLast?
  if tc = some toggle_tc then
    if s.ld_view_stack.length = 1 then
      Except.ok (false, s)
    else
      Except.ok (false, { ld_last_view := tc, ld_view_stack := s.ld_view_stack.dropLast })
  else
    let opened :=
      if toggle_tc = lnav_view_t.LNV_SCHEMA then
        Except.ok ()
      else if toggle_tc = lnav_view_t.LNV_PRETTY then
        open_pretty_view s
      else
        Except.ok ()
    match opened with
    | Except.ok _ =>
      Except.ok (true, { ld_last_view := none, ld_view_stack := s.ld_view_stack ++ [toggle_tc] })
    | Except.error e => Except.error e

/-- The function `ensure_view` of `view_helpers.cc` (lines 611-622). -/
def ensure_view (s : view_stack_state) (expected_tc : lnav_view_t) :
    Except failure (Bool × view_stack_state) :=
  let tc := s.ld_view_stack.getLast?
  if tc ≠ some expected_tc then
    match toggle_view s expected_tc with
    | Except.ok r => Except.ok (false, r.2)
    | Except.error e => Except.error e
  else
    Except.ok (true, s)

end view_helpers

/-- The last entry of an archive walk that is registered under the path `k`:
the callback assigns `fc_file_names[k]` anew for each entry with that path. -/
def last_archive_entry (k : String) : List archive_entry → Option archive_entry
  | [] => none
  | entry :: rest =>
    match last_archive_entry k rest with
    | some e => some e
    | none => if entry.ae_path = k ∧ archive_entry_excluded entry = false then some entry else none

/-! ## `previous_cluster` -/

/-- Modelled from the spec: `key_repeat_history` is declared in `lnav.hh`, which
is not part of the sources at hand: the count of the repeated key presses and
the line at which the repetition began. -/
structure key_repeat_history where
  krh_count : Nat
  krh_start_line : Int
deriving DecidableEq, Repr

/-- The test `initial_top < (krh.krh_start_line - (1.5 * height))`.  The three
lines are `int` values, which `double` represents exactly, and so are
`1.5 * height` and the difference: the comparison is that of the integers
`2 * initial_top` and `2 * krh_start_line - 3 * height`. -/
def above_repeat_start (krh : key_repeat_history) (initial_top height : Int) : Bool :=
  decide (2 * initial_top < 2 * krh.krh_start_line - 3 * height)

namespace view_helpers

/-- The function `previous_cluster` of `view_helpers.cc` (lines 707-742): the
view after the call.  The value that `bv.next` returns is a `vis_line_t`; the
assignment to `new_top` makes an optional that holds it. -/
def previous_cluster (krh : key_repeat_history) (tc : textview_curses) :
    Except failure textview_curses := do
  let initial_top := if tc.tc_selectable then tc.tc_selection else tc.tc_top
  let new_top ← with_fuel (next_cluster bookmark_vector.prev tc initial_top)
  let height := tc.tc_height
  let new_top :=
    if krh.krh_count > 1 ∧ above_repeat_start krh initial_top height = true
        ∧ (match new_top with
            | none => true
            | some v => decide (initial_top - v < height)) = true then
      some (tc.tc_bookmarks.next (max 0 (initial_top - height)))
    else
      new_top
  match new_top with
  | some v =>
    let tc := tc.loc_history_append v
    if tc.tc_selectable then
      pure (tc.set_selection v)
    else
      pure (tc.set_top v)
  | none => pure tc

end view_helpers

namespace lnav

/-- The function `previous_cluster` of `lnav.cc` (lines 777-805), with `tc` the
view at the top of the view stack: the view after the call. -/
def previous_cluster (krh : key_repeat_history) (tc : textview_curses) :
    Except failure textview_curses := do
  let initial_top := tc.tc_top
  let new_top ← with_fuel (next_cluster bookmark_vector.prev tc initial_top)
  let height := tc.tc_height
  let new_top :=
    if krh.krh_count > 1 ∧ above_repeat_start krh initial_top height = true
        ∧ initial_top - new_top < height then
      tc.tc_bookmarks.next (max 0 (initial_top - height))
    else
      new_top
  if new_top ≠ -1 then
    let tc := tc.loc_history_append new_top
    pure (tc.set_top new_top)
  else
    pure tc

end lnav

/-! ## `match_escape_seq` -/

/-- Modelled from the spec: `ln_mode_t` is declared in `lnav.hh`, which is not
part of the sources at hand: the modes that `handle_key` names. -/
inductive ln_mode_t where
  | LNM_PAGING
  | LNM_FILTER
  | LNM_FILES
  | LNM_COMMAND
  | LNM_SEARCH
  | LNM_CAPTURE
  | LNM_SQL
  | LNM_EXEC
  | LNM_USER
deriving DecidableEq, Repr

/-- The three results of `input_dispatcher::escape_match_t`. -/
inductive escape_match_t where
  | NONE
  | PARTIAL
  | FULL
deriving DecidableEq, Repr

/-- The loop of `std::max_element` over the positions from `first` up to
`last`, with the comparison of `match_escape_seq` (the sizes of the keys):
`largest` is the position of the first longest key so far. -/
def max_element_loop (keys : List String) (last : Nat) : Nat → Nat → Nat → Nat
  | 0, _, largest => largest
  | fuel + 1, first, largest =>
    if first = last then
      largest
    else
      let largest :=
        if (keys.getD largest "").length < (keys.getD first "").length then first else largest
      max_element_loop keys last fuel (first + 1) largest

/-- The call `std::max_element(first, last, comp)` on positions of the key list:
it returns `last` on an empty range. -/
def max_element (keys : List String) (first last : Nat) : Nat :=
  if first = last then last else max_element_loop keys last (last - first) (first + 1) first

/-- The function `match_escape_seq` (`lnav.cc`, lines 1326-1353).  The map
`km_seq_to_cmd` is kept as the list of its pairs in the order of the keys; an
iterator is a position of that list and `end()` is its length.  The keys are
compared as `std::string` compares them, character by character. -/
def match_escape_seq (ld_mode : ln_mode_t) (km_seq_to_cmd : List (String × String))
    (keyseq : String) : escape_match_t :=
  if ld_mode ≠ ln_mode_t.LNM_PAGING then
    escape_match_t.NONE
  else
    let keys := km_seq_to_cmd.map Prod.fst
    if keyseq ∈ keys then
      escape_match_t.FULL
    else
      let lb := keys.findIdx (fun key => decide (keyseq.data ≤ key.data))
      if lb = keys.length then
        escape_match_t.NONE
      else
        let ub := keys.findIdx (fun key => decide (keyseq.data < key.data))
        let longest := max_element keys lb ub
        if keyseq.length < (keys.getD longest "").length then
          escape_match_t.PARTIAL
        else
          escape_match_t.NONE

/-- A collection in which the path `messages.log` has been closed. -/
def closed_messages_collection : file_collection :=
  { file_collection.empty with fc_closed_files := fun k => k == "messages.log" }

/-! ## Targets of the navigator -/

/-- The member function `f` gives, for each line, either `-1` or a bookmark that
the relation `R` holds between the line and it (`R` is "less than" for `next`
and "greater than" for `prev`). -/
def steps_by (f : bookmark_vector → Int → Int) (bv : bookmark_vector)
    (R : Int → Int → Prop) : Prop :=
  ∀ x : Int, f bv x = -1 ∨ ∃ m : Nat, m ∈ bv ∧ f bv x = (m : Int) ∧ R x (m : Int)

/-- The line `r` is a bookmark beyond `top`, in the direction `R`. -/
def is_target (bv : bookmark_vector) (R : Int → Int → Prop) (top r : Int) : Prop :=
  ∃ m : Nat, m ∈ bv ∧ r = (m : Int) ∧ R top (m : Int)

/-! ## Two deltas that share a watched path -/

/-- A delta of a scan: the watched paths `shared.log` and `a.log`, the error of
the path `missing.log`, the database `db.sqlite`, the tracked file 1 and the
rename of the file 3 to `a.log`. -/
def sample_delta_a : file_collection :=
  { file_collection.empty with
      fc_file_names := fun k =>
        if k = "shared.log" ∨ k = "a.log" then some logfile_open_options.default else none
      fc_name_to_errors := fun k => if k = "missing.log" then some "No such file" else none
      fc_files := [1]
      fc_renamed_files := [(3, "a.log")]
      fc_other_files := fun k => if k = "db.sqlite" then some "SQLite Database" else none }

/-- A delta of another scan: the watched paths `shared.log` and `b.log`, the
same error of the path `missing.log`, the same database `db.sqlite`, the tracked
file 2 and the rename of the file 4 to `b.log`. -/
def sample_delta_b : file_collection :=
  { file_collection.empty with
      fc_file_names := fun k =>
        if k = "shared.log" ∨ k = "b.log" then some logfile_open_options.default else none
      fc_name_to_errors := fun k => if k = "missing.log" then some "No such file" else none
      fc_files := [2]
      fc_renamed_files := [(4, "b.log")]
      fc_other_files := fun k => if k = "db.sqlite" then some "SQLite Database" else none }

/-- A heap with two identities: the file object 0 is `other.log` with device 2
and inode 9, every other file object is a `messages.log` with device 1 and inode
1. -/
def two_identity_heap : heap := fun lf =>
  match lf with
  | 0 => { sample_logfile 10 "other" true with
            lf_filename := "other.log", st_dev := 2, st_ino := 9 }
  | _ => sample_logfile 50 "id" true

/-! ## Measures for the termination of the loops -/

/-- A member function `f` of the vector advances when some measure of the line
it is given gets smaller each time it returns a bookmark. -/
def advances (f : bookmark_vector → Int → Int) (bv : bookmark_vector)
    (μ : Int → Nat) : Prop :=
  ∀ x, f bv x ≠ -1 → μ (f bv x) < μ x

/-- The number of bookmarks after the line `x`. -/
def count_after (bv : bookmark_vector) (x : Int) : Nat :=
  (bv.filter (fun (b : Nat) => decide (x < (b : Int)))).length

/-- The number of bookmarks before the line `x`. -/
def count_before (bv : bookmark_vector) (x : Int) : Nat :=
  (bv.filter (fun (b : Nat) => decide ((b : Int) < x))).length

/-! ## Facts about `next` and `prev` -/

namespace bookmark_vector

theorem next_eq_of_least {bv : bookmark_vector} {x : Int} {m : Nat}
    (hm : m ∈ bv) (hx : x < (m : Int)) (hl : ∀ b : Nat, b ∈ bv → x < (b : Int) → m ≤ b) :
    bv.next x = (m : Int) := by
  have h : (bv.filter (fun (b : Nat) => decide (x < (b : Int)))).min? = some m := by
    rw [List.min?_eq_some_iff']
    refine ⟨by simp [List.mem_filter, hm, hx], ?_⟩
    intro b hb
    simp only [List.mem_filter, decide_eq_true_eq] at hb
    exact hl b hb.1 hb.2
  simp [next, h]

theorem next_eq_neg_one {bv : bookmark_vector} {x : Int}
    (h : ∀ b : Nat, b ∈ bv → ¬ x < (b : Int)) : bv.next x = -1 := by
  have h0 : bv.filter (fun (b : Nat) => decide (x < (b : Int))) = [] := by
    rw [List.filter_eq_nil_iff]
    intro b hb
    simpa using h b hb
  simp [next, h0]

theorem next_cases (bv : bookmark_vector) (x : Int) :
    (bv.next x = -1 ∧ ∀ b : Nat, b ∈ bv → ¬ x < (b : Int)) ∨
      ∃ m ∈ bv, bv.next x = (m : Int) ∧ x < (m : Int) ∧ ∀ b : Nat, b ∈ bv → x < (b : Int) → m ≤ b := by
  cases hmin : (bv.filter (fun (b : Nat) => decide (x < (b : Int)))).min? with
  | none =>
    left
    rw [List.min?_eq_none_iff, List.filter_eq_nil_iff] at hmin
    have h : ∀ b : Nat, b ∈ bv → ¬ x < (b : Int) := fun b hb => by simpa using hmin b hb
    exact ⟨next_eq_neg_one h, h⟩
  | some m =>
    right
    rw [List.min?_eq_some_iff'] at hmin
    obtain ⟨hmem, hle⟩ := hmin
    simp only [List.mem_filter, decide_eq_true_eq] at hmem
    have hl : ∀ b : Nat, b ∈ bv → x < (b : Int) → m ≤ b := fun b hb hxb =>
      hle b (by simp [List.mem_filter, hb, hxb])
    exact ⟨m, hmem.1, next_eq_of_least hmem.1 hmem.2 hl, hmem.2, hl⟩

theorem prev_eq_of_greatest {bv : bookmark_vector} {x : Int} {m : Nat}
    (hm : m ∈ bv) (hx : (m : Int) < x) (hl : ∀ b : Nat, b ∈ bv → (b : Int) < x → b ≤ m) :
    bv.prev x = (m : Int) := by
  have h : (bv.filter (fun (b : Nat) => decide ((b : Int) < x))).max? = some m := by
    rw [List.max?_eq_some_iff']
    refine ⟨by simp [List.mem_filter, hm, hx], ?_⟩
    intro b hb
    simp only [List.mem_filter, decide_eq_true_eq] at hb
    exact hl b hb.1 hb.2
  simp [prev, h]

theorem prev_eq_neg_one {bv : bookmark_vector} {x : Int}
    (h : ∀ b : Nat, b ∈ bv → ¬ (b : Int) < x) : bv.prev x = -1 := by
  have h0 : bv.filter (fun (b : Nat) => decide ((b : Int) < x)) = [] := by
    rw [List.filter_eq_nil_iff]
    intro b hb
    simpa using h b hb
  simp [prev, h0]

theorem prev_cases (bv : bookmark_vector) (x : Int) :
    (bv.prev x = -1 ∧ ∀ b : Nat, b ∈ bv → ¬ (b : Int) < x) ∨
      ∃ m ∈ bv, bv.prev x = (m : Int) ∧ (m : Int) < x ∧ ∀ b : Nat, b ∈ bv → (b : Int) < x → b ≤ m := by
  cases hmax : (bv.filter (fun (b : Nat) => decide ((b : Int) < x))).max? with
  | none =>
    left
    rw [List.max?_eq_none_iff, List.filter_eq_nil_iff] at hmax
    have h : ∀ b : Nat, b ∈ bv → ¬ (b : Int) < x := fun b hb => by simpa using hmax b hb
    exact ⟨prev_eq_neg_one h, h⟩
  | some m =>
    right
    rw [List.max?_eq_some_iff'] at hmax
    obtain ⟨hmem, hle⟩ := hmax
    simp only [List.mem_filter, decide_eq_true_eq] at hmem
    have hl : ∀ b : Nat, b ∈ bv → (b : Int) < x → b ≤ m := fun b hb hxb =>
      hle b (by simp [List.mem_filter, hb, hxb])
    exact ⟨m, hmem.1, prev_eq_of_greatest hmem.1 hmem.2 hl, hmem.2, hl⟩

theorem binary_search_iff (bv : bookmark_vector) (t : Nat) :
    bv.binary_search (t : Int) = true ↔ t ∈ bv := by
  simp [binary_search]

theorem binary_search_false_iff (bv : bookmark_vector) (x : Int) :
    bv.binary_search x = false ↔ ∀ b : Nat, b ∈ bv → (b : Int) ≠ x := by
  simp [binary_search]

end bookmark_vector

/-! ## The two `next_cluster` loops compute the same thing -/

theorem lnav.next_cluster_inner_eq (f : bookmark_vector → Int → Int)
    (bv : bookmark_vector) (top h : Int) (hc : Int) (fuel : Nat) (a b : Int) :
    lnav.next_cluster_inner f bv top h hc fuel a b
      = view_helpers.next_cluster_inner f bv top h hc fuel a b := by
  induction fuel generalizing a b with
  | zero => rfl
  | succ n ih =>
    simp only [lnav.next_cluster_inner, view_helpers.next_cluster_inner, ih]

theorem lnav.next_cluster_loop_eq (f : bookmark_vector → Int → Int)
    (bv : bookmark_vector) (marked : Bool) (top h : Int) (fuel : Nat)
    (a b : Int) (hc : Int) :
    lnav.next_cluster_loop f bv marked top h fuel a b hc
      = (view_helpers.next_cluster_loop f bv marked top h fuel a b hc).map
          (fun r => r.getD (-1)) := by
  induction fuel generalizing a b hc with
  | zero => rfl
  | succ n ih =>
    simp only [lnav.next_cluster_loop, view_helpers.next_cluster_loop, ih,
      lnav.next_cluster_inner_eq]
    split_ifs <;> simp [Option.map_map, Function.comp_def]

theorem lnav.next_cluster_eq (f : bookmark_vector → Int → Int)
    (tc : textview_curses) (top : Int) :
    lnav.next_cluster f tc top
      = (view_helpers.next_cluster f tc top).map (fun r => r.getD (-1)) := by
  simp only [lnav.next_cluster, view_helpers.next_cluster, lnav.next_cluster_loop_eq]

/-! ## The loops terminate -/

theorem length_filter_lt_of_imp {p q : Nat → Bool} {m : Nat} :
    ∀ (l : List Nat), (∀ a, a ∈ l → p a = true → q a = true) → m ∈ l → q m = true →
      p m = false → (l.filter p).length < (l.filter q).length
  | [], _, hm, _, _ => by simp at hm
  | a :: l, hpq, hm, hqm, hpm => by
    have hle : (l.filter p).length ≤ (l.filter q).length := by
      rw [← List.countP_eq_length_filter, ← List.countP_eq_length_filter]
      exact List.countP_mono_left (fun x hx => hpq x (List.mem_cons_of_mem _ hx))
    rcases List.mem_cons.1 hm with rfl | hml
    · simp [List.filter_cons, hqm, hpm]
      omega
    · have ih := length_filter_lt_of_imp l
        (fun x hx => hpq x (List.mem_cons_of_mem _ hx)) hml hqm hpm
      have ha := hpq a (List.mem_cons_self _ _)
      by_cases hp : p a = true
      · simp [List.filter_cons, hp, ha hp]
        omega
      · by_cases hq : q a = true
        · simp [List.filter_cons, hp, hq]
          omega
        · simp [List.filter_cons, hp, hq]
          omega

theorem count_after_le (bv : bookmark_vector) (x : Int) :
    count_after bv x ≤ bv.length := List.length_filter_le _ _

theorem count_before_le (bv : bookmark_vector) (x : Int) :
    count_before bv x ≤ bv.length := List.length_filter_le _ _

theorem next_advances (bv : bookmark_vector) :
    advances bookmark_vector.next bv (count_after bv) := by
  intro x hx
  rcases bookmark_vector.next_cases bv x with ⟨h, _⟩ | ⟨m, hm, he, hlt, _⟩
  · exact absurd h hx
  · rw [he]
    refine length_filter_lt_of_imp (m := m) bv ?_ hm (by simpa using hlt) (by simp)
    intro a _ ha
    have ha' := of_decide_eq_true ha
    exact decide_eq_true (by omega)

theorem prev_advances (bv : bookmark_vector) :
    advances bookmark_vector.prev bv (count_before bv) := by
  intro x hx
  rcases bookmark_vector.prev_cases bv x with ⟨h, _⟩ | ⟨m, hm, he, hlt, _⟩
  · exact absurd h hx
  · rw [he]
    refine length_filter_lt_of_imp (m := m) bv ?_ hm (by simpa using hlt) (by simp)
    intro a _ ha
    have ha' := of_decide_eq_true ha
    exact decide_eq_true (by omega)

theorem view_helpers.next_cluster_inner_isSome
    {f : bookmark_vector → Int → Int} {bv : bookmark_vector}
    {μ : Int → Nat} (hadv : advances f bv μ) (top h : Int) (hc : Int) :
    ∀ (fuel : Nat) (a b : Int), μ a < fuel →
      (view_helpers.next_cluster_inner f bv top h hc fuel a b).isSome = true := by
  intro fuel
  induction fuel with
  | zero => intro a b hlt; omega
  | succ n ih =>
    intro a b hlt
    simp only [view_helpers.next_cluster_inner]
    split_ifs with h1 h2
    · rfl
    · rfl
    · exact ih _ _ (by have := hadv a h1; omega)

theorem view_helpers.next_cluster_loop_isSome
    {f : bookmark_vector → Int → Int} {bv : bookmark_vector}
    {μ : Int → Nat} (hadv : advances f bv μ) (marked : Bool) (top h : Int) :
    ∀ (fuel : Nat) (a b : Int) (hc : Int), μ a < fuel →
      (view_helpers.next_cluster_loop f bv marked top h fuel a b hc).isSome = true := by
  intro fuel
  induction fuel with
  | zero => intro a b hc hlt; omega
  | succ n ih =>
    intro a b hc hlt
    simp only [view_helpers.next_cluster_loop]
    split_ifs with h1 h2 h3 h4 h5
    · rfl
    · rfl
    · rfl
    · rfl
    · rw [Option.isSome_map']
      exact view_helpers.next_cluster_inner_isSome hadv top h _ _ _ _
        (by have := hadv a h1; omega)
    · exact ih _ _ _ (by have := hadv a h1; omega)

/-- Whatever the fuel, the loop either ran out of it or returned `r`; with the
fuel `next_cluster` gives it, it cannot have run out. -/
theorem view_helpers.next_cluster_of_loop
    {f : bookmark_vector → Int → Int} {tc : textview_curses}
    {μ : Int → Nat} (hadv : advances f tc.tc_bookmarks μ)
    (hμ : ∀ x, μ x ≤ tc.tc_bookmarks.length) {top : Int} {r : Option Int}
    (hr : ∀ fuel, view_helpers.next_cluster_loop f tc.tc_bookmarks
        (tc.tc_bookmarks.binary_search top) top tc.tc_height fuel top top 0 = none
      ∨ view_helpers.next_cluster_loop f tc.tc_bookmarks
        (tc.tc_bookmarks.binary_search top) top tc.tc_height fuel top top 0 = some r) :
    view_helpers.next_cluster f tc top = some r := by
  have hs := view_helpers.next_cluster_loop_isSome hadv
    (tc.tc_bookmarks.binary_search top) top tc.tc_height (tc.tc_bookmarks.length + 1)
    top top 0 (by have := hμ top; omega)
  simp only [view_helpers.next_cluster]
  rcases hr (tc.tc_bookmarks.length + 1) with h | h
  · rw [h] at hs; simp at hs
  · exact h

/-! ## Forward navigation over a short run -/

theorem view_helpers.next_cluster_loop_run (bv : bookmark_vector) (h : Int) (t k m : Nat)
    (hrun : ∀ i : Nat, i ≤ k → t + i ∈ bv) (hend : t + k + 1 ∉ bv)
    (hk : (k : Int) < max h 2) (hm : m ∈ bv) (hlt : t + k < m)
    (hleast : ∀ b : Nat, b ∈ bv → t + k < b → m ≤ b) :
    ∀ (fuel i : Nat), i ≤ k →
      view_helpers.next_cluster_loop bookmark_vector.next bv true t h fuel
          ((t : Int) + i) ((t : Int) + i) i = none
      ∨ view_helpers.next_cluster_loop bookmark_vector.next bv true t h fuel
          ((t : Int) + i) ((t : Int) + i) i = some (some (m : Int)) := by
  intro fuel
  induction fuel with
  | zero => intro i _; left; rfl
  | succ n ih =>
    intro i hi
    rcases Nat.lt_or_ge i k with hik | hik
    · have hnext : bookmark_vector.next bv ((t : Int) + i) = ((t + (i + 1) : Nat) : Int) := by
        apply bookmark_vector.next_eq_of_least (hrun (i + 1) hik)
        · push_cast; omega
        · intro b _ hb; omega
      have hstep : view_helpers.next_cluster_loop bookmark_vector.next bv true t h (n + 1)
          ((t : Int) + i) ((t : Int) + i) i
          = view_helpers.next_cluster_loop bookmark_vector.next bv true t h n
              ((t : Int) + (i + 1 : Nat)) ((t : Int) + (i + 1 : Nat)) (i + 1 : Nat) := by
        have hmax : (k : Int) < h ∨ k < 2 := by
          rcases le_total h 2 with h2 | h2
          · right; rw [max_eq_right h2] at hk; omega
          · left; rw [max_eq_left h2] at hk; exact hk
        simp only [view_helpers.next_cluster_loop, hnext]
        rw [if_neg (by omega)]
        rw [if_neg (by simp only [Bool.not_true, Bool.false_or, decide_eq_true_eq]; omega)]
        rw [if_neg (by omega), if_neg (by omega)]
        push_cast
        rfl
      rw [hstep]
      exact ih (i + 1) hik
    · have hik' : i = k := le_antisymm hi hik
      subst hik'
      have hnext : bookmark_vector.next bv ((t : Int) + i) = (m : Int) := by
        apply bookmark_vector.next_eq_of_least hm
        · omega
        · intro b hb hlt'; exact hleast b hb (by omega)
      have hne : m ≠ t + i + 1 := fun he => hend (he ▸ hm)
      right
      simp only [view_helpers.next_cluster_loop, hnext]
      rw [if_neg (by omega)]
      rw [if_pos (by simp only [Bool.not_true, Bool.false_or, decide_eq_true_eq]; omega)]

/-- C1: forward cluster navigation skips the adjacent run.  For a strictly
increasing bookmark set, a height `h ≥ 0` and a marked top `t` such that
`t, t+1, ..., t+k` are all marked, `t+k+1` is not, `k < max(h, 2)` and `m` is the
least bookmark greater than `t+k`, `next_cluster` with `f = next` from `t`
returns `m`, in `view_helpers.cc` and in `lnav.cc`. -/
theorem next_cluster_forward_skips_adjacent_run (tc : textview_curses) (t k m : Nat)
    (_hsorted : List.Pairwise (fun a b => a < b) tc.tc_bookmarks)
    (_hh : 0 ≤ tc.tc_height)
    (hrun : ∀ i : Nat, i ≤ k → t + i ∈ tc.tc_bookmarks)
    (hend : t + k + 1 ∉ tc.tc_bookmarks)
    (hk : (k : Int) < max tc.tc_height 2)
    (hm : m ∈ tc.tc_bookmarks) (hlt : t + k < m)
    (hleast : ∀ b : Nat, b ∈ tc.tc_bookmarks → t + k < b → m ≤ b) :
    view_helpers.next_cluster bookmark_vector.next tc t = some (some (m : Int))
      ∧ lnav.next_cluster bookmark_vector.next tc t = some (m : Int) := by
  have hmarked : tc.tc_bookmarks.binary_search (t : Int) = true :=
    (bookmark_vector.binary_search_iff _ _).2 (by simpa using hrun 0 (Nat.zero_le k))
  have hvh : view_helpers.next_cluster bookmark_vector.next tc t = some (some (m : Int)) := by
    apply view_helpers.next_cluster_of_loop (next_advances _) (count_after_le _)
    intro fuel
    rw [hmarked]
    simpa using view_helpers.next_cluster_loop_run tc.tc_bookmarks tc.tc_height t k m
      hrun hend hk hm hlt hleast fuel 0 (Nat.zero_le k)
  exact ⟨hvh, by rw [lnav.next_cluster_eq, hvh]; rfl⟩

/-- The two witnesses of C1: from the top 10 with height 20, the set
`{10, 11, 12, 50}` gives 50 and the set `{10, 30}` gives 30. -/
theorem next_cluster_forward_skips_adjacent_run_witness :
    (view_helpers.next_cluster bookmark_vector.next ⟨[10, 11, 12, 50], 20, 10, 0, false, none⟩ 10
        = some (some 50)
      ∧ lnav.next_cluster bookmark_vector.next ⟨[10, 11, 12, 50], 20, 10, 0, false, none⟩ 10
        = some 50)
    ∧ (view_helpers.next_cluster bookmark_vector.next ⟨[10, 30], 20, 10, 0, false, none⟩ 10
        = some (some 30)
      ∧ lnav.next_cluster bookmark_vector.next ⟨[10, 30], 20, 10, 0, false, none⟩ 10
        = some 30) :=
  ⟨next_cluster_forward_skips_adjacent_run ⟨[10, 11, 12, 50], 20, 10, 0, false, none⟩ 10 2 50
      (by decide) (by decide) (by decide) (by decide) (by decide) (by decide) (by decide)
      (by decide),
    next_cluster_forward_skips_adjacent_run ⟨[10, 30], 20, 10, 0, false, none⟩ 10 0 30
      (by decide) (by decide) (by decide) (by decide) (by decide) (by decide) (by decide)
      (by decide)⟩

/-- C2: from an unmarked top the navigator jumps to the nearest hit.  For a
strictly increasing bookmark set, any height and a top `t` that is not marked,
`next_cluster` with `f = next` returns the least bookmark greater than `t` when
there is one, and with `f = prev` the greatest bookmark less than `t` when there
is one, in `view_helpers.cc` and in `lnav.cc`. -/
theorem next_cluster_unmarked_top_nearest_hit (tc : textview_curses) (t : Int)
    (_hsorted : List.Pairwise (fun a b => a < b) tc.tc_bookmarks)
    (hun : ∀ b : Nat, b ∈ tc.tc_bookmarks → (b : Int) ≠ t) :
    (∀ m : Nat, m ∈ tc.tc_bookmarks → t < (m : Int) →
        (∀ b : Nat, b ∈ tc.tc_bookmarks → t < (b : Int) → m ≤ b) →
        view_helpers.next_cluster bookmark_vector.next tc t = some (some (m : Int))
          ∧ lnav.next_cluster bookmark_vector.next tc t = some (m : Int))
    ∧ (∀ p : Nat, p ∈ tc.tc_bookmarks → (p : Int) < t →
        (∀ b : Nat, b ∈ tc.tc_bookmarks → (b : Int) < t → b ≤ p) →
        view_helpers.next_cluster bookmark_vector.prev tc t = some (some (p : Int))
          ∧ lnav.next_cluster bookmark_vector.prev tc t = some (p : Int)) := by
  have hbs : tc.tc_bookmarks.binary_search t = false :=
    (bookmark_vector.binary_search_false_iff _ _).2 hun
  constructor
  · intro m hm hlt hleast
    have hnext := bookmark_vector.next_eq_of_least hm hlt hleast
    have hvh : view_helpers.next_cluster bookmark_vector.next tc t = some (some (m : Int)) := by
      simp only [view_helpers.next_cluster, view_helpers.next_cluster_loop, hnext, hbs]
      rw [if_neg (by omega), if_pos (by simp)]
    exact ⟨hvh, by rw [lnav.next_cluster_eq, hvh]; rfl⟩
  · intro p hp hlt hgreatest
    have hprev := bookmark_vector.prev_eq_of_greatest hp hlt hgreatest
    have hvh : view_helpers.next_cluster bookmark_vector.prev tc t = some (some (p : Int)) := by
      simp only [view_helpers.next_cluster, view_helpers.next_cluster_loop, hprev, hbs]
      rw [if_neg (by omega), if_pos (by simp)]
    exact ⟨hvh, by rw [lnav.next_cluster_eq, hvh]; rfl⟩

/-- A witness of C2: with the bookmarks `{10, 30}` and the unmarked top 20, going
forward gives 30 and going backward gives 10. -/
theorem next_cluster_unmarked_top_nearest_hit_witness :
    (view_helpers.next_cluster bookmark_vector.next ⟨[10, 30], 5, 20, 0, false, none⟩ 20
        = some (some 30)
      ∧ lnav.next_cluster bookmark_vector.next ⟨[10, 30], 5, 20, 0, false, none⟩ 20 = some 30)
    ∧ (view_helpers.next_cluster bookmark_vector.prev ⟨[10, 30], 5, 20, 0, false, none⟩ 20
        = some (some 10)
      ∧ lnav.next_cluster bookmark_vector.prev ⟨[10, 30], 5, 20, 0, false, none⟩ 20 = some 10) :=
  ⟨(next_cluster_unmarked_top_nearest_hit ⟨[10, 30], 5, 20, 0, false, none⟩ 20
      (by decide) (by decide)).1 30 (by decide) (by decide) (by decide),
    (next_cluster_unmarked_top_nearest_hit ⟨[10, 30], 5, 20, 0, false, none⟩ 20
      (by decide) (by decide)).2 10 (by decide) (by decide) (by decide)⟩

/-- C3: for every bookmark set, every top (marked or not), every height and
both directions, when no bookmark lies strictly beyond the top in the direction
of travel (in particular when the set is empty) `next_cluster` returns "no
target": `nullopt` in `view_helpers.cc` and `-1` in `lnav.cc`. -/
theorem next_cluster_no_target_beyond_top (tc : textview_curses) (t : Int) :
    ((∀ b : Nat, b ∈ tc.tc_bookmarks → ¬ t < (b : Int)) →
        view_helpers.next_cluster bookmark_vector.next tc t = some none
          ∧ lnav.next_cluster bookmark_vector.next tc t = some (-1))
    ∧ ((∀ b : Nat, b ∈ tc.tc_bookmarks → ¬ (b : Int) < t) →
        view_helpers.next_cluster bookmark_vector.prev tc t = some none
          ∧ lnav.next_cluster bookmark_vector.prev tc t = some (-1)) := by
  constructor
  · intro hnone
    have hnext := bookmark_vector.next_eq_neg_one hnone
    have hvh : view_helpers.next_cluster bookmark_vector.next tc t = some none := by
      simp [view_helpers.next_cluster, view_helpers.next_cluster_loop, hnext]
    exact ⟨hvh, by rw [lnav.next_cluster_eq, hvh]; rfl⟩
  · intro hnone
    have hprev := bookmark_vector.prev_eq_neg_one hnone
    have hvh : view_helpers.next_cluster bookmark_vector.prev tc t = some none := by
      simp [view_helpers.next_cluster, view_helpers.next_cluster_loop, hprev]
    exact ⟨hvh, by rw [lnav.next_cluster_eq, hvh]; rfl⟩

/-- A witness of C3: the empty set from the top 10, and the set `{10, 11}` from
its last line going forward and from its first line going backward. -/
theorem next_cluster_no_target_beyond_top_witness :
    (view_helpers.next_cluster bookmark_vector.next ⟨[], 20, 10, 0, false, none⟩ 10 = some none
      ∧ lnav.next_cluster bookmark_vector.next ⟨[], 20, 10, 0, false, none⟩ 10 = some (-1))
    ∧ (view_helpers.next_cluster bookmark_vector.next ⟨[10, 11], 20, 11, 0, false, none⟩ 11
        = some none
      ∧ lnav.next_cluster bookmark_vector.next ⟨[10, 11], 20, 11, 0, false, none⟩ 11
        = some (-1))
    ∧ (view_helpers.next_cluster bookmark_vector.prev ⟨[10, 11], 20, 10, 0, false, none⟩ 10
        = some none
      ∧ lnav.next_cluster bookmark_vector.prev ⟨[10, 11], 20, 10, 0, false, none⟩ 10
        = some (-1)) :=
  ⟨(next_cluster_no_target_beyond_top ⟨[], 20, 10, 0, false, none⟩ 10).1 (by decide),
    (next_cluster_no_target_beyond_top ⟨[10, 11], 20, 11, 0, false, none⟩ 11).1 (by decide),
    (next_cluster_no_target_beyond_top ⟨[10, 11], 20, 10, 0, false, none⟩ 10).2 (by decide)⟩

/-! ## `file_collection::merge` -/

theorem merge_fc_files (h : heap) (C D : file_collection) :
    (file_collection.merge h C D).2.fc_files = C.fc_files ++ D.fc_files := by
  cases hD : D.fc_files <;> simp [file_collection.merge, hD]

theorem merge_fc_files_generation (h : heap) (C D : file_collection) :
    (file_collection.merge h C D).2.fc_files_generation
      = C.fc_files_generation + (if D.fc_files.isEmpty then 0 else 1) := by
  cases hD : D.fc_files <;> simp [file_collection.merge, hD]

theorem merge_all_generation (Ds : List file_collection) :
    ∀ (h : heap) (C : file_collection),
      (file_collection.merge_all h C Ds).2.fc_files_generation
        = C.fc_files_generation + Ds.countP (fun d => !d.fc_files.isEmpty) := by
  induction Ds with
  | nil => intro h C; simp [file_collection.merge_all]
  | cons d ds ih =>
    intro h C
    rw [file_collection.merge_all, ih, merge_fc_files_generation, List.countP_cons]
    cases hd : d.fc_files <;> simp [hd]
    omega

/-- C5: the generation counter under merge.  `C.merge(D)` leaves
`fc_files_generation` and `fc_files` unchanged when `D.fc_files` is empty, and
otherwise increases the generation by exactly one and appends `D.fc_files` to
`C.fc_files`; the generation grows exactly when the tracked-file list changes;
over a sequence of merges it never decreases, and it grows by the number of
deltas that have tracked files; a delta with exactly one tracked file makes the
list one longer and the generation one larger. -/
theorem merge_generation_counter (h : heap) (C D : file_collection) :
    (D.fc_files = [] →
        (file_collection.merge h C D).2.fc_files_generation = C.fc_files_generation
          ∧ (file_collection.merge h C D).2.fc_files = C.fc_files)
    ∧ (D.fc_files ≠ [] →
        (file_collection.merge h C D).2.fc_files_generation = C.fc_files_generation + 1
          ∧ (file_collection.merge h C D).2.fc_files = C.fc_files ++ D.fc_files)
    ∧ (C.fc_files_generation < (file_collection.merge h C D).2.fc_files_generation
        ↔ (file_collection.merge h C D).2.fc_files ≠ C.fc_files)
    ∧ (∀ Ds : List file_collection,
        C.fc_files_generation ≤ (file_collection.merge_all h C Ds).2.fc_files_generation
          ∧ (file_collection.merge_all h C Ds).2.fc_files_generation
            = C.fc_files_generation + Ds.countP (fun d => !d.fc_files.isEmpty))
    ∧ (∀ lf : logfile_ptr, D.fc_files = [lf] →
        (file_collection.merge h C D).2.fc_files.length = C.fc_files.length + 1
          ∧ (file_collection.merge h C D).2.fc_files_generation = C.fc_files_generation + 1) := by
  refine ⟨?_, ?_, ?_, ?_, ?_⟩
  · intro hD
    simp [merge_fc_files, merge_fc_files_generation, hD]
  · intro hD
    simp [merge_fc_files, merge_fc_files_generation, hD]
  · rw [merge_fc_files, merge_fc_files_generation]
    cases hD : D.fc_files <;> simp
  · intro Ds
    rw [merge_all_generation]
    exact ⟨Nat.le_add_right _ _, rfl⟩
  · intro lf hD
    simp [merge_fc_files, merge_fc_files_generation, hD]

/-- A witness of C5: merging a delta with the one tracked file 7 into a
collection that tracks the files 3 and 4 at generation 0. -/
theorem merge_generation_counter_witness :
    (file_collection.merge sample_heap (file_collection.of_files [3, 4])
        (file_collection.of_files [7])).2.fc_files.length = 2 + 1
    ∧ (file_collection.merge sample_heap (file_collection.of_files [3, 4])
        (file_collection.of_files [7])).2.fc_files_generation = 0 + 1 :=
  (merge_generation_counter sample_heap (file_collection.of_files [3, 4])
    (file_collection.of_files [7])).2.2.2.2 7 rfl

/-! ### Identities under merge -/

theorem foldl_set_filename_apply (renames : List (logfile_ptr × String)) :
    ∀ (h : heap) (lf : logfile_ptr),
      (renames.foldl (fun h pair => logfile_set_filename h pair.1 pair.2) h) lf
        = { h lf with lf_filename := (last_rename lf renames).getD (h lf).lf_filename } := by
  induction renames with
  | nil => intro h lf; simp [last_rename]
  | cons pair rest ih =>
    intro h lf
    rw [List.foldl_cons, ih]
    by_cases hp : pair.1 = lf
    · subst hp
      cases hr : last_rename pair.1 rest <;> simp [last_rename, hr, logfile_set_filename]
    · have hne : lf ≠ pair.1 := fun e => hp e.symm
      cases hr : last_rename lf rest <;>
        simp [last_rename, hr, logfile_set_filename, Function.update_noteq hne, hp]

theorem merge_heap_apply (h : heap) (C D : file_collection) (lf : logfile_ptr) :
    (file_collection.merge h C D).1 lf
      = { h lf with
          lf_filename := (last_rename lf D.fc_renamed_files).getD (h lf).lf_filename } := by
  simp only [file_collection.merge]
  exact foldl_set_filename_apply _ _ _

theorem merge_file_identity (h : heap) (C D : file_collection) (lf : logfile_ptr) :
    file_identity (file_collection.merge h C D).1 lf = file_identity h lf := by
  simp [file_identity, merge_heap_apply]

theorem merge_distinct_identities (h : heap) (C D : file_collection) (files : List logfile_ptr) :
    distinct_identities (file_collection.merge h C D).1 files ↔ distinct_identities h files := by
  simp [distinct_identities, merge_file_identity]

/-- C6, as the code has it: `merge` appends every tracked file of the delta
without looking at its identity.  After `C.merge(D)` the tracked files have
pairwise distinct (device, inode) pairs exactly when those of `C` have, those
of `D` have, and no file of `D` has the identity of a file of `C`. -/
theorem merge_preserves_distinct_identities_iff (h : heap) (C D : file_collection) :
    (file_collection.merge h C D).2.fc_files = C.fc_files ++ D.fc_files
    ∧ (distinct_identities (file_collection.merge h C D).1 (file_collection.merge h C D).2.fc_files
      ↔ distinct_identities h C.fc_files ∧ distinct_identities h D.fc_files
        ∧ ∀ a : logfile_ptr, a ∈ C.fc_files → ∀ b : logfile_ptr, b ∈ D.fc_files →
            file_identity h a ≠ file_identity h b) := by
  refine ⟨merge_fc_files h C D, ?_⟩
  rw [merge_distinct_identities, merge_fc_files]
  simp only [distinct_identities, List.pairwise_append]

/-- A witness of the amended C6: two files with different inodes stay
distinct. -/
theorem merge_preserves_distinct_identities_iff_witness :
    distinct_identities
      (file_collection.merge (fun lf => { sample_logfile 10 "id" true with st_ino := lf })
        (file_collection.of_files [0]) (file_collection.of_files [1])).1
      (file_collection.merge (fun lf => { sample_logfile 10 "id" true with st_ino := lf })
        (file_collection.of_files [0]) (file_collection.of_files [1])).2.fc_files :=
  (merge_preserves_distinct_identities_iff
    (fun lf => { sample_logfile 10 "id" true with st_ino := lf })
    (file_collection.of_files [0]) (file_collection.of_files [1])).2.2
    (by unfold distinct_identities file_collection.of_files file_collection.empty; decide)

/-- C6 fails as stated: the collection tracks the file object 0, the delta
holds the file object 1 with the same device and inode, and after the merge both
are tracked. -/
theorem merge_duplicates_identity_counterexample :
    distinct_identities sample_heap (file_collection.of_files [0]).fc_files
    ∧ file_identity sample_heap 1 = file_identity sample_heap 0
    ∧ (file_collection.merge sample_heap (file_collection.of_files [0])
        (file_collection.of_files [1])).2.fc_files = [0, 1]
    ∧ ¬ distinct_identities
        (file_collection.merge sample_heap (file_collection.of_files [0])
          (file_collection.of_files [1])).1
        (file_collection.merge sample_heap (file_collection.of_files [0])
          (file_collection.of_files [1])).2.fc_files := by
  refine ⟨?_, rfl, rfl, ?_⟩
  · simp [distinct_identities, file_collection.of_files]
  · rw [merge_distinct_identities]
    simp [distinct_identities, merge_fc_files, file_collection.of_files, file_collection.empty,
      file_identity, sample_heap, sample_logfile]

/-! ### Merging the same delta twice -/

theorem map_insert_range_idem {V : Type} (m o : string_map V) :
    map_insert_range (map_insert_range m o) o = map_insert_range m o := by
  funext k
  simp only [map_insert_range]
  cases hm : m k with
  | some v => rfl
  | none => cases ho : o k <;> rfl

theorem set_insert_range_idem (s o : string_set) :
    set_insert_range (set_insert_range s o) o = set_insert_range s o := by
  funext k
  simp only [set_insert_range]
  cases s k <;> cases o k <;> rfl

theorem merge_heap_idem (h : heap) (C C' D : file_collection) :
    (file_collection.merge (file_collection.merge h C D).1 C' D).1
      = (file_collection.merge h C D).1 := by
  funext lf
  rw [merge_heap_apply, merge_heap_apply]
  cases last_rename lf D.fc_renamed_files <;> rfl

/-- C9, as the code has it: merging the delta `D` a second time leaves the
watched-path map, the error map, the other-file map, the closed-file set, the
pending renames and the file names as the first merge left them, but it appends
`D.fc_files` to the tracked-file list once more and, when `D.fc_files` is not
empty, bumps the generation once more; the second merge changes nothing exactly
when `D` has no tracked files. -/
theorem merge_twice (h : heap) (C D : file_collection) :
    (file_collection.merge (file_collection.merge h C D).1
        (file_collection.merge h C D).2 D).2.fc_file_names
      = (file_collection.merge h C D).2.fc_file_names
    ∧ (file_collection.merge (file_collection.merge h C D).1
        (file_collection.merge h C D).2 D).2.fc_name_to_errors
      = (file_collection.merge h C D).2.fc_name_to_errors
    ∧ (file_collection.merge (file_collection.merge h C D).1
        (file_collection.merge h C D).2 D).2.fc_other_files
      = (file_collection.merge h C D).2.fc_other_files
    ∧ (file_collection.merge (file_collection.merge h C D).1
        (file_collection.merge h C D).2 D).2.fc_closed_files
      = (file_collection.merge h C D).2.fc_closed_files
    ∧ (file_collection.merge (file_collection.merge h C D).1
        (file_collection.merge h C D).2 D).2.fc_renamed_files
      = (file_collection.merge h C D).2.fc_renamed_files
    ∧ (file_collection.merge (file_collection.merge h C D).1
        (file_collection.merge h C D).2 D).1
      = (file_collection.merge h C D).1
    ∧ (file_collection.merge (file_collection.merge h C D).1
        (file_collection.merge h C D).2 D).2.fc_files
      = (file_collection.merge h C D).2.fc_files ++ D.fc_files
    ∧ (file_collection.merge (file_collection.merge h C D).1
        (file_collection.merge h C D).2 D).2.fc_files_generation
      = (file_collection.merge h C D).2.fc_files_generation
        + (if D.fc_files.isEmpty then 0 else 1)
    ∧ ((file_collection.merge (file_collection.merge h C D).1
          (file_collection.merge h C D).2 D).2.fc_files
        = (file_collection.merge h C D).2.fc_files
        ∧ (file_collection.merge (file_collection.merge h C D).1
          (file_collection.merge h C D).2 D).2.fc_files_generation
        = (file_collection.merge h C D).2.fc_files_generation
      ↔ D.fc_files = []) := by
  refine ⟨?_, ?_, ?_, ?_, ?_, merge_heap_idem h C _ D, merge_fc_files _ _ _,
    merge_fc_files_generation _ _ _, ?_⟩
  · simp only [file_collection.merge, map_insert_range_idem]
  · simp only [file_collection.merge, map_insert_range_idem]
  · simp only [file_collection.merge, map_insert_range_idem]
  · simp only [file_collection.merge, set_insert_range_idem]
  · simp only [file_collection.merge]
  · rw [merge_fc_files _ _ D, merge_fc_files_generation _ _ D]
    cases hD : D.fc_files <;> simp

/-- C9 fails as stated: merging a delta with the one tracked file 1 into the
empty collection twice gives the list `[1, 1]` at generation 2, and merging it
once gives `[1]` at generation 1. -/
theorem merge_twice_counterexample :
    (file_collection.merge sample_heap file_collection.empty
        (file_collection.of_files [1])).2.fc_files = [1]
    ∧ (file_collection.merge sample_heap file_collection.empty
        (file_collection.of_files [1])).2.fc_files_generation = 1
    ∧ (file_collection.merge
        (file_collection.merge sample_heap file_collection.empty (file_collection.of_files [1])).1
        (file_collection.merge sample_heap file_collection.empty (file_collection.of_files [1])).2
        (file_collection.of_files [1])).2.fc_files = [1, 1]
    ∧ (file_collection.merge
        (file_collection.merge sample_heap file_collection.empty (file_collection.of_files [1])).1
        (file_collection.merge sample_heap file_collection.empty (file_collection.of_files [1])).2
        (file_collection.of_files [1])).2.fc_files_generation = 2 :=
  ⟨rfl, rfl, rfl, rfl⟩

/-! ### No merge undoes an earlier effect -/

theorem map_insert_range_keeps {V : Type} (m o : string_map V) (k : String) (v : V)
    (hk : m k = some v) : map_insert_range m o k = some v := by
  simp [map_insert_range, hk]

theorem map_insert_range_keys {V : Type} (m o : string_map V) (k : String) :
    (map_insert_range m o k).isSome = true ↔ (m k).isSome = true ∨ (o k).isSome = true := by
  simp only [map_insert_range]
  cases hm : m k <;> simp

/-- C10: no merge undoes an earlier effect.  After `C.merge(D)` every key of the
watched-path map, the error map and the other-file map of `C` is still there
with the value it had, every closed path is still closed, every tracked file is
still in the list at the position it had, the generation is not smaller, and the
key set of each map is the union of the key sets of `C` and of `D`. -/
theorem merge_keeps_earlier_effects (h : heap) (C D : file_collection) :
    (∀ (k : String) (v : logfile_open_options), C.fc_file_names k = some v →
        (file_collection.merge h C D).2.fc_file_names k = some v)
    ∧ (∀ (k : String) (v : String), C.fc_name_to_errors k = some v →
        (file_collection.merge h C D).2.fc_name_to_errors k = some v)
    ∧ (∀ (k : String) (v : String), C.fc_other_files k = some v →
        (file_collection.merge h C D).2.fc_other_files k = some v)
    ∧ (∀ k : String, C.fc_closed_files k = true →
        (file_collection.merge h C D).2.fc_closed_files k = true)
    ∧ (∀ (i : Nat) (lf : logfile_ptr), C.fc_files[i]? = some lf →
        (file_collection.merge h C D).2.fc_files[i]? = some lf)
    ∧ C.fc_files_generation ≤ (file_collection.merge h C D).2.fc_files_generation
    ∧ (∀ k : String, ((file_collection.merge h C D).2.fc_file_names k).isSome = true
        ↔ (C.fc_file_names k).isSome = true ∨ (D.fc_file_names k).isSome = true)
    ∧ (∀ k : String, ((file_collection.merge h C D).2.fc_name_to_errors k).isSome = true
        ↔ (C.fc_name_to_errors k).isSome = true ∨ (D.fc_name_to_errors k).isSome = true)
    ∧ (∀ k : String, ((file_collection.merge h C D).2.fc_other_files k).isSome = true
        ↔ (C.fc_other_files k).isSome = true ∨ (D.fc_other_files k).isSome = true) := by
  refine ⟨?_, ?_, ?_, ?_, ?_, ?_, ?_, ?_, ?_⟩
  · intro k v hk
    exact map_insert_range_keeps _ _ k v hk
  · intro k v hk
    exact map_insert_range_keeps _ _ k v hk
  · intro k v hk
    exact map_insert_range_keeps _ _ k v hk
  · intro k hk
    simp [file_collection.merge, set_insert_range, hk]
  · intro i lf hi
    rw [merge_fc_files]
    have hlt : i < C.fc_files.length := (List.getElem?_eq_some_iff.1 hi).1
    rw [List.getElem?_append_left hlt]
    exact hi
  · rw [merge_fc_files_generation]
    exact Nat.le_add_right _ _
  · intro k
    exact map_insert_range_keys _ _ k
  · intro k
    exact map_insert_range_keys _ _ k
  · intro k
    exact map_insert_range_keys _ _ k

/-! ## The duplicate-suppression pass -/

theorem foldl_logfile_hide_apply (l : List logfile_ptr) :
    ∀ (h : heap) (p : logfile_ptr),
      (l.foldl logfile_hide h) p
        = { h p with lf_visible := (h p).lf_visible && decide (p ∉ l) } := by
  induction l with
  | nil => intro h p; simp
  | cons a l ih =>
    intro h p
    rw [List.foldl_cons, ih]
    by_cases hp : p = a
    · subst hp
      simp [logfile_hide]
    · simp [logfile_hide, Function.update_noteq hp, hp]

theorem hide_duplicates_step_size (st : heap × Bool) (pair : String × List logfile_ptr) :
    (fun lf => ((hide_duplicates_step st pair).1 lf).st_size) = fun lf => (st.1 lf).st_size := by
  funext lf
  unfold hide_duplicates_step
  split_ifs
  · rfl
  · simp only [foldl_logfile_hide_apply]

theorem hidden_files_cons (size : logfile_ptr → Int) (pair : String × List logfile_ptr)
    (rest : List (String × List logfile_ptr)) :
    hidden_files size (pair :: rest)
      = (if pair.2.length = 1 then [] else (sort_by_size_desc size pair.2).tail)
          ++ hidden_files size rest := by
  simp only [hidden_files, List.flatMap_cons]

theorem mem_hidden_files (size : logfile_ptr → Int) (groups : List (String × List logfile_ptr))
    (p : logfile_ptr) :
    p ∈ hidden_files size groups
      ↔ ∃ pair ∈ groups, pair.2.length ≠ 1 ∧ p ∈ (sort_by_size_desc size pair.2).tail := by
  simp only [hidden_files, List.mem_flatMap]
  constructor
  · rintro ⟨pair, hpair, hp⟩
    by_cases hlen : pair.2.length = 1
    · simp [hlen] at hp
    · exact ⟨pair, hpair, hlen, by simpa [hlen] using hp⟩
  · rintro ⟨pair, hpair, hlen, hp⟩
    exact ⟨pair, hpair, by simpa [hlen] using hp⟩

theorem foldl_hide_duplicates_step (groups : List (String × List logfile_ptr)) :
    ∀ (h : heap) (b : Bool),
      (∀ p : logfile_ptr, ((groups.foldl hide_duplicates_step (h, b)).1 p)
          = { h p with
              lf_visible := (h p).lf_visible
                && decide (p ∉ hidden_files (fun lf => (h lf).st_size) groups) })
      ∧ (groups.foldl hide_duplicates_step (h, b)).2
          = (b || groups.any (fun pair => decide (pair.2.length ≠ 1))) := by
  induction groups with
  | nil => intro h b; simp [hidden_files]
  | cons pair rest ih =>
    intro h b
    rw [List.foldl_cons]
    have hsz := hide_duplicates_step_size (h, b) pair
    obtain ⟨ih1, ih2⟩ := ih (hide_duplicates_step (h, b) pair).1 (hide_duplicates_step (h, b) pair).2
    rw [hsz] at ih1
    refine ⟨fun p => ?_, ?_⟩
    · rw [ih1 p, hidden_files_cons]
      unfold hide_duplicates_step
      by_cases hlen : pair.2.length = 1
      · simp [hlen]
      · simp only [hlen, if_false, foldl_logfile_hide_apply, List.mem_append, not_or,
          Bool.decide_and, Bool.and_assoc]
    · rw [ih2]
      unfold hide_duplicates_step
      by_cases hlen : pair.2.length = 1
      · simp [hlen]
      · simp [hlen]

/-! ### The groups of the first loop -/

theorem id_to_files_push_back_keys (m : List (String × List logfile_ptr)) (id : String)
    (lf : logfile_ptr) :
    (id_to_files_push_back m id lf).map Prod.fst
      = if id ∈ m.map Prod.fst then m.map Prod.fst else m.map Prod.fst ++ [id] := by
  induction m with
  | nil => simp [id_to_files_push_back]
  | cons kv rest ih =>
    obtain ⟨k, v⟩ := kv
    by_cases hk : k = id
    · simp [id_to_files_push_back, hk]
    · have hk' : ¬ id = k := fun e => hk e.symm
      by_cases hr : id ∈ rest.map Prod.fst
      · simp only [id_to_files_push_back, hk, if_false, List.map_cons, ih, hr, if_true,
          List.mem_cons, or_true]
      · simp only [id_to_files_push_back, hk, if_false, List.map_cons, ih, hr,
          List.mem_cons, hk', or_self, List.cons_append]

theorem mem_id_to_files_push_back (m : List (String × List logfile_ptr)) (id : String)
    (lf : logfile_ptr) (hnodup : (m.map Prod.fst).Nodup) (pair : String × List logfile_ptr)
    (hpair : pair ∈ id_to_files_push_back m id lf) :
    (pair ∈ m ∧ pair.1 ≠ id)
      ∨ (pair.1 = id ∧ ∃ v, (id, v) ∈ m ∧ pair.2 = v ++ [lf])
      ∨ (pair = (id, [lf]) ∧ id ∉ m.map Prod.fst) := by
  induction m with
  | nil =>
    simp only [id_to_files_push_back, List.mem_singleton] at hpair
    right; right
    exact ⟨hpair, by simp⟩
  | cons kv rest ih =>
    obtain ⟨k, v⟩ := kv
    rw [List.map_cons, List.nodup_cons] at hnodup
    by_cases hk : k = id
    · subst hk
      simp only [id_to_files_push_back, if_true, List.mem_cons] at hpair
      rcases hpair with rfl | hin
      · right; left
        exact ⟨rfl, v, List.mem_cons_self _ _, rfl⟩
      · left
        refine ⟨List.mem_cons_of_mem _ hin, fun e => hnodup.1 ?_⟩
        exact List.mem_map.2 ⟨pair, hin, e⟩
    · simp only [id_to_files_push_back, hk, if_false, List.mem_cons] at hpair
      rcases hpair with rfl | hin
      · left
        exact ⟨List.mem_cons_self _ _, hk⟩
      · rcases ih hnodup.2 hin with ⟨h1, h2⟩ | ⟨h1, w, h2, h3⟩ | ⟨h1, h2⟩
        · left; exact ⟨List.mem_cons_of_mem _ h1, h2⟩
        · right; left; exact ⟨h1, w, List.mem_cons_of_mem _ h2, h3⟩
        · right; right
          refine ⟨h1, ?_⟩
          simp only [List.map_cons, List.mem_cons, not_or]
          exact ⟨fun e => hk e.symm, h2⟩

theorem visible_with_id_append (h : heap) (pre : List logfile_ptr) (lf : logfile_ptr)
    (id : String) :
    visible_with_id h (pre ++ [lf]) id
      = visible_with_id h pre id
        ++ (if (h lf).lf_visible = true ∧ (h lf).lf_content_id = id then [lf] else []) := by
  simp only [visible_with_id, List.filter_append, List.filter_cons, List.filter_nil,
    Bool.and_eq_true, decide_eq_true_eq]

/-- The state of the first loop after the files `pre`: the keys are distinct,
each key holds the visible files of `pre` with that content id, and every
content id of a visible file of `pre` is a key. -/
theorem build_id_to_files_step (h : heap) (pre : List logfile_ptr)
    (m : List (String × List logfile_ptr)) (lf : logfile_ptr)
    (hnodup : (m.map Prod.fst).Nodup)
    (hgroups : ∀ pair ∈ m, pair.2 = visible_with_id h pre pair.1 ∧ pair.2 ≠ [])
    (hkeys : ∀ id : String, visible_with_id h pre id ≠ [] → id ∈ m.map Prod.fst) :
    (((if ¬ (h lf).lf_visible then m
        else id_to_files_push_back m (h lf).lf_content_id lf).map Prod.fst).Nodup)
    ∧ (∀ pair ∈ (if ¬ (h lf).lf_visible then m
        else id_to_files_push_back m (h lf).lf_content_id lf),
        pair.2 = visible_with_id h (pre ++ [lf]) pair.1 ∧ pair.2 ≠ [])
    ∧ (∀ id : String, visible_with_id h (pre ++ [lf]) id ≠ [] →
        id ∈ (if ¬ (h lf).lf_visible then m
          else id_to_files_push_back m (h lf).lf_content_id lf).map Prod.fst) := by
  by_cases hv : (h lf).lf_visible = true
  · simp only [hv, not_true_eq_false, if_false]
    refine ⟨?_, ?_, ?_⟩
    · rw [id_to_files_push_back_keys]
      split_ifs with hin
      · exact hnodup
      · exact List.Nodup.append hnodup (List.nodup_singleton _) (by simpa using hin)
    · intro pair hpair
      rw [visible_with_id_append]
      rcases mem_id_to_files_push_back m _ lf hnodup pair hpair with
        ⟨h1, h2⟩ | ⟨h1, w, h2, h3⟩ | ⟨h1, h2⟩
      · have hne : ¬ (h lf).lf_content_id = pair.1 := fun e => h2 e.symm
        simp only [hv, hne, and_false, if_false, List.append_nil]
        exact hgroups pair h1
      · have hw := hgroups _ h2
        simp only [hv, h1, and_self, if_true, h3]
        exact ⟨congrArg (fun l => l ++ [lf]) hw.1, by simp⟩
      · subst h1
        have hnil : visible_with_id h pre (h lf).lf_content_id = [] := by
          by_contra hne
          exact h2 (hkeys _ hne)
        simp [hv, hnil]
    · intro id hid
      rw [id_to_files_push_back_keys]
      rw [visible_with_id_append] at hid
      by_cases hc : (h lf).lf_content_id = id
      · subst hc
        split_ifs with hin
        · exact hin
        · simp
      · simp only [hv, hc, and_false, if_false, List.append_nil] at hid
        have := hkeys id hid
        split_ifs
        · exact this
        · exact List.mem_append_left _ this
  · simp only [hv, not_false_eq_true, if_true]
    have happ : ∀ id, visible_with_id h (pre ++ [lf]) id = visible_with_id h pre id := by
      intro id
      rw [visible_with_id_append]
      simp [hv]
    simp only [happ]
    exact ⟨hnodup, hgroups, hkeys⟩

theorem build_id_to_files_foldl (h : heap) (rest : List logfile_ptr) :
    ∀ (pre : List logfile_ptr) (m : List (String × List logfile_ptr)),
      (m.map Prod.fst).Nodup →
      (∀ pair ∈ m, pair.2 = visible_with_id h pre pair.1 ∧ pair.2 ≠ []) →
      (∀ id : String, visible_with_id h pre id ≠ [] → id ∈ m.map Prod.fst) →
      let m' := rest.foldl (fun m lf =>
        if ¬ (h lf).lf_visible then m else id_to_files_push_back m (h lf).lf_content_id lf) m
      (m'.map Prod.fst).Nodup
        ∧ (∀ pair ∈ m', pair.2 = visible_with_id h (pre ++ rest) pair.1 ∧ pair.2 ≠ [])
        ∧ (∀ id : String, visible_with_id h (pre ++ rest) id ≠ [] → id ∈ m'.map Prod.fst) := by
  induction rest with
  | nil =>
    intro pre m h1 h2 h3
    simp only [List.foldl_nil, List.append_nil]
    exact ⟨h1, h2, h3⟩
  | cons lf rest ih =>
    intro pre m h1 h2 h3
    obtain ⟨s1, s2, s3⟩ := build_id_to_files_step h pre m lf h1 h2 h3
    have := ih (pre ++ [lf]) _ s1 s2 s3
    simpa [List.append_assoc] using this

theorem build_id_to_files_spec (h : heap) (files : List logfile_ptr) :
    ((build_id_to_files h files).map Prod.fst).Nodup
      ∧ (∀ pair ∈ build_id_to_files h files,
          pair.2 = visible_with_id h files pair.1 ∧ pair.2 ≠ [])
      ∧ (∀ id : String, visible_with_id h files id ≠ [] →
          id ∈ (build_id_to_files h files).map Prod.fst) := by
  have := build_id_to_files_foldl h files [] [] (by simp) (by simp) (by simp [visible_with_id])
  simpa [build_id_to_files] using this

/-! ### What the pass does to the visibility flags -/

theorem mem_visible_with_id (h : heap) (files : List logfile_ptr) (id : String)
    (x : logfile_ptr) :
    x ∈ visible_with_id h files id
      ↔ x ∈ files ∧ (h x).lf_visible = true ∧ (h x).lf_content_id = id := by
  simp [visible_with_id, List.mem_filter]

theorem sort_by_size_desc_perm (size : logfile_ptr → Int) (lfs : List logfile_ptr) :
    (sort_by_size_desc size lfs).Perm lfs :=
  List.perm_insertionSort _ _

theorem sort_by_size_desc_head_max (size : logfile_ptr → Int) (lfs : List logfile_ptr)
    (a : logfile_ptr) (t : List logfile_ptr) (hs : sort_by_size_desc size lfs = a :: t) :
    ∀ b ∈ t, size b ≤ size a := by
  haveI : IsTotal logfile_ptr (fun left right => size right ≤ size left) :=
    ⟨fun a b => le_total _ _⟩
  haveI : IsTrans logfile_ptr (fun left right => size right ≤ size left) :=
    ⟨fun a b c hab hbc => le_trans hbc hab⟩
  have hsorted : List.Sorted (fun left right => size right ≤ size left)
      (sort_by_size_desc size lfs) := List.sorted_insertionSort _ _
  rw [hs] at hsorted
  exact fun b hb => List.rel_of_sorted_cons hsorted b hb

theorem sort_by_size_desc_cons_of_ne_nil (size : logfile_ptr → Int) (lfs : List logfile_ptr)
    (hne : lfs ≠ []) : ∃ a t, sort_by_size_desc size lfs = a :: t := by
  cases hs : sort_by_size_desc size lfs with
  | nil =>
    have := (sort_by_size_desc_perm size lfs).length_eq
    rw [hs] at this
    exact absurd (List.length_eq_zero.1 this.symm) hne
  | cons a t => exact ⟨a, t, rfl⟩

theorem hide_duplicates_apply (h : heap) (active : file_collection) (p : logfile_ptr) :
    (rebuild_indexes_hide_duplicates h active).1 p
      = { h p with
          lf_visible := (h p).lf_visible
            && decide (p ∉ hidden_files (fun lf => (h lf).st_size)
                (build_id_to_files h active.fc_files)) } := by
  simp only [rebuild_indexes_hide_duplicates]
  exact (foldl_hide_duplicates_step _ h false).1 p

theorem hide_duplicates_visible (h : heap) (active : file_collection) (p : logfile_ptr) :
    ((rebuild_indexes_hide_duplicates h active).1 p).lf_visible = true
      ↔ (h p).lf_visible = true
        ∧ p ∉ hidden_files (fun lf => (h lf).st_size) (build_id_to_files h active.fc_files) := by
  rw [hide_duplicates_apply]
  simp

theorem hide_duplicates_content_id (h : heap) (active : file_collection) (p : logfile_ptr) :
    ((rebuild_indexes_hide_duplicates h active).1 p).lf_content_id = (h p).lf_content_id := by
  rw [hide_duplicates_apply]

/-- A file of the group of the content id `id` is hidden exactly when the group
has more than one file and the file is in the tail of the sorted group. -/
theorem mem_hidden_files_of_group (h : heap) (files : List logfile_ptr) (id : String)
    (x : logfile_ptr) (hx : x ∈ visible_with_id h files id) :
    x ∈ hidden_files (fun lf => (h lf).st_size) (build_id_to_files h files)
      ↔ (visible_with_id h files id).length ≠ 1
        ∧ x ∈ (sort_by_size_desc (fun lf => (h lf).st_size) (visible_with_id h files id)).tail := by
  obtain ⟨_, hgroups, hkeys⟩ := build_id_to_files_spec h files
  rw [mem_hidden_files]
  constructor
  · rintro ⟨pair, hpair, hlen, hmem⟩
    obtain ⟨hp2, _⟩ := hgroups pair hpair
    have hx2 : x ∈ pair.2 :=
      (sort_by_size_desc_perm _ _).subset (List.mem_of_mem_tail hmem)
    rw [hp2] at hx2
    have hid : pair.1 = id := by
      rw [← ((mem_visible_with_id h files _ x).1 hx2).2.2,
        ((mem_visible_with_id h files _ x).1 hx).2.2]
    rw [hp2, hid] at hlen hmem
    exact ⟨hlen, hmem⟩
  · rintro ⟨hlen, hmem⟩
    have hne : visible_with_id h files id ≠ [] := List.ne_nil_of_mem hx
    obtain ⟨pair, hpair, hfst⟩ := List.mem_map.1 (hkeys id hne)
    obtain ⟨hp2, _⟩ := hgroups pair hpair
    refine ⟨pair, hpair, ?_, ?_⟩
    · rw [hp2, hfst]; exact hlen
    · rw [hp2, hfst]; exact hmem

theorem visible_with_id_after (h : heap) (active : file_collection) (id : String) :
    visible_with_id (rebuild_indexes_hide_duplicates h active).1 active.fc_files id
      = (visible_with_id h active.fc_files id).filter (fun x =>
          decide (x ∉ hidden_files (fun lf => (h lf).st_size)
            (build_id_to_files h active.fc_files))) := by
  simp only [visible_with_id, List.filter_filter]
  apply List.filter_congr
  intro x _
  rw [hide_duplicates_apply]
  cases (h x).lf_visible <;> cases decide ((h x).lf_content_id = id) <;> simp

/-- A file that is still visible after the pass is at least as large as every
file of its group, and is the only one of its group still visible. -/
theorem hide_duplicates_survivor (h : heap) (active : file_collection) (id : String)
    (p q : logfile_ptr) (hp : p ∈ visible_with_id h active.fc_files id)
    (hq : q ∈ visible_with_id h active.fc_files id)
    (hvis : ((rebuild_indexes_hide_duplicates h active).1 p).lf_visible = true) :
    (h q).st_size ≤ (h p).st_size
      ∧ (((rebuild_indexes_hide_duplicates h active).1 q).lf_visible = true → q = p) := by
  have hp_not := ((hide_duplicates_visible h active p).1 hvis).2
  rw [mem_hidden_files_of_group h _ id p hp] at hp_not
  by_cases hlen : (visible_with_id h active.fc_files id).length = 1
  · obtain ⟨x, hx⟩ := List.length_eq_one.1 hlen
    rw [hx] at hp hq
    have hpx := List.mem_singleton.1 hp
    have hqx := List.mem_singleton.1 hq
    subst hpx hqx
    exact ⟨le_refl _, fun _ => rfl⟩
  · obtain ⟨a, t, hs⟩ := sort_by_size_desc_cons_of_ne_nil (fun lf => (h lf).st_size) _
      (List.ne_nil_of_mem hp)
    rw [hs] at hp_not
    have hpt : p ∉ t := fun hin => hp_not ⟨hlen, hin⟩
    have hpa : p = a := by
      have := (sort_by_size_desc_perm (fun lf => (h lf).st_size) _).mem_iff.2 hp
      rw [hs] at this
      rcases List.mem_cons.1 this with e | e
      · exact e
      · exact absurd e hpt
    have hq_in : q ∈ a :: t := by
      have := (sort_by_size_desc_perm (fun lf => (h lf).st_size) _).mem_iff.2 hq
      rwa [hs] at this
    subst hpa
    rcases List.mem_cons.1 hq_in with e | e
    · subst e
      exact ⟨le_refl _, fun _ => rfl⟩
    · refine ⟨sort_by_size_desc_head_max _ _ _ _ hs q e, fun hqv => ?_⟩
      have hq_not := ((hide_duplicates_visible h active q).1 hqv).2
      rw [mem_hidden_files_of_group h _ id q hq, hs] at hq_not
      exact absurd ⟨hlen, e⟩ hq_not

theorem hide_duplicates_at_most_one (h : heap) (active : file_collection) (id : String) :
    (visible_with_id (rebuild_indexes_hide_duplicates h active).1 active.fc_files id).length
      ≤ 1 := by
  rw [visible_with_id_after]
  cases hF : (visible_with_id h active.fc_files id).filter (fun x =>
      decide (x ∉ hidden_files (fun lf => (h lf).st_size)
        (build_id_to_files h active.fc_files))) with
  | nil => simp
  | cons a F =>
    have ha_mem : a ∈ (visible_with_id h active.fc_files id).filter (fun x =>
        decide (x ∉ hidden_files (fun lf => (h lf).st_size)
          (build_id_to_files h active.fc_files))) := by
      rw [hF]; exact List.mem_cons_self _ _
    rw [List.mem_filter] at ha_mem
    obtain ⟨ha_in, ha_not⟩ := ha_mem
    simp only [decide_eq_true_eq] at ha_not
    have ha_vis : ((rebuild_indexes_hide_duplicates h active).1 a).lf_visible = true :=
      (hide_duplicates_visible h active a).2
        ⟨((mem_visible_with_id h _ id a).1 ha_in).2.1, ha_not⟩
    -- every file still visible is `a`
    have hall : ∀ b ∈ a :: F, a = b := by
      intro b hb
      rw [← hF, List.mem_filter] at hb
      simp only [decide_eq_true_eq] at hb
      have hb_vis : ((rebuild_indexes_hide_duplicates h active).1 b).lf_visible = true :=
        (hide_duplicates_visible h active b).2
          ⟨((mem_visible_with_id h _ id b).1 hb.1).2.1, hb.2⟩
      exact ((hide_duplicates_survivor h active id a b ha_in hb.1 ha_vis).2 hb_vis).symm
    have hcount : (a :: F).length = List.count a (a :: F) := (List.count_eq_length.2 hall).symm
    have hsub : List.count a (a :: F) ≤ List.count a (visible_with_id h active.fc_files id) := by
      rw [← hF]
      exact (List.filter_sublist _).count_le _
    -- `a` occurs once in its group
    have hone : List.count a (visible_with_id h active.fc_files id) ≤ 1 := by
      by_cases hlen : (visible_with_id h active.fc_files id).length = 1
      · rw [← hlen]; exact List.count_le_length _ _
      · obtain ⟨a', t, hs⟩ := sort_by_size_desc_cons_of_ne_nil (fun lf => (h lf).st_size) _
          (List.ne_nil_of_mem ha_in)
        rw [mem_hidden_files_of_group h _ id a ha_in, hs] at ha_not
        have hat : a ∉ t := fun hin => ha_not ⟨hlen, hin⟩
        have haa : a = a' := by
          have := (sort_by_size_desc_perm (fun lf => (h lf).st_size) _).mem_iff.2 ha_in
          rw [hs] at this
          rcases List.mem_cons.1 this with e | e
          · exact e
          · exact absurd e hat
        rw [← (sort_by_size_desc_perm (fun lf => (h lf).st_size) _).count_eq a, hs, ← haa,
          List.count_cons_self, List.count_eq_zero_of_not_mem hat]
    omega

theorem hide_duplicates_keeps_one (h : heap) (active : file_collection) (id : String)
    (hnodup : active.fc_files.Nodup) (hne : visible_with_id h active.fc_files id ≠ []) :
    (visible_with_id (rebuild_indexes_hide_duplicates h active).1 active.fc_files id).length
      = 1 := by
  have hle := hide_duplicates_at_most_one h active id
  obtain ⟨a, t, hs⟩ := sort_by_size_desc_cons_of_ne_nil (fun lf => (h lf).st_size) _ hne
  have hperm := sort_by_size_desc_perm (fun lf => (h lf).st_size)
    (visible_with_id h active.fc_files id)
  have hnd : (a :: t).Nodup := by
    rw [← hs]
    exact hperm.nodup_iff.2 (List.Nodup.filter _ hnodup)
  have ha_in : a ∈ visible_with_id h active.fc_files id :=
    hperm.mem_iff.1 (by rw [hs]; exact List.mem_cons_self _ _)
  have ha_not : a ∉ hidden_files (fun lf => (h lf).st_size)
      (build_id_to_files h active.fc_files) := by
    rw [mem_hidden_files_of_group h _ id a ha_in, hs]
    exact fun hc => (List.nodup_cons.1 hnd).1 hc.2
  have hmem : a ∈ visible_with_id (rebuild_indexes_hide_duplicates h active).1
      active.fc_files id := by
    rw [visible_with_id_after, List.mem_filter]
    exact ⟨ha_in, by simpa using ha_not⟩
  have hpos := List.length_pos_of_mem hmem
  omega

/-- C7: duplicate suppression keeps only the largest file of a content-id group
visible.  After the duplicate-suppression pass of `rebuild_indexes`, for every
content id at most one tracked file with that id is visible; a file that is
visible after the pass was visible before it and is at least as large as every
file with its content id that was visible before the pass; every other file with
that id that was visible before is hidden.  When the tracked files are distinct
objects, exactly one file of each group stays visible.  On three visible files
of one content id with the sizes 100, 50 and 75, only the file of 100 bytes
stays visible. -/
theorem hide_duplicates_keeps_largest (h : heap) (active : file_collection) :
    (∀ id : String,
        (visible_with_id (rebuild_indexes_hide_duplicates h active).1
          active.fc_files id).length ≤ 1)
    ∧ (∀ p ∈ active.fc_files,
        ((rebuild_indexes_hide_duplicates h active).1 p).lf_visible = true →
        (h p).lf_visible = true
          ∧ ∀ q ∈ active.fc_files, (h q).lf_visible = true →
              (h q).lf_content_id = (h p).lf_content_id → (h q).st_size ≤ (h p).st_size)
    ∧ (∀ p ∈ active.fc_files, ∀ q ∈ active.fc_files,
        ((rebuild_indexes_hide_duplicates h active).1 p).lf_visible = true →
        (h q).lf_visible = true → (h q).lf_content_id = (h p).lf_content_id → q ≠ p →
        ((rebuild_indexes_hide_duplicates h active).1 q).lf_visible = false)
    ∧ (active.fc_files.Nodup → ∀ id : String, visible_with_id h active.fc_files id ≠ [] →
        (visible_with_id (rebuild_indexes_hide_duplicates h active).1
          active.fc_files id).length = 1)
    ∧ visible_flags
        (rebuild_indexes_hide_duplicates sample_heap (file_collection.of_files [0, 1, 2])).1
        [0, 1, 2] = [true, false, false] := by
  refine ⟨hide_duplicates_at_most_one h active, ?_, ?_,
    fun hnodup id hne => hide_duplicates_keeps_one h active id hnodup hne, by decide⟩
  · intro p hp hvis
    have hv := ((hide_duplicates_visible h active p).1 hvis).1
    refine ⟨hv, fun q hq hqv hqid => ?_⟩
    exact (hide_duplicates_survivor h active (h p).lf_content_id p q
      ((mem_visible_with_id h _ _ p).2 ⟨hp, hv, rfl⟩)
      ((mem_visible_with_id h _ _ q).2 ⟨hq, hqv, hqid⟩) hvis).1
  · intro p hp q hq hvis hqv hqid hne
    have hv := ((hide_duplicates_visible h active p).1 hvis).1
    by_contra hq_vis
    rw [Bool.not_eq_false] at hq_vis
    exact hne ((hide_duplicates_survivor h active (h p).lf_content_id p q
      ((mem_visible_with_id h _ _ p).2 ⟨hp, hv, rfl⟩)
      ((mem_visible_with_id h _ _ q).2 ⟨hq, hqv, hqid⟩) hvis).2 hq_vis)

/-- The witness of C7: three visible files of one content id with the sizes
100, 50 and 75, listed in another order: the file of 100 bytes at the address 0
is the one that stays visible. -/
theorem hide_duplicates_keeps_largest_witness :
    (visible_with_id
        (rebuild_indexes_hide_duplicates sample_heap (file_collection.of_files [1, 2, 0])).1
        (file_collection.of_files [1, 2, 0]).fc_files "id").length = 1
    ∧ visible_flags
        (rebuild_indexes_hide_duplicates sample_heap (file_collection.of_files [1, 2, 0])).1
        [0, 1, 2] = [true, false, false] :=
  ⟨(hide_duplicates_keeps_largest sample_heap (file_collection.of_files [1, 2, 0])).2.2.2.1
      (by decide) "id" (by decide),
    by decide⟩

/-- C8: duplicate suppression hides and never removes.  The pass leaves the
tracked-file list and the generation counter as they were and changes nothing
of a log file but its visibility flag; it never makes a hidden file visible; it
leaves visible every file whose content id no other visible file of the list
has; and it signals a reload (`text_filters_changed`) exactly when some
content-id group has more than one visible member. -/
theorem hide_duplicates_hides_never_removes (h : heap) (active : file_collection) :
    ((rebuild_indexes_hide_duplicates h active).2.1.fc_files = active.fc_files
      ∧ (rebuild_indexes_hide_duplicates h active).2.1.fc_files_generation
        = active.fc_files_generation)
    ∧ (∀ p : logfile_ptr, (rebuild_indexes_hide_duplicates h active).1 p
        = { h p with
            lf_visible := ((rebuild_indexes_hide_duplicates h active).1 p).lf_visible })
    ∧ (∀ p : logfile_ptr,
        ((rebuild_indexes_hide_duplicates h active).1 p).lf_visible = true →
        (h p).lf_visible = true)
    ∧ (∀ (pre : List logfile_ptr) (p : logfile_ptr) (post : List logfile_ptr),
        active.fc_files = pre ++ p :: post → (h p).lf_visible = true →
        (∀ q ∈ pre ++ post, (h q).lf_visible = true →
          (h q).lf_content_id ≠ (h p).lf_content_id) →
        ((rebuild_indexes_hide_duplicates h active).1 p).lf_visible = true)
    ∧ ((rebuild_indexes_hide_duplicates h active).2.2 = true
        ↔ ∃ id : String, 1 < (visible_with_id h active.fc_files id).length) := by
  refine ⟨⟨rfl, rfl⟩, ?_, ?_, ?_, ?_⟩
  · intro p
    rw [hide_duplicates_apply]
  · intro p hvis
    exact ((hide_duplicates_visible h active p).1 hvis).1
  · intro pre p post hfiles hv hothers
    have hgroup : visible_with_id h active.fc_files (h p).lf_content_id = [p] := by
      have hpre : pre.filter (fun lf => (h lf).lf_visible
          && decide ((h lf).lf_content_id = (h p).lf_content_id)) = [] := by
        rw [List.filter_eq_nil_iff]
        intro q hq
        have := hothers q (List.mem_append_left _ hq)
        cases hqv : (h q).lf_visible <;> simp_all
      have hpost : post.filter (fun lf => (h lf).lf_visible
          && decide ((h lf).lf_content_id = (h p).lf_content_id)) = [] := by
        rw [List.filter_eq_nil_iff]
        intro q hq
        have := hothers q (List.mem_append_right _ hq)
        cases hqv : (h q).lf_visible <;> simp_all
      simp only [visible_with_id, hfiles, List.filter_append, List.filter_cons, hpre, hpost, hv,
        decide_True, Bool.and_self, if_true, List.nil_append]
    have hp_in : p ∈ visible_with_id h active.fc_files (h p).lf_content_id := by
      rw [hgroup]; exact List.mem_singleton_self p
    refine (hide_duplicates_visible h active p).2 ⟨hv, ?_⟩
    rw [mem_hidden_files_of_group h _ _ p hp_in, hgroup]
    simp
  · obtain ⟨_, hgroups, hkeys⟩ := build_id_to_files_spec h active.fc_files
    have hreload : (rebuild_indexes_hide_duplicates h active).2.2
        = (build_id_to_files h active.fc_files).any (fun pair => decide (pair.2.length ≠ 1)) := by
      simp only [rebuild_indexes_hide_duplicates]
      rw [(foldl_hide_duplicates_step _ h false).2]
      simp
    rw [hreload, List.any_eq_true]
    constructor
    · rintro ⟨pair, hpair, hlen⟩
      obtain ⟨hp2, hne⟩ := hgroups pair hpair
      refine ⟨pair.1, ?_⟩
      rw [← hp2]
      have hpos := List.length_pos.2 hne
      simp only [ne_eq, decide_not, Bool.not_eq_true', decide_eq_false_iff_not] at hlen
      omega
    · rintro ⟨id, hlen⟩
      have hne : visible_with_id h active.fc_files id ≠ [] := by
        intro e; rw [e] at hlen; simp at hlen
      obtain ⟨pair, hpair, hfst⟩ := List.mem_map.1 (hkeys id hne)
      refine ⟨pair, hpair, ?_⟩
      rw [(hgroups pair hpair).1, hfst]
      simp only [ne_eq, decide_not, Bool.not_eq_true', decide_eq_false_iff_not]
      omega

/-- A witness of C8: of the visible files 0 and 1 of one content id only the
larger file 0 stays visible, the list is unchanged and a reload is signalled. -/
theorem hide_duplicates_hides_never_removes_witness :
    (rebuild_indexes_hide_duplicates sample_heap (file_collection.of_files [0, 1])).2.1.fc_files
        = [0, 1]
    ∧ visible_flags
        (rebuild_indexes_hide_duplicates sample_heap (file_collection.of_files [0, 1])).1
        [0, 1] = [true, false]
    ∧ (rebuild_indexes_hide_duplicates sample_heap (file_collection.of_files [0, 1])).2.2
        = true :=
  ⟨(hide_duplicates_hides_never_removes sample_heap (file_collection.of_files [0, 1])).1.1,
    by decide, by decide⟩

/-! ## `moveto_cluster` when there is no target -/

/-- C4: `moveto_cluster` when `next_cluster` finds no target from `top` and none
from the current top (or selection) of the view.  In `lnav.cc` the call returns
false and the view is the one before the call.  In `view_helpers.cc` the test
`new_top != -1` holds for the empty optional, so the call does not return false:
it evaluates `new_top.value()` and throws `bad_optional_access`. -/
theorem moveto_cluster_no_target (f : bookmark_vector → Int → Int) (tc : textview_curses)
    (top : Int) :
    (lnav.next_cluster f tc top = some (-1) → lnav.next_cluster f tc tc.tc_top = some (-1) →
        lnav.moveto_cluster f tc top = Except.ok (false, tc))
    ∧ (view_helpers.next_cluster f tc top = some none →
        view_helpers.next_cluster f tc (if tc.tc_selectable then tc.tc_selection else tc.tc_top)
          = some none →
        view_helpers.moveto_cluster f tc top = Except.error failure.bad_optional_access) := by
  constructor
  · intro h1 h2
    simp [lnav.moveto_cluster, h1, h2, with_fuel]
    rfl
  · intro h1 h2
    simp [view_helpers.moveto_cluster, h1, h2, with_fuel, optional_ne, optional_value]
    rfl

/-- The failing input of C4: a view without bookmarks, going forward from the
line 0. -/
theorem moveto_cluster_no_target_witness :
    lnav.moveto_cluster bookmark_vector.next ⟨[], 20, 0, 0, false, none⟩ 0
        = Except.ok (false, ⟨[], 20, 0, 0, false, none⟩)
    ∧ view_helpers.moveto_cluster bookmark_vector.next ⟨[], 20, 0, 0, false, none⟩ 0
        = Except.error failure.bad_optional_access :=
  ⟨(moveto_cluster_no_target bookmark_vector.next ⟨[], 20, 0, 0, false, none⟩ 0).1 rfl rfl,
    (moveto_cluster_no_target bookmark_vector.next ⟨[], 20, 0, 0, false, none⟩ 0).2 rfl rfl⟩


/-! ## Merging two deltas in either order -/

theorem map_insert_range_comm {V : Type} (m a b : string_map V)
    (hab : ∀ (k : String) (va vb : V), a k = some va → b k = some vb → va = vb) :
    map_insert_range (map_insert_range m a) b = map_insert_range (map_insert_range m b) a := by
  funext k
  simp only [map_insert_range]
  cases hm : m k with
  | some v => rfl
  | none =>
    cases ha : a k with
    | none => cases hb : b k <;> rfl
    | some va =>
      cases hb : b k with
      | none => rfl
      | some vb => simp [hab k va vb ha hb]

theorem set_insert_range_comm (s a b : string_set) :
    set_insert_range (set_insert_range s a) b = set_insert_range (set_insert_range s b) a := by
  funext k
  simp only [set_insert_range]
  cases s k <;> cases a k <;> cases b k <;> rfl

theorem merge_all_pair (h : heap) (C A B : file_collection) :
    file_collection.merge_all h C [A, B]
      = file_collection.merge (file_collection.merge h C A).1 (file_collection.merge h C A).2 B := by
  simp only [file_collection.merge_all]

/-- C11, as the code has it: merge is commutative up to the order of the tracked
files.  For a collection `C` and deltas `A` and `B` whose maps agree on every key
they share and which do not rename the same file, merging `A` then `B` into `C`
gives the same watched-path map, error map, other-file map, closed-file set,
file names and generation counter as merging `B` then `A`.  The tracked-file
lists are `C ++ A ++ B` and `C ++ B ++ A`: permutations of each other, and equal
if and only if the files of `A` followed by those of `B` are those of `B`
followed by those of `A`. -/
theorem merge_commutes (h : heap) (C A B : file_collection)
    (hnames : ∀ (k : String) (va vb : logfile_open_options),
      A.fc_file_names k = some va → B.fc_file_names k = some vb → va = vb)
    (herrors : ∀ (k : String) (va vb : String),
      A.fc_name_to_errors k = some va → B.fc_name_to_errors k = some vb → va = vb)
    (hother : ∀ (k : String) (va vb : String),
      A.fc_other_files k = some va → B.fc_other_files k = some vb → va = vb)
    (hrenames : ∀ lf : logfile_ptr,
      last_rename lf A.fc_renamed_files = none ∨ last_rename lf B.fc_renamed_files = none) :
    (file_collection.merge_all h C [A, B]).2.fc_file_names
        = (file_collection.merge_all h C [B, A]).2.fc_file_names
    ∧ (file_collection.merge_all h C [A, B]).2.fc_name_to_errors
        = (file_collection.merge_all h C [B, A]).2.fc_name_to_errors
    ∧ (file_collection.merge_all h C [A, B]).2.fc_other_files
        = (file_collection.merge_all h C [B, A]).2.fc_other_files
    ∧ (file_collection.merge_all h C [A, B]).2.fc_closed_files
        = (file_collection.merge_all h C [B, A]).2.fc_closed_files
    ∧ (file_collection.merge_all h C [A, B]).2.fc_files_generation
        = (file_collection.merge_all h C [B, A]).2.fc_files_generation
    ∧ (file_collection.merge_all h C [A, B]).1 = (file_collection.merge_all h C [B, A]).1
    ∧ ((file_collection.merge_all h C [A, B]).2.fc_files).Perm
        (file_collection.merge_all h C [B, A]).2.fc_files
    ∧ (file_collection.merge_all h C [A, B]).2.fc_files = C.fc_files ++ A.fc_files ++ B.fc_files
    ∧ (file_collection.merge_all h C [B, A]).2.fc_files
        = C.fc_files ++ B.fc_files ++ A.fc_files
    ∧ ((file_collection.merge_all h C [A, B]).2.fc_files
          = (file_collection.merge_all h C [B, A]).2.fc_files
        ↔ A.fc_files ++ B.fc_files = B.fc_files ++ A.fc_files) := by
  rw [merge_all_pair, merge_all_pair]
  refine ⟨?_, ?_, ?_, ?_, ?_, ?_, ?_, ?_, ?_, ?_⟩
  · simp only [file_collection.merge]
    exact map_insert_range_comm _ _ _ hnames
  · simp only [file_collection.merge]
    exact map_insert_range_comm _ _ _ herrors
  · simp only [file_collection.merge]
    exact map_insert_range_comm _ _ _ hother
  · simp only [file_collection.merge]
    exact set_insert_range_comm _ _ _
  · simp only [merge_fc_files_generation]
    omega
  · funext lf
    simp only [merge_heap_apply]
    rcases hrenames lf with hr | hr <;> simp [hr]
  · simp only [merge_fc_files, List.append_assoc]
    exact List.Perm.append_left _ List.perm_append_comm
  · simp only [merge_fc_files]
  · simp only [merge_fc_files]
  · simp only [merge_fc_files, List.append_assoc]
    exact List.append_right_inj _

/-- A witness of the amended C11: the two sample deltas share the watched path
`shared.log`, the error of `missing.log` and the database `db.sqlite` with equal
values, each has a watched path of its own, and they rename different files.  Merged into the
collection that tracks the file 0 in either order they give the same maps, the
same file names and the generation 2, and the tracked files 0, 1, 2 in one order
and 0, 2, 1 in the other. -/
theorem merge_commutes_witness :
    (file_collection.merge_all sample_heap (file_collection.of_files [0])
        [sample_delta_a, sample_delta_b]).2.fc_file_names
      = (file_collection.merge_all sample_heap (file_collection.of_files [0])
        [sample_delta_b, sample_delta_a]).2.fc_file_names
    ∧ (file_collection.merge_all sample_heap (file_collection.of_files [0])
        [sample_delta_a, sample_delta_b]).2.fc_name_to_errors
      = (file_collection.merge_all sample_heap (file_collection.of_files [0])
        [sample_delta_b, sample_delta_a]).2.fc_name_to_errors
    ∧ (file_collection.merge_all sample_heap (file_collection.of_files [0])
        [sample_delta_a, sample_delta_b]).1
      = (file_collection.merge_all sample_heap (file_collection.of_files [0])
        [sample_delta_b, sample_delta_a]).1
    ∧ (file_collection.merge_all sample_heap (file_collection.of_files [0])
        [sample_delta_a, sample_delta_b]).2.fc_files_generation = 2
    ∧ (file_collection.merge_all sample_heap (file_collection.of_files [0])
        [sample_delta_b, sample_delta_a]).2.fc_files_generation = 2
    ∧ (file_collection.merge_all sample_heap (file_collection.of_files [0])
        [sample_delta_a, sample_delta_b]).2.fc_files = [0, 1, 2]
    ∧ (file_collection.merge_all sample_heap (file_collection.of_files [0])
        [sample_delta_b, sample_delta_a]).2.fc_files = [0, 2, 1]
    ∧ (file_collection.merge_all sample_heap (file_collection.of_files [0])
        [sample_delta_a, sample_delta_b]).2.fc_file_names "shared.log"
      = some logfile_open_options.default
    ∧ (file_collection.merge_all sample_heap (file_collection.of_files [0])
        [sample_delta_a, sample_delta_b]).2.fc_file_names "b.log"
      = some logfile_open_options.default
    ∧ ((file_collection.merge_all sample_heap (file_collection.of_files [0])
        [sample_delta_a, sample_delta_b]).1 3).lf_filename = "a.log"
    ∧ ((file_collection.merge_all sample_heap (file_collection.of_files [0])
        [sample_delta_a, sample_delta_b]).1 4).lf_filename = "b.log" := by
  have hw := merge_commutes sample_heap (file_collection.of_files [0]) sample_delta_a
    sample_delta_b
    (by
      intro k va vb ha hb
      simp only [sample_delta_a] at ha
      simp only [sample_delta_b] at hb
      by_cases hka : k = "shared.log" ∨ k = "a.log"
      · by_cases hkb : k = "shared.log" ∨ k = "b.log"
        · rw [if_pos hka] at ha
          rw [if_pos hkb] at hb
          rw [← Option.some.inj ha, ← Option.some.inj hb]
        · rw [if_neg hkb] at hb
          exact absurd hb (by simp)
      · rw [if_neg hka] at ha
        exact absurd ha (by simp))
    (by
      intro k va vb ha hb
      simp only [sample_delta_a] at ha
      simp only [sample_delta_b] at hb
      by_cases hk : k = "missing.log"
      · rw [if_pos hk] at ha hb
        rw [← Option.some.inj ha, ← Option.some.inj hb]
      · rw [if_neg hk] at ha
        exact absurd ha (by simp))
    (by
      intro k va vb ha hb
      simp only [sample_delta_a] at ha
      simp only [sample_delta_b] at hb
      by_cases hk : k = "db.sqlite"
      · rw [if_pos hk] at ha hb
        rw [← Option.some.inj ha, ← Option.some.inj hb]
      · rw [if_neg hk] at ha
        exact absurd ha (by simp))
    (by
      intro lf
      by_cases h3 : lf = 3
      · right
        subst h3
        decide
      · left
        have h3' : ¬ 3 = lf := fun h => h3 h.symm
        simp [sample_delta_a, last_rename, h3'])
  exact ⟨hw.1, hw.2.1, hw.2.2.2.2.2.1, by decide, by decide, by decide, by decide, by decide,
    by decide, by decide, by decide⟩

/-- C11 fails as stated: the deltas with the tracked file 1 and with the tracked
file 2 have no map entry and rename nothing; merged into the collection that
tracks the file 0, one order gives the tracked-file list 0, 1, 2 and the other
the list 0, 2, 1. -/
theorem merge_commutes_order_counterexample :
    (file_collection.of_files [1]).fc_renamed_files = []
    ∧ (file_collection.of_files [2]).fc_renamed_files = []
    ∧ (∀ k : String, (file_collection.of_files [1]).fc_file_names k = none
        ∧ (file_collection.of_files [1]).fc_name_to_errors k = none
        ∧ (file_collection.of_files [1]).fc_other_files k = none)
    ∧ (file_collection.merge_all sample_heap (file_collection.of_files [0])
        [file_collection.of_files [1], file_collection.of_files [2]]).2.fc_files = [0, 1, 2]
    ∧ (file_collection.merge_all sample_heap (file_collection.of_files [0])
        [file_collection.of_files [2], file_collection.of_files [1]]).2.fc_files = [0, 2, 1]
    ∧ (file_collection.merge_all sample_heap (file_collection.of_files [0])
        [file_collection.of_files [1], file_collection.of_files [2]]).2.fc_files
      ≠ (file_collection.merge_all sample_heap (file_collection.of_files [0])
        [file_collection.of_files [2], file_collection.of_files [1]]).2.fc_files :=
  ⟨rfl, rfl, fun _ => ⟨rfl, rfl, rfl⟩, by decide, by decide, by decide⟩

/-! ## Closing a file -/

theorem close_file_fc_file_names (h : heap) (C : file_collection) (lf : logfile_ptr) :
    (file_collection.close_file h C lf).fc_file_names
      = if (h lf).lf_valid_filename = true then C.fc_file_names
        else map_erase C.fc_file_names (h lf).lf_filename := by
  unfold file_collection.close_file
  by_cases hv : (h lf).lf_valid_filename = true <;> by_cases hm : lf ∈ C.fc_files <;>
    simp [hv, hm]

theorem close_file_fc_files (h : heap) (C : file_collection) (lf : logfile_ptr) :
    (file_collection.close_file h C lf).fc_files = C.fc_files.erase lf := by
  unfold file_collection.close_file
  by_cases hm : lf ∈ C.fc_files
  · simp [hm]
  · simp [hm, List.erase_of_not_mem hm]

theorem erase_filter_ne (l : List logfile_ptr) (f : logfile_ptr) :
    (l.erase f).filter (fun g => g != f) = l.filter (fun g => g != f) := by
  induction l with
  | nil => rfl
  | cons a t ih =>
    by_cases ha : a = f
    · subst ha
      simp
    · have hne : (a == f) = false := by simpa using ha
      rw [List.erase_cons_tail (by simpa using ha)]
      simp [List.filter_cons, hne, ih]

/-- C12, as the code has it: `close_file` removes the first entry of the file
and, only for a name that is not a valid file name, its watched-path entry.
After `C.close_file(f)` the first position of `f` is erased from the
tracked-file list: the list holds `f` once less, every other file as often as
before and in the previous relative order, and `f` is not in the list if and
only if the list held it at most once.  The watched-path entry keyed by the file
name of `f` is erased when `is_valid_filename()` is false and the map is
untouched otherwise, every other entry is as before; the generation increases by
exactly one when `f` was in the list and is as before when it was not. -/
theorem close_file_removes_file (h : heap) (C : file_collection) (f : logfile_ptr) :
    (file_collection.close_file h C f).fc_files = C.fc_files.erase f
    ∧ ((file_collection.close_file h C f).fc_files).Sublist C.fc_files
    ∧ ((file_collection.close_file h C f).fc_files).count f = C.fc_files.count f - 1
    ∧ (∀ g : logfile_ptr, g ≠ f →
        ((file_collection.close_file h C f).fc_files).count g = C.fc_files.count g)
    ∧ ((file_collection.close_file h C f).fc_files).filter (fun g => g != f)
        = C.fc_files.filter (fun g => g != f)
    ∧ (f ∉ (file_collection.close_file h C f).fc_files ↔ C.fc_files.count f ≤ 1)
    ∧ ((h f).lf_valid_filename = false →
        (file_collection.close_file h C f).fc_file_names (h f).lf_filename = none)
    ∧ ((h f).lf_valid_filename = true →
        (file_collection.close_file h C f).fc_file_names = C.fc_file_names)
    ∧ (∀ k : String, k ≠ (h f).lf_filename →
        (file_collection.close_file h C f).fc_file_names k = C.fc_file_names k)
    ∧ (f ∈ C.fc_files →
        (file_collection.close_file h C f).fc_files_generation = C.fc_files_generation + 1)
    ∧ (f ∉ C.fc_files →
        (file_collection.close_file h C f).fc_files_generation = C.fc_files_generation) := by
  refine ⟨close_file_fc_files h C f, ?_, ?_, ?_, ?_, ?_, ?_, ?_, ?_, ?_, ?_⟩
  · rw [close_file_fc_files]
    exact List.erase_sublist _ _
  · rw [close_file_fc_files]
    exact List.count_erase_self f C.fc_files
  · intro g hg
    rw [close_file_fc_files]
    exact List.count_erase_of_ne hg C.fc_files
  · rw [close_file_fc_files]
    exact erase_filter_ne C.fc_files f
  · rw [close_file_fc_files, ← List.count_eq_zero, List.count_erase_self]
    omega
  · intro hv
    rw [close_file_fc_file_names]
    simp [hv, map_erase]
  · intro hv
    rw [close_file_fc_file_names]
    simp [hv]
  · intro k hk
    rw [close_file_fc_file_names]
    by_cases hv : (h f).lf_valid_filename = true
    · simp [hv]
    · simp [hv, map_erase, hk]
  · intro hin
    simp [file_collection.close_file, hin]
  · intro hnin
    simp [file_collection.close_file, hnin]

/-- A witness of the amended C12: closing the file 1 of the tracked files 0, 1
and 2 leaves 0 and 2 and takes the generation to 1. -/
theorem close_file_removes_file_witness :
    (1 ∉ (file_collection.close_file sample_heap (file_collection.of_files [0, 1, 2]) 1).fc_files
      ↔ (file_collection.of_files [0, 1, 2]).fc_files.count 1 ≤ 1)
    ∧ (file_collection.close_file sample_heap (file_collection.of_files [0, 1, 2]) 1).fc_files
        = [0, 2]
    ∧ (file_collection.close_file sample_heap
        (file_collection.of_files [0, 1, 2]) 1).fc_files_generation = 1 :=
  ⟨(close_file_removes_file sample_heap (file_collection.of_files [0, 1, 2]) 1).2.2.2.2.2.1,
    by decide,
    (close_file_removes_file sample_heap
      (file_collection.of_files [0, 1, 2]) 1).2.2.2.2.2.2.2.2.2.1 (by decide)⟩

/-- C12 fails as stated: merging the delta with the tracked file 1 twice gives
the tracked-file list 1, 1; closing the file 1 erases the first entry only, and
the file 1 is still in the list. -/
theorem close_file_duplicate_counterexample :
    (file_collection.merge_all sample_heap file_collection.empty
        [file_collection.of_files [1], file_collection.of_files [1]]).2.fc_files = [1, 1]
    ∧ (file_collection.close_file sample_heap
        (file_collection.merge_all sample_heap file_collection.empty
          [file_collection.of_files [1], file_collection.of_files [1]]).2 1).fc_files = [1]
    ∧ 1 ∈ (file_collection.close_file sample_heap
        (file_collection.merge_all sample_heap file_collection.empty
          [file_collection.of_files [1], file_collection.of_files [1]]).2 1).fc_files :=
  ⟨by decide, by decide, by decide⟩

/-! ## The sweep of `rebuild_indexes` -/

theorem rebuild_indexes_sweep_loop_spec (h : heap) (files : List logfile_ptr) :
    ∀ st : string_map logfile_open_options × Nat,
      (rebuild_indexes_sweep_loop h files st).1
          = files.filter (fun lf => (h lf).lf_exists && !(h lf).lf_closed)
      ∧ (rebuild_indexes_sweep_loop h files st).2.2 = st.2 + (swept_files h files).length := by
  induction files with
  | nil => intro st; simp [rebuild_indexes_sweep_loop, swept_files]
  | cons lf rest ih =>
    intro st
    by_cases hgone : ¬ (h lf).lf_exists = true ∨ (h lf).lf_closed = true
    · have hkeep : ((h lf).lf_exists && !(h lf).lf_closed) = false := by
        rcases hgone with hg | hg
        · simp [hg]
        · simp [hg]
      have hswept : (!(h lf).lf_exists || (h lf).lf_closed) = true := by
        rcases hgone with hg | hg
        · simp [hg]
        · simp [hg]
      simp only [rebuild_indexes_sweep_loop, hgone, if_true, List.filter_cons, hkeep,
        swept_files, hswept, List.length_cons]
      obtain ⟨ih1, ih2⟩ := ih
        ((if ¬ (h lf).lf_valid_filename = true then map_erase st.1 (h lf).lf_filename else st.1),
          st.2 + 1)
      refine ⟨by simpa using ih1, ?_⟩
      rw [ih2]
      simp only [swept_files]
      omega
    · have hkeep : ((h lf).lf_exists && !(h lf).lf_closed) = true := by
        simp only [not_or, Bool.not_eq_true, not_not] at hgone
        simp [hgone.1, hgone.2]
      have hswept : (!(h lf).lf_exists || (h lf).lf_closed) = false := by
        simp only [not_or, Bool.not_eq_true, not_not] at hgone
        simp [hgone.1, hgone.2]
      obtain ⟨ih1, ih2⟩ := ih st
      simp only [rebuild_indexes_sweep_loop, hgone, if_false, List.filter_cons, hkeep, if_true,
        swept_files, hswept, ih1]
      refine ⟨trivial, ?_⟩
      rw [ih2]
      simp [swept_files]

/-- C13, as the code has it: the sweep of `rebuild_indexes` adds one to the
generation counter for each tracked file it removes.  After a sweep that removes
`k` files (those that no longer exist or are closed) the list holds the other
files in their order and the generation is `k` larger; a sweep that removes none
leaves the list and the generation as they were; the generation is never
decremented. -/
theorem sweep_generation_per_removed_file (h : heap) (active : file_collection) :
    (rebuild_indexes_sweep h active).fc_files
        = active.fc_files.filter (fun lf => (h lf).lf_exists && !(h lf).lf_closed)
    ∧ (rebuild_indexes_sweep h active).fc_files.length + (swept_files h active.fc_files).length
        = active.fc_files.length
    ∧ (rebuild_indexes_sweep h active).fc_files_generation
        = active.fc_files_generation + (swept_files h active.fc_files).length
    ∧ (swept_files h active.fc_files = [] →
        (rebuild_indexes_sweep h active).fc_files = active.fc_files
          ∧ (rebuild_indexes_sweep h active).fc_files_generation = active.fc_files_generation)
    ∧ active.fc_files_generation ≤ (rebuild_indexes_sweep h active).fc_files_generation := by
  obtain ⟨h1, h2⟩ := rebuild_indexes_sweep_loop_spec h active.fc_files
    (active.fc_file_names, active.fc_files_generation)
  have hfiles : (rebuild_indexes_sweep h active).fc_files
      = active.fc_files.filter (fun lf => (h lf).lf_exists && !(h lf).lf_closed) := h1
  have hgen : (rebuild_indexes_sweep h active).fc_files_generation
      = active.fc_files_generation + (swept_files h active.fc_files).length := h2
  have hlen : ∀ l : List logfile_ptr,
      (l.filter (fun lf => (h lf).lf_exists && !(h lf).lf_closed)).length
        + (swept_files h l).length = l.length := by
    intro l
    induction l with
    | nil => simp [swept_files]
    | cons a l ih =>
      simp only [swept_files] at ih ⊢
      cases he : (h a).lf_exists <;> cases hc : (h a).lf_closed <;>
        simp [List.filter_cons, he, hc] <;> omega
  refine ⟨hfiles, ?_, hgen, ?_, ?_⟩
  · rw [hfiles]; exact hlen _
  · intro hnone
    refine ⟨?_, by rw [hgen, hnone]; rfl⟩
    rw [hfiles, List.filter_eq_self]
    intro a ha
    have : a ∉ swept_files h active.fc_files := by rw [hnone]; simp
    simp only [swept_files, List.mem_filter, not_and] at this
    have := this ha
    cases he : (h a).lf_exists <;> cases hc : (h a).lf_closed <;> simp_all
  · rw [hgen]; exact Nat.le_add_right _ _

/-- C13 fails as stated: a sweep that removes the two tracked files 1 and 2,
which no longer exist, takes the generation from 0 to 2, not to 1. -/
theorem sweep_generation_counterexample :
    swept_files gone_heap (file_collection.of_files [0, 1, 2]).fc_files = [1, 2]
    ∧ (rebuild_indexes_sweep gone_heap (file_collection.of_files [0, 1, 2])).fc_files = [0]
    ∧ (file_collection.of_files [0, 1, 2]).fc_files_generation = 0
    ∧ (rebuild_indexes_sweep gone_heap (file_collection.of_files [0, 1, 2])).fc_files_generation
        = 2 := by
  refine ⟨by decide, by decide, rfl, by decide⟩


/-! ## `watch_logfile` -/

/-- C14: the failure semantics of `watch_logfile`.  For a path that is not in
the closed-file set and whose `stat` fails (the error string is that of
`errno`), or that is neither a regular file nor a directory handled by the
recursive flag (the error string is that of `EINVAL`), the returned delta has no
tracked files, no watched-path entries, no renames, no other-file entries and no
closed files; its error map is exactly `{path -> error string}` when `required`
is true and is empty when `required` is false.  The call returns in both
cases. -/
theorem watch_logfile_failure (fs : file_system) (h : heap) (C : file_collection)
    (filename : String) (loo : logfile_open_options) (required : Bool) (msg : String)
    (hclosed : C.fc_closed_files filename = false)
    (hfail : file_collection.watch_logfile_stat fs filename loo = Except.error msg
      ∨ ∃ st : stat_t, file_collection.watch_logfile_stat fs filename loo = Except.ok st
          ∧ st.st_mode ≠ file_type.regular
          ∧ ¬ (st.st_mode = file_type.directory ∧ fs.fs_recursive = true)
          ∧ msg = fs.fs_strerror_EINVAL) :
    (file_collection.watch_logfile fs h C filename loo required).fc_files = []
    ∧ (∀ k : String,
        (file_collection.watch_logfile fs h C filename loo required).fc_file_names k = none)
    ∧ (file_collection.watch_logfile fs h C filename loo required).fc_renamed_files = []
    ∧ (∀ k : String,
        (file_collection.watch_logfile fs h C filename loo required).fc_other_files k = none)
    ∧ (∀ k : String,
        (file_collection.watch_logfile fs h C filename loo required).fc_closed_files k = false)
    ∧ (required = true → ∀ k : String,
        (file_collection.watch_logfile fs h C filename loo required).fc_name_to_errors k
          = if k = filename then some msg else none)
    ∧ (required = false → ∀ k : String,
        (file_collection.watch_logfile fs h C filename loo required).fc_name_to_errors k
          = none) := by
  have hw : file_collection.watch_logfile fs h C filename loo required
      = file_collection.watch_logfile_failed filename required msg := by
    rcases hfail with hs | ⟨st, hs, hreg, hdir, hmsg⟩
    · simp [file_collection.watch_logfile, hclosed, hs]
    · subst hmsg
      simp only [file_collection.watch_logfile, hclosed, hs, Bool.false_eq_true, if_false, hdir,
        hreg, ne_eq, not_false_eq_true, if_true]
      cases required <;> simp [file_collection.watch_logfile_failed]
  rw [hw]
  cases required <;>
    simp [file_collection.watch_logfile_failed, file_collection.empty, map_set]

/-- A witness of C14: a required path whose `stat` fails. -/
theorem watch_logfile_failure_witness :
    (file_collection.watch_logfile empty_file_system sample_heap file_collection.empty
        "/var/log/none.log" logfile_open_options.default true).fc_files = []
    ∧ (file_collection.watch_logfile empty_file_system sample_heap file_collection.empty
        "/var/log/none.log" logfile_open_options.default true).fc_name_to_errors
          "/var/log/none.log" = some "No such file or directory" :=
  ⟨(watch_logfile_failure empty_file_system sample_heap file_collection.empty
      "/var/log/none.log" logfile_open_options.default true "No such file or directory"
      rfl (Or.inl rfl)).1,
    by
      have := (watch_logfile_failure empty_file_system sample_heap file_collection.empty
        "/var/log/none.log" logfile_open_options.default true "No such file or directory"
        rfl (Or.inl rfl)).2.2.2.2.2.1 rfl "/var/log/none.log"
      simpa using this⟩

/-! ### The entries of an archive -/

theorem last_archive_entry_some (k : String) (entries : List archive_entry) (e : archive_entry)
    (he : last_archive_entry k entries = some e) :
    e ∈ entries ∧ e.ae_path = k ∧ archive_entry_excluded e = false := by
  induction entries with
  | nil => simp [last_archive_entry] at he
  | cons entry rest ih =>
    simp only [last_archive_entry] at he
    cases hr : last_archive_entry k rest with
    | some x =>
      rw [hr] at he
      simp only [Option.some.injEq] at he
      subst he
      obtain ⟨h1, h2, h3⟩ := ih hr
      exact ⟨List.mem_cons_of_mem _ h1, h2, h3⟩
    | none =>
      rw [hr] at he
      by_cases hc : entry.ae_path = k ∧ archive_entry_excluded entry = false
      · simp only [hc, and_self, if_true, Option.some.injEq] at he
        subst he
        exact ⟨List.mem_cons_self _ _, hc.1, hc.2⟩
      · simp [hc] at he

theorem last_archive_entry_none (k : String) (entries : List archive_entry)
    (hn : last_archive_entry k entries = none) :
    ∀ e ∈ entries, ¬ (e.ae_path = k ∧ archive_entry_excluded e = false) := by
  induction entries with
  | nil => simp
  | cons entry rest ih =>
    simp only [last_archive_entry] at hn
    cases hr : last_archive_entry k rest with
    | some x => rw [hr] at hn; simp at hn
    | none =>
      rw [hr] at hn
      intro e he
      rcases List.mem_cons.1 he with rfl | hin
      · intro hc
        simp [hc] at hn
      · exact ih hr e hin

theorem foldl_walk_archive_callback (filename : String) (entries : List archive_entry) :
    ∀ init : file_collection,
      (∀ k : String, (entries.foldl (walk_archive_callback filename) init).fc_file_names k
        = match last_archive_entry k entries with
          | some e => some (archive_entry_options filename e)
          | none => init.fc_file_names k)
      ∧ (entries.foldl (walk_archive_callback filename) init).fc_files = init.fc_files
      ∧ (entries.foldl (walk_archive_callback filename) init).fc_other_files
          = init.fc_other_files
      ∧ (entries.foldl (walk_archive_callback filename) init).fc_name_to_errors
          = init.fc_name_to_errors
      ∧ (entries.foldl (walk_archive_callback filename) init).fc_renamed_files
          = init.fc_renamed_files := by
  induction entries with
  | nil => intro init; simp [last_archive_entry]
  | cons entry rest ih =>
    intro init
    rw [List.foldl_cons]
    obtain ⟨i1, i2, i3, i4, i5⟩ := ih (walk_archive_callback filename init entry)
    refine ⟨fun k => ?_, ?_, ?_, ?_, ?_⟩
    · rw [i1 k]
      simp only [last_archive_entry]
      cases hr : last_archive_entry k rest with
      | some x => rfl
      | none =>
        by_cases hx : archive_entry_excluded entry = true
        · simp [walk_archive_callback, hx]
        · by_cases hk : entry.ae_path = k
          · simp [walk_archive_callback, hx, hk, map_set]
          · have hk' : ¬ k = entry.ae_path := fun e => hk e.symm
            simp [walk_archive_callback, hx, hk, hk', map_set]
    · rw [i2]; unfold walk_archive_callback; split_ifs <;> rfl
    · rw [i3]; unfold walk_archive_callback; split_ifs <;> rfl
    · rw [i4]; unfold walk_archive_callback; split_ifs <;> rfl
    · rw [i5]; unfold walk_archive_callback; split_ifs <;> rfl


theorem last_archive_entry_of_nodup (entries : List archive_entry)
    (hnodup : (entries.map (fun e => e.ae_path)).Nodup) (e : archive_entry) (he : e ∈ entries)
    (hx : archive_entry_excluded e = false) :
    last_archive_entry e.ae_path entries = some e := by
  cases hr : last_archive_entry e.ae_path entries with
  | none => exact absurd ⟨rfl, hx⟩ (last_archive_entry_none _ _ hr e he)
  | some x =>
    obtain ⟨hxin, hpath, _⟩ := last_archive_entry_some _ _ _ hr
    rw [List.inj_on_of_nodup_map hnodup hxin he hpath]

theorem watch_logfile_of_archive (fs : file_system) (h : heap) (C : file_collection)
    (filename : String) (loo : logfile_open_options) (required : Bool) (st : stat_t)
    (hclosed : C.fc_closed_files filename = false)
    (hstat : file_collection.watch_logfile_stat fs filename loo = Except.ok st)
    (hreg : st.st_mode = file_type.regular)
    (hnew : C.fc_files.find? (same_file h st) = none)
    (hother : C.fc_other_files filename = none)
    (hformat : fs.fs_detect_file_format filename = file_format_t.FF_ARCHIVE) :
    file_collection.watch_logfile fs h C filename loo required
      = (fs.fs_walk_archive_files filename).foldl (walk_archive_callback filename)
          { file_collection.empty with
              fc_other_files := map_set file_collection.empty.fc_other_files filename "Archive" } := by
  simp [file_collection.watch_logfile, hclosed, hstat, hreg, hnew, hother,
    file_collection.watch_logfile_async, hformat]

/-- C15: archive expansion.  For a path that `watch_logfile` finds to be a new
archive, the returned delta records the archive in the other-file map with the
label "Archive" and nothing else there, has no tracked file, and has a
watched-path entry exactly for the paths of the entries whose extension is none
of `.jar`, `.war`, `.zip`, whatever the size of the others; an entry is
registered with the options of an entry of that path: visible if and only if
its size is not zero, with a visible-size limit of 128*1024 bytes; when the
entries have distinct paths each of them is registered with its own options. -/
theorem watch_logfile_archive_expansion (fs : file_system) (h : heap) (C : file_collection)
    (filename : String) (loo : logfile_open_options) (required : Bool) (st : stat_t)
    (hclosed : C.fc_closed_files filename = false)
    (hstat : file_collection.watch_logfile_stat fs filename loo = Except.ok st)
    (hreg : st.st_mode = file_type.regular)
    (hnew : C.fc_files.find? (same_file h st) = none)
    (hother : C.fc_other_files filename = none)
    (hformat : fs.fs_detect_file_format filename = file_format_t.FF_ARCHIVE) :
    (file_collection.watch_logfile fs h C filename loo required).fc_other_files filename
        = some "Archive"
    ∧ (∀ k : String, k ≠ filename →
        (file_collection.watch_logfile fs h C filename loo required).fc_other_files k = none)
    ∧ (file_collection.watch_logfile fs h C filename loo required).fc_files = []
    ∧ (∀ k : String,
        ((file_collection.watch_logfile fs h C filename loo required).fc_file_names k).isSome
            = true
          ↔ ∃ e ∈ fs.fs_walk_archive_files filename,
              e.ae_path = k ∧ archive_entry_excluded e = false)
    ∧ (∀ (k : String) (opts : logfile_open_options),
        (file_collection.watch_logfile fs h C filename loo required).fc_file_names k = some opts →
        ∃ e ∈ fs.fs_walk_archive_files filename,
          e.ae_path = k ∧ archive_entry_excluded e = false
            ∧ opts = archive_entry_options filename e
            ∧ (opts.loo_is_visible = true ↔ e.ae_file_size ≠ 0)
            ∧ opts.loo_visible_size_limit = 128 * 1024)
    ∧ (((fs.fs_walk_archive_files filename).map (fun e => e.ae_path)).Nodup →
        ∀ e ∈ fs.fs_walk_archive_files filename, archive_entry_excluded e = false →
          (file_collection.watch_logfile fs h C filename loo required).fc_file_names e.ae_path
            = some (archive_entry_options filename e)) := by
  rw [watch_logfile_of_archive fs h C filename loo required st hclosed hstat hreg hnew hother
    hformat]
  obtain ⟨f1, f2, f3, _, _⟩ := foldl_walk_archive_callback filename
    (fs.fs_walk_archive_files filename)
    { file_collection.empty with
        fc_other_files := map_set file_collection.empty.fc_other_files filename "Archive" }
  refine ⟨?_, ?_, ?_, ?_, ?_, ?_⟩
  · rw [f3]; simp [map_set]
  · intro k hk
    rw [f3]; simp [map_set, hk, file_collection.empty]
  · rw [f2]; rfl
  · intro k
    rw [f1 k]
    cases hr : last_archive_entry k (fs.fs_walk_archive_files filename) with
    | some e =>
      obtain ⟨h1, h2, h3⟩ := last_archive_entry_some _ _ _ hr
      simp only [Option.isSome_some, true_iff]
      exact ⟨e, h1, h2, h3⟩
    | none =>
      have hn := last_archive_entry_none _ _ hr
      simp only [file_collection.empty, Option.isSome_none, Bool.false_eq_true, false_iff,
        not_exists, not_and]
      intro e he hp hx
      exact hn e he ⟨hp, hx⟩
  · intro k opts hk
    rw [f1 k] at hk
    cases hr : last_archive_entry k (fs.fs_walk_archive_files filename) with
    | some e =>
      rw [hr] at hk
      simp only [Option.some.injEq] at hk
      obtain ⟨h1, h2, h3⟩ := last_archive_entry_some _ _ _ hr
      refine ⟨e, h1, h2, h3, hk.symm, ?_, ?_⟩
      · rw [← hk]
        simp [archive_entry_options]
      · rw [← hk]
        simp [archive_entry_options]
    | none =>
      rw [hr] at hk
      simp [file_collection.empty] at hk
  · intro hnodup e he hx
    rw [f1 e.ae_path, last_archive_entry_of_nodup _ hnodup e he hx]

/-- The witness of C15: the archive with the entries `a.txt` of 500 bytes and
`b.zip` of 0 bytes registers `a.txt` only, and visible. -/
theorem watch_logfile_archive_expansion_witness :
    (file_collection.watch_logfile archive_file_system sample_heap file_collection.empty
        "/data/logs.tgz" logfile_open_options.default false).fc_other_files "/data/logs.tgz"
      = some "Archive"
    ∧ ((file_collection.watch_logfile archive_file_system sample_heap file_collection.empty
        "/data/logs.tgz" logfile_open_options.default false).fc_file_names "/tmp/x/a.txt").map
          (fun opts => opts.loo_is_visible) = some true
    ∧ (file_collection.watch_logfile archive_file_system sample_heap file_collection.empty
        "/data/logs.tgz" logfile_open_options.default false).fc_file_names "/tmp/x/b.zip"
      = none :=
  ⟨(watch_logfile_archive_expansion archive_file_system sample_heap file_collection.empty
      "/data/logs.tgz" logfile_open_options.default false
      { st_mode := file_type.regular, st_dev := 1, st_ino := 1 } rfl rfl rfl rfl rfl rfl).1,
    by decide, by decide⟩

/-! ### A path whose identity is already tracked -/

theorem find?_same_file_of_first (h : heap) (st : stat_t) (pre post : List logfile_ptr)
    (lf : logfile_ptr) (hsame : same_file h st lf = true)
    (hfirst : ∀ g ∈ pre, same_file h st g = false) :
    (pre ++ lf :: post).find? (same_file h st) = some lf := by
  induction pre with
  | nil => simp [List.find?_cons, hsame]
  | cons a t ih =>
    have ha : same_file h st a = false := hfirst a (List.mem_cons_self a t)
    have ht : ∀ g ∈ t, same_file h st g = false :=
      fun g hg => hfirst g (List.mem_cons_of_mem a hg)
    simp only [List.cons_append, List.find?_cons, ha]
    exact ih ht

/-- C20, as the code has it: an already-tracked identity is renamed, never
reopened, and the file renamed is the first tracked file of that identity.  For
a path that is not closed, whose `stat` succeeds as a regular file, and whose
device and inode are those of a tracked file, with `lf` the first such file of
the tracked-file list (the files `pre` before it have another identity, the
files `post` after it are any), `watch_logfile` returns a delta with no tracked
files, no errors, no other-file entries and no watched-path entries; the delta
holds the single rename `(lf, path)` when `lf` has a valid file name different
from the path, and no rename otherwise. -/
theorem watch_logfile_renames_tracked_identity (fs : file_system) (h : heap)
    (C : file_collection) (filename : String) (loo : logfile_open_options) (required : Bool)
    (st : stat_t) (lf : logfile_ptr) (pre post : List logfile_ptr)
    (hclosed : C.fc_closed_files filename = false)
    (hstat : file_collection.watch_logfile_stat fs filename loo = Except.ok st)
    (hreg : st.st_mode = file_type.regular)
    (hfiles : C.fc_files = pre ++ lf :: post)
    (hsame : file_identity h lf = (st.st_dev, st.st_ino))
    (hfirst : ∀ g ∈ pre, file_identity h g ≠ (st.st_dev, st.st_ino)) :
    (file_collection.watch_logfile fs h C filename loo required).fc_files = []
    ∧ (∀ k : String,
        (file_collection.watch_logfile fs h C filename loo required).fc_name_to_errors k = none)
    ∧ (∀ k : String,
        (file_collection.watch_logfile fs h C filename loo required).fc_other_files k = none)
    ∧ (∀ k : String,
        (file_collection.watch_logfile fs h C filename loo required).fc_file_names k = none)
    ∧ (∀ k : String,
        (file_collection.watch_logfile fs h C filename loo required).fc_closed_files k = false)
    ∧ (file_collection.watch_logfile fs h C filename loo required).fc_renamed_files
        = if (h lf).lf_valid_filename = true ∧ (h lf).lf_filename ≠ filename then
            [(lf, filename)]
          else [] := by
  have hiff : ∀ g : logfile_ptr,
      same_file h st g = true ↔ file_identity h g = (st.st_dev, st.st_ino) := by
    intro g
    simp only [same_file, file_identity, Bool.and_eq_true, beq_iff_eq, Prod.mk.injEq]
    constructor
    · rintro ⟨h1, h2⟩; exact ⟨h1.symm, h2.symm⟩
    · rintro ⟨h1, h2⟩; exact ⟨h1.symm, h2.symm⟩
  have hfind : C.fc_files.find? (same_file h st) = some lf := by
    rw [hfiles]
    refine find?_same_file_of_first h st pre post lf ((hiff lf).2 hsame) ?_
    intro g hg
    cases hs : same_file h st g with
    | false => rfl
    | true => exact absurd ((hiff g).1 hs) (hfirst g hg)
  have hw : file_collection.watch_logfile fs h C filename loo required
      = if (h lf).lf_valid_filename = true ∧ (h lf).lf_filename ≠ filename then
          { file_collection.empty with
              fc_renamed_files := file_collection.empty.fc_renamed_files ++ [(lf, filename)] }
        else file_collection.empty := by
    simp [file_collection.watch_logfile, hclosed, hstat, hreg, hfind]
  rw [hw]
  split_ifs <;> simp [file_collection.empty]

/-- A witness of the amended C20: every path of the archive file system has the
device 1 and the inode 1.  Of the tracked files 0, 1 and 2 the file 0 has
another identity and the files 1 and 2 have that of the path; the first of them,
the file 1, has the valid name `messages.log`, which differs from the path, so
the delta is the rename of the file 1. -/
theorem watch_logfile_renames_tracked_identity_witness :
    (file_collection.watch_logfile archive_file_system two_identity_heap
        (file_collection.of_files [0, 1, 2]) "/var/log/messages.1"
        logfile_open_options.default false).fc_files = []
    ∧ (file_collection.watch_logfile archive_file_system two_identity_heap
        (file_collection.of_files [0, 1, 2]) "/var/log/messages.1"
        logfile_open_options.default false).fc_renamed_files = [(1, "/var/log/messages.1")] :=
  ⟨(watch_logfile_renames_tracked_identity archive_file_system two_identity_heap
      (file_collection.of_files [0, 1, 2]) "/var/log/messages.1" logfile_open_options.default
      false { st_mode := file_type.regular, st_dev := 1, st_ino := 1 } 1 [0] [2] rfl rfl rfl
      rfl rfl (by decide)).1,
    (watch_logfile_renames_tracked_identity archive_file_system two_identity_heap
      (file_collection.of_files [0, 1, 2]) "/var/log/messages.1" logfile_open_options.default
      false { st_mode := file_type.regular, st_dev := 1, st_ino := 1 } 1 [0] [2] rfl rfl rfl
      rfl rfl (by decide)).2.2.2.2.2⟩

/-- C20 fails as stated: the tracked files 0 and 1 have the device and inode of
the path, both have the valid name `messages.log`, which differs from the path;
for `lf` the file 1 the delta does not hold the rename of the file 1 but that of
the file 0, the first file that `find_if` meets. -/
theorem watch_logfile_renames_first_counterexample :
    1 ∈ (file_collection.of_files [0, 1]).fc_files
    ∧ file_identity sample_heap 1 = (1, 1)
    ∧ (sample_heap 1).lf_valid_filename = true
    ∧ (sample_heap 1).lf_filename ≠ "/var/log/messages.1"
    ∧ (file_collection.watch_logfile archive_file_system sample_heap
        (file_collection.of_files [0, 1]) "/var/log/messages.1"
        logfile_open_options.default false).fc_renamed_files = [(0, "/var/log/messages.1")]
    ∧ (file_collection.watch_logfile archive_file_system sample_heap
        (file_collection.of_files [0, 1]) "/var/log/messages.1"
        logfile_open_options.default false).fc_renamed_files ≠ [(1, "/var/log/messages.1")] :=
  ⟨by decide, by decide, by decide, by decide, by decide, by decide⟩


/-! ## `expand_filename` on a pattern that matches no file -/

/-- C16, as the code has it: a pattern that matches no file is never reported.
For a path that is not a URL, for which `glob` gives the pattern back and which
does not exist (`access` with `F_OK` and `realpath` both fail), `expand_filename`
clears `required` and returns an empty delta whatever `required` was: no tracked
files, no error for the pattern, nothing renamed; merging the delta leaves the
watched paths, the tracked files and the generation as they were. -/
theorem expand_filename_no_match (fs : file_system) (h : heap) (C : file_collection)
    (path : String) (loo : logfile_open_options) (required : Bool)
    (hurl : fs.fs_is_url path = false)
    (hglob : fs.fs_glob path = some [path])
    (_haccess : fs.fs_access_F_OK path = false)
    (hrealpath : fs.fs_realpath path = none) :
    (file_collection.expand_filename fs h C path loo required).1 = h
    ∧ (file_collection.expand_filename fs h C path loo required).2.fc_files = []
    ∧ (∀ k : String,
        (file_collection.expand_filename fs h C path loo required).2.fc_name_to_errors k = none)
    ∧ (∀ k : String,
        (file_collection.expand_filename fs h C path loo required).2.fc_file_names k = none)
    ∧ (file_collection.merge h C
        (file_collection.expand_filename fs h C path loo required).2).2.fc_file_names
          = C.fc_file_names
    ∧ (file_collection.merge h C
        (file_collection.expand_filename fs h C path loo required).2).2.fc_files = C.fc_files
    ∧ (file_collection.merge h C
        (file_collection.expand_filename fs h C path loo required).2).2.fc_files_generation
          = C.fc_files_generation := by
  have he : file_collection.expand_filename fs h C path loo required
      = (h, file_collection.empty) := by
    simp [file_collection.expand_filename, hurl, hglob, hrealpath]
  rw [he]
  refine ⟨rfl, rfl, fun _ => rfl, fun _ => rfl, ?_, ?_, ?_⟩
  · funext k
    simp only [file_collection.merge, map_insert_range, file_collection.empty]
    cases C.fc_file_names k <;> rfl
  · rw [merge_fc_files]; simp [file_collection.empty]
  · rw [merge_fc_files_generation]; simp [file_collection.empty]

/-- A witness of the amended C16: the pattern `/var/log/*.log` in a file system
in which nothing exists, not required. -/
theorem expand_filename_no_match_witness :
    (file_collection.expand_filename empty_file_system sample_heap file_collection.empty
        "/var/log/*.log" logfile_open_options.default false).2.fc_files = []
    ∧ (file_collection.expand_filename empty_file_system sample_heap file_collection.empty
        "/var/log/*.log" logfile_open_options.default false).2.fc_name_to_errors
          "/var/log/*.log" = none :=
  ⟨(expand_filename_no_match empty_file_system sample_heap file_collection.empty
      "/var/log/*.log" logfile_open_options.default false rfl rfl rfl rfl).2.1,
    (expand_filename_no_match empty_file_system sample_heap file_collection.empty
      "/var/log/*.log" logfile_open_options.default false rfl rfl rfl rfl).2.2.1
      "/var/log/*.log"⟩

/-- C16 fails as stated: with `required` true the pattern `/var/log/*.log`, which
matches no file, is not in the error map of the delta. -/
theorem expand_filename_required_counterexample :
    empty_file_system.fs_is_url "/var/log/*.log" = false
    ∧ empty_file_system.fs_glob "/var/log/*.log" = some ["/var/log/*.log"]
    ∧ empty_file_system.fs_access_F_OK "/var/log/*.log" = false
    ∧ (file_collection.expand_filename empty_file_system sample_heap file_collection.empty
        "/var/log/*.log" logfile_open_options.default true).2.fc_name_to_errors
          "/var/log/*.log" = none :=
  ⟨rfl, rfl, rfl, rfl⟩

/-! ## The histogram index delegate -/

/-- C17: the histogram bucketing of an indexed line.  `index_line` adds nothing
to the histogram source when the line is a continuation line or its timestamp is
0; otherwise it adds exactly one value at the timestamp of the line, of type
`HT_ERROR` for the levels fatal, critical and error, `HT_WARNING` for the level
warning and `HT_NORMAL` for every other level, and after it exactly one
`HT_MARK` value at the same timestamp if and only if the line is marked: by
`is_marked()` or `is_expr_marked()` in `view_helpers.cc`, by `is_marked()` alone
in `lnav.cc`.  The two files give the same histogram source except on a line
that is indexed, not marked by hand and marked by the mark expression, where
`view_helpers.cc` adds the `HT_MARK` value and `lnav.cc` does not. -/
theorem index_line_buckets (hs : hist_source2) (ll : logline) :
    ((ll.ll_continued = true ∨ ll.ll_time = 0) →
        lnav.hist_index_delegate_index_line hs ll = hs
          ∧ view_helpers.hist_index_delegate_index_line hs ll = hs)
    ∧ (ll.ll_continued = false → ll.ll_time ≠ 0 →
        lnav.hist_index_delegate_index_line hs ll
            = hs ++ (ll.ll_time, level_bucket ll.ll_level)
                :: (if ll.ll_marked = true then [(ll.ll_time, hist_type_t.HT_MARK)] else [])
          ∧ view_helpers.hist_index_delegate_index_line hs ll
            = hs ++ (ll.ll_time, level_bucket ll.ll_level)
                :: (if ll.ll_marked = true ∨ ll.ll_expr_marked = true then
                      [(ll.ll_time, hist_type_t.HT_MARK)]
                    else []))
    ∧ level_bucket log_level_t.LEVEL_FATAL = hist_type_t.HT_ERROR
    ∧ level_bucket log_level_t.LEVEL_CRITICAL = hist_type_t.HT_ERROR
    ∧ level_bucket log_level_t.LEVEL_ERROR = hist_type_t.HT_ERROR
    ∧ level_bucket log_level_t.LEVEL_WARNING = hist_type_t.HT_WARNING
    ∧ (∀ level : log_level_t, level ≠ log_level_t.LEVEL_FATAL →
        level ≠ log_level_t.LEVEL_CRITICAL → level ≠ log_level_t.LEVEL_ERROR →
        level ≠ log_level_t.LEVEL_WARNING → level_bucket level = hist_type_t.HT_NORMAL)
    ∧ (lnav.hist_index_delegate_index_line hs ll
          ≠ view_helpers.hist_index_delegate_index_line hs ll
        ↔ ll.ll_continued = false ∧ ll.ll_time ≠ 0 ∧ ll.ll_marked = false
            ∧ ll.ll_expr_marked = true) := by
  have hlevel : (match ll.ll_level with
      | log_level_t.LEVEL_FATAL => hist_type_t.HT_ERROR
      | log_level_t.LEVEL_CRITICAL => hist_type_t.HT_ERROR
      | log_level_t.LEVEL_ERROR => hist_type_t.HT_ERROR
      | log_level_t.LEVEL_WARNING => hist_type_t.HT_WARNING
      | _ => hist_type_t.HT_NORMAL) = level_bucket ll.ll_level := by
    cases ll.ll_level <;> rfl
  have hboth : ll.ll_continued = false → ll.ll_time ≠ 0 →
      lnav.hist_index_delegate_index_line hs ll
          = hs ++ (ll.ll_time, level_bucket ll.ll_level)
              :: (if ll.ll_marked = true then [(ll.ll_time, hist_type_t.HT_MARK)] else [])
        ∧ view_helpers.hist_index_delegate_index_line hs ll
          = hs ++ (ll.ll_time, level_bucket ll.ll_level)
              :: (if ll.ll_marked = true ∨ ll.ll_expr_marked = true then
                    [(ll.ll_time, hist_type_t.HT_MARK)]
                  else []) := by
    intro hc ht
    constructor
    · simp only [lnav.hist_index_delegate_index_line, hc, ht, Bool.false_eq_true, or_self,
        if_false, hlevel, hist_source2.add_value]
      split_ifs <;> simp
    · simp only [view_helpers.hist_index_delegate_index_line, hc, ht, Bool.false_eq_true,
        or_self, if_false, hlevel, hist_source2.add_value]
      split_ifs <;> simp
  have hskip : (ll.ll_continued = true ∨ ll.ll_time = 0) →
      lnav.hist_index_delegate_index_line hs ll = hs
        ∧ view_helpers.hist_index_delegate_index_line hs ll = hs := by
    intro hskip
    simp [lnav.hist_index_delegate_index_line, view_helpers.hist_index_delegate_index_line,
      hskip]
  refine ⟨hskip, hboth, rfl, rfl, rfl, rfl, ?_, ?_⟩
  · intro level h1 h2 h3 h4
    simp [level_bucket, h1, h2, h3, h4]
  · by_cases hidx : ll.ll_continued = true ∨ ll.ll_time = 0
    · rw [(hskip hidx).1, (hskip hidx).2]
      constructor
      · intro hne
        exact absurd rfl hne
      · rintro ⟨hc, ht, _, _⟩
        rcases hidx with h | h
        · rw [hc] at h
          exact absurd h (by decide)
        · exact absurd h ht
    · have hc : ll.ll_continued = false := by
        cases hcc : ll.ll_continued with
        | false => rfl
        | true => exact absurd (Or.inl hcc) hidx
      have ht : ll.ll_time ≠ 0 := fun h => hidx (Or.inr h)
      rw [(hboth hc ht).1, (hboth hc ht).2]
      cases hm : ll.ll_marked <;> cases he : ll.ll_expr_marked <;> simp [hc, ht]

/-- The failing input of C17: an error line at the time 1700000000 that is not
marked by hand and is marked by the mark expression.  `view_helpers.cc` adds the
error value and the mark value, `lnav.cc` adds the error value only. -/
theorem index_line_buckets_witness :
    view_helpers.hist_index_delegate_index_line []
        ⟨false, 1700000000, log_level_t.LEVEL_ERROR, false, true⟩
      = [(1700000000, hist_type_t.HT_ERROR), (1700000000, hist_type_t.HT_MARK)]
    ∧ lnav.hist_index_delegate_index_line []
        ⟨false, 1700000000, log_level_t.LEVEL_ERROR, false, true⟩
      = [(1700000000, hist_type_t.HT_ERROR)]
    ∧ lnav.hist_index_delegate_index_line []
        ⟨false, 1700000000, log_level_t.LEVEL_ERROR, false, true⟩
      ≠ view_helpers.hist_index_delegate_index_line []
        ⟨false, 1700000000, log_level_t.LEVEL_ERROR, false, true⟩ :=
  ⟨((index_line_buckets [] ⟨false, 1700000000, log_level_t.LEVEL_ERROR, false, true⟩).2.1
      rfl (by decide)).2,
    ((index_line_buckets [] ⟨false, 1700000000, log_level_t.LEVEL_ERROR, false, true⟩).2.1
      rfl (by decide)).1,
    (index_line_buckets [] ⟨false, 1700000000, log_level_t.LEVEL_ERROR, false,
      true⟩).2.2.2.2.2.2.2.2 ⟨rfl, by decide, rfl, rfl⟩⟩

/-! ## The scroll position of the log view after a pass -/

/-- C18, as the code has it: `rebuild_indexes` keeps a log view that was at the
bottom at the bottom, whatever `rebuild_index` returned.  When the top of the log
view was above its top-for-last-row before the pass, or lnav is headless, or the
result is `full_rebuild` and the top is beyond the new line count as a
`vis_line_t`, the top after the pass is the top before it.  In every other case
- the top was at or beyond its top-for-last-row, also with an incremental
result - the top moves to the new top-for-last-row when that is greater than the
top.  The new line count is a `size_t` that the comparison narrows to the `int`
of a `vis_line_t`: it is the count itself below `2^31`. -/
theorem rebuild_indexes_scroll_position (headless : Bool) (result : rebuild_result)
    (new_count : Nat) (old_bottom new_bottom : Int) (log_view : textview_curses) :
    (log_view.tc_top < old_bottom →
        rebuild_indexes_log_view headless result new_count old_bottom new_bottom log_view
          = log_view)
    ∧ (headless = true →
        rebuild_indexes_log_view headless result new_count old_bottom new_bottom log_view
          = log_view)
    ∧ (result = rebuild_result.rr_full_rebuild → log_view.tc_top > to_vis_line_t new_count →
        rebuild_indexes_log_view headless result new_count old_bottom new_bottom log_view
          = log_view)
    ∧ (new_bottom ≤ log_view.tc_top →
        rebuild_indexes_log_view headless result new_count old_bottom new_bottom log_view
          = log_view)
    ∧ (old_bottom ≤ log_view.tc_top → headless = false →
        ¬ (result = rebuild_result.rr_full_rebuild
            ∧ log_view.tc_top > to_vis_line_t new_count) →
        log_view.tc_top < new_bottom →
        rebuild_indexes_log_view headless result new_count old_bottom new_bottom log_view
          = log_view.set_top new_bottom)
    ∧ (new_count < 2 ^ 31 → to_vis_line_t new_count = (new_count : Int)) := by
  refine ⟨?_, ?_, ?_, ?_, ?_, ?_⟩
  · intro habove
    have hd : decide (log_view.tc_top ≥ old_bottom) = false := by
      simpa using habove
    simp only [rebuild_indexes_log_view, rebuild_indexes_scroll_down, hd]
    cases result <;> simp
  · intro hh
    subst hh
    simp only [rebuild_indexes_log_view, rebuild_indexes_scroll_down]
    cases result <;> simp
  · intro hr hc
    subst hr
    simp [rebuild_indexes_log_view, rebuild_indexes_scroll_down, hc]
  · intro hle
    have hn : ¬ new_bottom > log_view.tc_top := by omega
    simp [rebuild_indexes_log_view, hn]
  · intro hb hh hnot hlt
    subst hh
    have hd : decide (log_view.tc_top ≥ old_bottom) = true := by simpa using hb
    cases result with
    | rr_no_change =>
      simp [rebuild_indexes_log_view, rebuild_indexes_scroll_down, hd, hlt]
    | rr_incremental =>
      simp [rebuild_indexes_log_view, rebuild_indexes_scroll_down, hd, hlt]
    | rr_full_rebuild =>
      have hc : ¬ log_view.tc_top > to_vis_line_t new_count := fun hc => hnot ⟨rfl, hc⟩
      have hc' : to_vis_line_t new_count < log_view.tc_top ↔ False :=
        ⟨fun x => hc x, False.elim⟩
      simp [rebuild_indexes_log_view, rebuild_indexes_scroll_down, hd, hlt, hc']
  · intro hsmall
    have hmod : new_count % 2 ^ 32 = new_count := Nat.mod_eq_of_lt (by omega)
    simp only [to_vis_line_t, hmod, hsmall, if_true]

/-- A witness of the amended C18: a full rebuild with the top 10 above the old
top-for-last-row 20 leaves the top at 10; a full rebuild with the top 10 at the
old top-for-last-row 10 and the line count `2^32 + 5`, which is 5 as a
`vis_line_t`, leaves the top at 10 too. -/
theorem rebuild_indexes_scroll_position_witness :
    rebuild_indexes_log_view false rebuild_result.rr_full_rebuild 100 20 90
        ⟨[], 24, 10, 0, false, none⟩
      = ⟨[], 24, 10, 0, false, none⟩
    ∧ to_vis_line_t 4294967301 = 5
    ∧ rebuild_indexes_log_view false rebuild_result.rr_full_rebuild 4294967301 10 90
        ⟨[], 24, 10, 0, false, none⟩
      = ⟨[], 24, 10, 0, false, none⟩ :=
  ⟨(rebuild_indexes_scroll_position false rebuild_result.rr_full_rebuild 100 20 90
      ⟨[], 24, 10, 0, false, none⟩).1 (by decide),
    by decide,
    (rebuild_indexes_scroll_position false rebuild_result.rr_full_rebuild 4294967301 10 90
      ⟨[], 24, 10, 0, false, none⟩).2.2.1 rfl (by decide)⟩

/-- C18 fails as stated: with an incremental result and the top 10 at the old
top-for-last-row 10, the pass moves the top to the new top-for-last-row 15. -/
theorem rebuild_indexes_scroll_incremental_counterexample :
    (rebuild_indexes_log_view false rebuild_result.rr_incremental 40 10 15
        ⟨[], 24, 10, 0, false, none⟩).tc_top = 15
    ∧ (rebuild_indexes_log_view false rebuild_result.rr_incremental 40 10 15
        ⟨[], 24, 10, 0, false, none⟩).tc_top ≠ 10 := by
  refine ⟨by decide, by decide⟩

/-! ## `ensure_view` -/

/-- C19: `ensure_view` puts the expected view on top.  On every view stack and
for every view `v`, except the pretty view on the empty stack, `ensure_view(v)`
returns, the top of the view stack is then `v`, the call returns true if and
only if `v` was the top of the stack before the call, and then the state is
unchanged; otherwise `v` is pushed on the stack.  On the empty stack
`ensure_view` of the pretty view does not return: `toggle_view` calls
`open_pretty_view`, which dereferences the empty `top()` before anything is
pushed. -/
theorem ensure_view_puts_view_on_top (s : view_stack_state) (v : lnav_view_t) :
    ((s.ld_view_stack ≠ [] ∨ v ≠ lnav_view_t.LNV_PRETTY) →
        ∃ r : Bool × view_stack_state,
          view_helpers.ensure_view s v = Except.ok r
            ∧ r.2.ld_view_stack.getLast? = some v
            ∧ (r.1 = true ↔ s.ld_view_stack.getLast? = some v)
            ∧ (s.ld_view_stack.getLast? = some v → r.2 = s)
            ∧ (s.ld_view_stack.getLast? ≠ some v →
                r.2.ld_view_stack = s.ld_view_stack ++ [v]))
    ∧ (s.ld_view_stack = [] →
        view_helpers.ensure_view s lnav_view_t.LNV_PRETTY
          = Except.error failure.empty_optional_dereference) := by
  constructor
  · intro hok
    by_cases htop : s.ld_view_stack.getLast? = some v
    · exact ⟨(true, s), by simp [view_helpers.ensure_view, htop], htop, by simp [htop],
        fun _ => rfl, fun hn => absurd htop hn⟩
    · refine ⟨(false, ⟨s.ld_view_stack ++ [v], none⟩), ?_, by simp, by simp [htop],
        fun hy => absurd hy htop, fun _ => rfl⟩
      by_cases hv : v = lnav_view_t.LNV_PRETTY
      · subst hv
        have hne : s.ld_view_stack ≠ [] := by
          rcases hok with h | h
          · exact h
          · exact absurd rfl h
        obtain ⟨top, htopv⟩ : ∃ top, s.ld_view_stack.getLast? = some top := by
          cases hl : s.ld_view_stack.getLast? with
          | none => exact absurd (List.getLast?_eq_none_iff.1 hl) hne
          | some top => exact ⟨top, rfl⟩
        have hd : ¬ top = lnav_view_t.LNV_PRETTY := by
          intro h
          exact htop (by rw [htopv, h])
        simp [view_helpers.ensure_view, view_helpers.toggle_view, view_helpers.open_pretty_view,
          optional_deref, htopv, hd]
      · simp [view_helpers.ensure_view, view_helpers.toggle_view, htop, hv]
  · intro hs
    simp [view_helpers.ensure_view, view_helpers.toggle_view, view_helpers.open_pretty_view,
      optional_deref, hs]

/-- The failing input of C19: on the empty view stack `ensure_view` of the pretty
view ends in the dereference of the empty `top()`; `ensure_view` of the log view
on the same stack pushes it and returns false. -/
theorem ensure_view_puts_view_on_top_witness :
    view_helpers.ensure_view ⟨[], none⟩ lnav_view_t.LNV_PRETTY
        = Except.error failure.empty_optional_dereference
    ∧ view_helpers.ensure_view ⟨[], none⟩ lnav_view_t.LNV_LOG
        = Except.ok (false, ⟨[lnav_view_t.LNV_LOG], none⟩) :=
  ⟨(ensure_view_puts_view_on_top ⟨[], none⟩ lnav_view_t.LNV_PRETTY).2 rfl, rfl⟩


/-! ## A delta that holds a file closed in the meantime -/

/-- C21, as the code has it: a stale scan result is applied like any other,
`merge` does not look at the closed-file set.  The tracked-file list after
`C.merge(D)` is that of `C` followed by that of `D`: a tracked file of the delta
whose path is in the closed-file set of `C` (closed while the scan was in
flight) is in the list after the merge, and the generation is bumped by one.
The closed-file set is read by `watch_logfile` only: a scan that starts when the
path is already closed returns the empty delta, and merging that delta leaves
the tracked-file list and the generation counter as they were. -/
theorem merge_ignores_closed_files (h : heap) (C D : file_collection) :
    (file_collection.merge h C D).2.fc_files = C.fc_files ++ D.fc_files
    ∧ (∀ lf ∈ D.fc_files, C.fc_closed_files (h lf).lf_filename = true →
        lf ∈ (file_collection.merge h C D).2.fc_files
          ∧ (file_collection.merge h C D).2.fc_files_generation = C.fc_files_generation + 1)
    ∧ (∀ (fs : file_system) (filename : String) (loo : logfile_open_options) (required : Bool),
        C.fc_closed_files filename = true →
        (file_collection.watch_logfile fs h C filename loo required).fc_files = []
          ∧ (file_collection.merge h C
              (file_collection.watch_logfile fs h C filename loo required)).2.fc_files
            = C.fc_files
          ∧ (file_collection.merge h C
              (file_collection.watch_logfile fs h C filename loo required)).2.fc_files_generation
            = C.fc_files_generation) := by
  refine ⟨merge_fc_files h C D, ?_, ?_⟩
  · intro lf hlf _
    rw [merge_fc_files, merge_fc_files_generation]
    refine ⟨List.mem_append_right _ hlf, ?_⟩
    cases hD : D.fc_files with
    | nil => rw [hD] at hlf; simp at hlf
    | cons a l => simp
  · intro fs filename loo required hclosed
    have hw : file_collection.watch_logfile fs h C filename loo required
        = file_collection.empty := by
      simp [file_collection.watch_logfile, hclosed]
    rw [hw, merge_fc_files, merge_fc_files_generation]
    simp [file_collection.empty]

/-- A witness of the amended C21: the path `messages.log` is closed in the
collection and the delta holds the tracked file 1 of that path; after the merge
the file 1 is tracked and the generation is 1.  A scan of the closed path gives
a delta without tracked files. -/
theorem merge_ignores_closed_files_witness :
    (1 ∈ (file_collection.merge sample_heap closed_messages_collection
          (file_collection.of_files [1])).2.fc_files
      ∧ (file_collection.merge sample_heap closed_messages_collection
          (file_collection.of_files [1])).2.fc_files_generation
        = closed_messages_collection.fc_files_generation + 1)
    ∧ (file_collection.watch_logfile archive_file_system sample_heap closed_messages_collection
        "messages.log" logfile_open_options.default false).fc_files = [] :=
  ⟨(merge_ignores_closed_files sample_heap closed_messages_collection
      (file_collection.of_files [1])).2.1 1 (by decide) (by decide),
    ((merge_ignores_closed_files sample_heap closed_messages_collection
      file_collection.empty).2.2 archive_file_system "messages.log"
      logfile_open_options.default false rfl).1⟩

/-- C21 fails as stated: the path `messages.log` is in the closed-file set of
the collection, the delta holds the tracked file 1 of that path and nothing
else, and the merge adds the file and takes the generation from 0 to 1. -/
theorem merge_stale_result_counterexample :
    closed_messages_collection.fc_closed_files (sample_heap 1).lf_filename = true
    ∧ closed_messages_collection.fc_files = []
    ∧ closed_messages_collection.fc_files_generation = 0
    ∧ (file_collection.merge sample_heap closed_messages_collection
        (file_collection.of_files [1])).2.fc_files = [1]
    ∧ (file_collection.merge sample_heap closed_messages_collection
        (file_collection.of_files [1])).2.fc_files_generation = 1 :=
  ⟨by decide, rfl, rfl, rfl, rfl⟩

/-! ## `toggle_view` -/

/-- C29: `toggle_view` is a push and pop round trip and never empties the stack.
On a non-empty view stack whose top is not `v`, `toggle_view(v)` returns true and
pushes `v`, and a `toggle_view(v)` right after it returns false and gives back
the stack as it was before the first call; on a non-empty view stack the call
returns and the stack is not empty after `toggle_view(v)`, and toggling the only
view of the stack returns false and changes nothing. -/
theorem toggle_view_round_trip (s : view_stack_state) (v : lnav_view_t) :
    (s.ld_view_stack ≠ [] → s.ld_view_stack.getLast? ≠ some v →
        view_helpers.toggle_view s v
            = Except.ok (true, { ld_view_stack := s.ld_view_stack ++ [v], ld_last_view := none })
          ∧ view_helpers.toggle_view
              { ld_view_stack := s.ld_view_stack ++ [v], ld_last_view := none } v
            = Except.ok (false, { ld_view_stack := s.ld_view_stack, ld_last_view := some v }))
    ∧ (s.ld_view_stack ≠ [] →
        ∃ r : Bool × view_stack_state,
          view_helpers.toggle_view s v = Except.ok r ∧ r.2.ld_view_stack ≠ [])
    ∧ (s.ld_view_stack = [v] → view_helpers.toggle_view s v = Except.ok (false, s)) := by
  have hopen : s.ld_view_stack ≠ [] → view_helpers.open_pretty_view s = Except.ok () := by
    intro hne
    cases hl : s.ld_view_stack.getLast? with
    | none => exact absurd (List.getLast?_eq_none_iff.1 hl) hne
    | some top => simp [view_helpers.open_pretty_view, optional_deref, hl]
  have hpush : s.ld_view_stack ≠ [] → s.ld_view_stack.getLast? ≠ some v →
      view_helpers.toggle_view s v
        = Except.ok (true, { ld_view_stack := s.ld_view_stack ++ [v], ld_last_view := none }) := by
    intro hne htop
    simp only [view_helpers.toggle_view, htop, if_false, hopen hne]
    split_ifs <;> rfl
  refine ⟨?_, ?_, ?_⟩
  · intro hne htop
    refine ⟨hpush hne htop, ?_⟩
    have hlen : (s.ld_view_stack ++ [v]).length ≠ 1 := by
      have := List.length_pos.2 hne
      simp only [List.length_append, List.length_singleton]
      omega
    simp [view_helpers.toggle_view, hlen, hne]
  · intro hne
    by_cases htop : s.ld_view_stack.getLast? = some v
    · by_cases hlen : s.ld_view_stack.length = 1
      · exact ⟨(false, s), by simp [view_helpers.toggle_view, htop, hlen], hne⟩
      · refine ⟨(false, ⟨s.ld_view_stack.dropLast, some v⟩),
          by simp [view_helpers.toggle_view, htop, hlen], ?_⟩
        intro hdrop
        have hl := congrArg List.length hdrop
        have hpos := List.length_pos.2 hne
        simp only [List.length_dropLast, List.length_nil] at hl
        omega
    · exact ⟨_, hpush hne htop, by simp⟩
  · intro hs
    simp [view_helpers.toggle_view, hs]

/-- A witness of C29: the text view is pushed on the stack that holds the log
view, and popped again. -/
theorem toggle_view_round_trip_witness :
    view_helpers.toggle_view ⟨[lnav_view_t.LNV_LOG], none⟩ lnav_view_t.LNV_TEXT
        = Except.ok (true, ⟨[lnav_view_t.LNV_LOG] ++ [lnav_view_t.LNV_TEXT], none⟩)
    ∧ view_helpers.toggle_view ⟨[lnav_view_t.LNV_LOG] ++ [lnav_view_t.LNV_TEXT], none⟩
          lnav_view_t.LNV_TEXT
        = Except.ok (false, ⟨[lnav_view_t.LNV_LOG], some lnav_view_t.LNV_TEXT⟩) :=
  (toggle_view_round_trip ⟨[lnav_view_t.LNV_LOG], none⟩ lnav_view_t.LNV_TEXT).1
    (by decide) (by decide)


/-! ## `match_escape_seq` -/

theorem findIdx_congr_of_mem (p q : String → Bool) :
    ∀ keys : List String, (∀ key ∈ keys, p key = q key) → keys.findIdx p = keys.findIdx q
  | [], _ => rfl
  | key :: keys, hpq => by
    have hk := hpq key (List.mem_cons_self _ _)
    have ih := findIdx_congr_of_mem p q keys (fun x hx => hpq x (List.mem_cons_of_mem _ hx))
    simp only [List.findIdx_cons, hk, ih]

theorem findIdx_of_find?_none (q : String → Bool) :
    ∀ keys : List String, keys.find? q = none → keys.findIdx q = keys.length
  | [], _ => rfl
  | key :: keys, hnone => by
    by_cases hq : q key = true
    · simp [List.find?_cons, hq] at hnone
    · have hq' : q key = false := by simpa using hq
      simp only [List.find?_cons, hq'] at hnone
      simp only [List.findIdx_cons, hq', cond_false, List.length_cons,
        findIdx_of_find?_none q keys hnone]

theorem findIdx_of_find?_some (q : String → Bool) :
    ∀ (keys : List String) (found : String), keys.find? q = some found →
      keys.findIdx q < keys.length ∧ keys.getD (keys.findIdx q) "" = found
  | [], _, hsome => by simp at hsome
  | key :: keys, found, hsome => by
    by_cases hq : q key = true
    · simp only [List.find?_cons, hq, Option.some.injEq] at hsome
      subst hsome
      simp [List.findIdx_cons, hq]
    · have hq' : q key = false := by simpa using hq
      simp only [List.find?_cons, hq'] at hsome
      obtain ⟨h1, h2⟩ := findIdx_of_find?_some q keys found hsome
      simp only [List.findIdx_cons, hq', cond_false, List.length_cons]
      refine ⟨by omega, ?_⟩
      simpa using h2

theorem max_element_of_empty_range (keys : List String) (i : Nat) :
    max_element keys i i = i := by
  simp [max_element]

/-- A sequence that is not bound: the range that `max_element` is given is
empty, and the result is that of comparing the size of the sequence with the
size of the first key after it in the order of the keys. -/
theorem match_escape_seq_of_not_bound (km : List (String × String)) (keyseq : String)
    (hnot : keyseq ∉ km.map Prod.fst) :
    match_escape_seq ln_mode_t.LNM_PAGING km keyseq
      = match (km.map Prod.fst).find? (fun key => decide (keyseq.data < key.data)) with
        | none => escape_match_t.NONE
        | some key =>
          if keyseq.length < key.length then escape_match_t.PARTIAL else escape_match_t.NONE := by
  have hsame : (km.map Prod.fst).findIdx (fun key => decide (keyseq.data ≤ key.data))
      = (km.map Prod.fst).findIdx (fun key => decide (keyseq.data < key.data)) := by
    apply findIdx_congr_of_mem
    intro key hkey
    have hne : keyseq.data ≠ key.data := fun e => hnot (by rw [String.ext e]; exact hkey)
    have hiff : keyseq.data ≤ key.data ↔ keyseq.data < key.data :=
      ⟨fun hle => lt_of_le_of_ne hle hne, le_of_lt⟩
    simp [hiff]
  simp only [match_escape_seq, ne_eq, not_true_eq_false, if_false, hnot, hsame,
    max_element_of_empty_range]
  cases hf : (km.map Prod.fst).find? (fun key => decide (keyseq.data < key.data)) with
  | none =>
    simp [findIdx_of_find?_none _ _ hf]
  | some key =>
    obtain ⟨h1, h2⟩ := findIdx_of_find?_some _ _ _ hf
    have hlen : ¬ (km.map Prod.fst).findIdx (fun key => decide (keyseq.data < key.data))
        = (km.map Prod.fst).length := by omega
    simp only [hlen, if_false, h2]

/-- C30: escape-sequence matching against the keymap.  `match_escape_seq` returns
`NONE` whenever the mode is not paging; in paging mode it returns `FULL` if and
only if the sequence is bound in the keymap; for a sequence that is not bound it
returns `PARTIAL` if and only if there is a key after the sequence in the order
of the keys and the first such key is longer than the sequence, whether the
sequence is a beginning of that key or not. -/
theorem match_escape_seq_results (ld_mode : ln_mode_t) (km : List (String × String))
    (keyseq : String) :
    (ld_mode ≠ ln_mode_t.LNM_PAGING →
        match_escape_seq ld_mode km keyseq = escape_match_t.NONE)
    ∧ (match_escape_seq ln_mode_t.LNM_PAGING km keyseq = escape_match_t.FULL
        ↔ keyseq ∈ km.map Prod.fst)
    ∧ (keyseq ∉ km.map Prod.fst →
        (match_escape_seq ln_mode_t.LNM_PAGING km keyseq = escape_match_t.PARTIAL
          ↔ ∃ key : String,
              (km.map Prod.fst).find? (fun key => decide (keyseq.data < key.data)) = some key
                ∧ keyseq.length < key.length)) := by
  refine ⟨?_, ?_, ?_⟩
  · intro hmode
    simp [match_escape_seq, hmode]
  · by_cases hin : keyseq ∈ km.map Prod.fst
    · simp only [hin, iff_true]
      simp only [match_escape_seq, ne_eq, not_true_eq_false, if_false, hin, if_true]
    · simp only [hin, iff_false]
      rw [match_escape_seq_of_not_bound km keyseq hin]
      cases (km.map Prod.fst).find? (fun key => decide (keyseq.data < key.data)) with
      | none => simp
      | some key =>
        by_cases hlen : keyseq.length < key.length
        · simp [hlen]
        · simp [hlen]
  · intro hin
    rw [match_escape_seq_of_not_bound km keyseq hin]
    cases (km.map Prod.fst).find? (fun key => decide (keyseq.data < key.data)) with
    | none => simp
    | some key =>
      by_cases hlen : keyseq.length < key.length
      · simp [hlen]
      · simp [hlen]

/-- The failing input of C30: in paging mode, with the one bound sequence `zz9`,
the sequence `a` is not a beginning of `zz9` and the result is `PARTIAL`. -/
theorem match_escape_seq_results_witness :
    match_escape_seq ln_mode_t.LNM_PAGING [("zz9", "cmd")] "a" = escape_match_t.PARTIAL
    ∧ ¬ ("a".data <+: "zz9".data) :=
  ⟨((match_escape_seq_results ln_mode_t.LNM_PAGING [("zz9", "cmd")] "a").2.2 (by decide)).2
      ⟨"zz9", by decide, by decide⟩,
    by decide⟩


/-! ## Every target is a bookmark beyond the top -/

theorem next_steps_by (bv : bookmark_vector) :
    steps_by bookmark_vector.next bv (fun a b => a < b) := by
  intro x
  rcases bookmark_vector.next_cases bv x with ⟨h, _⟩ | ⟨m, hm, he, hlt, _⟩
  · exact Or.inl h
  · exact Or.inr ⟨m, hm, he, hlt⟩

theorem prev_steps_by (bv : bookmark_vector) :
    steps_by bookmark_vector.prev bv (fun a b => b < a) := by
  intro x
  rcases bookmark_vector.prev_cases bv x with ⟨h, _⟩ | ⟨m, hm, he, hlt, _⟩
  · exact Or.inl h
  · exact Or.inr ⟨m, hm, he, hlt⟩

theorem is_target_step {f : bookmark_vector → Int → Int} {bv : bookmark_vector}
    {R : Int → Int → Prop} (hstep : steps_by f bv R)
    (htrans : ∀ a b c : Int, R a b → R b c → R a c) (top a : Int)
    (ha : a = top ∨ is_target bv R top a) (hne : f bv a ≠ -1) :
    is_target bv R top (f bv a) := by
  rcases hstep a with h | ⟨m, hm, he, hR⟩
  · exact absurd h hne
  · refine ⟨m, hm, he, ?_⟩
    rcases ha with rfl | ⟨m', _, hm', hR'⟩
    · exact hR
    · exact htrans _ _ _ hR' (hm' ▸ hR)

theorem view_helpers.next_cluster_inner_target {f : bookmark_vector → Int → Int}
    {bv : bookmark_vector} {R : Int → Int → Prop} (hstep : steps_by f bv R)
    (htrans : ∀ a b c : Int, R a b → R b c → R a c) (top h : Int) (hc : Int) :
    ∀ (fuel : Nat) (a b r : Int), is_target bv R top a → is_target bv R top b →
      view_helpers.next_cluster_inner f bv top h hc fuel a b = some r →
      is_target bv R top r := by
  intro fuel
  induction fuel with
  | zero => intro a b r _ _ hr; simp [view_helpers.next_cluster_inner] at hr
  | succ n ih =>
    intro a b r ha hb hr
    simp only [view_helpers.next_cluster_inner] at hr
    split_ifs at hr with h1 h2
    · simp only [Option.some.injEq] at hr; exact hr ▸ hb
    · simp only [Option.some.injEq] at hr; exact hr ▸ hb
    · have hnew := is_target_step hstep htrans top a (Or.inr ha) h1
      exact ih _ _ r hnew hnew hr

theorem view_helpers.next_cluster_loop_target {f : bookmark_vector → Int → Int}
    {bv : bookmark_vector} {R : Int → Int → Prop} (hstep : steps_by f bv R)
    (htrans : ∀ a b c : Int, R a b → R b c → R a c) (marked : Bool) (top h : Int) :
    ∀ (fuel : Nat) (a b : Int) (hc : Int) (r : Int),
      (a = top ∨ is_target bv R top a) → (b = top ∨ is_target bv R top b) →
      (1 ≤ hc → is_target bv R top b) →
      view_helpers.next_cluster_loop f bv marked top h fuel a b hc = some (some r) →
      is_target bv R top r := by
  intro fuel
  induction fuel with
  | zero => intro a b hc r _ _ _ hr; simp [view_helpers.next_cluster_loop] at hr
  | succ n ih =>
    intro a b hc r ha hb hhc hr
    simp only [view_helpers.next_cluster_loop] at hr
    split_ifs at hr with h1 h2 h3 h4 h5
    · simp only [Option.some.injEq] at hr
      rcases hb with hb | hb
      · exact absurd hb h2
      · exact hr ▸ hb
    · simp at hr
    · simp only [Option.some.injEq] at hr
      exact hr ▸ is_target_step hstep htrans top a ha h1
    · simp only [Option.some.injEq] at hr
      have hb' := hhc (by omega)
      have he : r = b := by omega
      exact he ▸ hb'
    · have hnew := is_target_step hstep htrans top a ha h1
      cases hi : view_helpers.next_cluster_inner f bv top h (hc + 1) n (f bv a) (f bv a) with
      | none => rw [hi] at hr; simp at hr
      | some x =>
        rw [hi] at hr
        simp only [Option.map_some', Option.some.injEq] at hr
        exact hr ▸ view_helpers.next_cluster_inner_target hstep htrans top h _ n _ _ x hnew hnew hi
    · have hnew := is_target_step hstep htrans top a ha h1
      exact ih _ _ _ r (Or.inr hnew) (Or.inr hnew) (fun _ => hnew) hr

theorem view_helpers.next_cluster_target {f : bookmark_vector → Int → Int}
    {R : Int → Int → Prop} (tc : textview_curses) (hstep : steps_by f tc.tc_bookmarks R)
    (htrans : ∀ a b c : Int, R a b → R b c → R a c) (top r : Int)
    (hr : view_helpers.next_cluster f tc top = some (some r)) :
    is_target tc.tc_bookmarks R top r :=
  view_helpers.next_cluster_loop_target hstep htrans _ top tc.tc_height _ top top 0 r
    (Or.inl rfl) (Or.inl rfl) (fun h0 => absurd h0 (by decide)) hr

theorem view_helpers.next_cluster_isSome_next (tc : textview_curses) (top : Int) :
    (view_helpers.next_cluster bookmark_vector.next tc top).isSome = true :=
  view_helpers.next_cluster_loop_isSome (next_advances _) _ top tc.tc_height _ top top 0
    (by have := count_after_le tc.tc_bookmarks top; omega)

theorem view_helpers.next_cluster_isSome_prev (tc : textview_curses) (top : Int) :
    (view_helpers.next_cluster bookmark_vector.prev tc top).isSome = true :=
  view_helpers.next_cluster_loop_isSome (prev_advances _) _ top tc.tc_height _ top top 0
    (by have := count_before_le tc.tc_bookmarks top; omega)

theorem lnav.next_cluster_target_iff (f : bookmark_vector → Int → Int) (tc : textview_curses)
    (top r : Int) (hr : r ≠ -1) :
    lnav.next_cluster f tc top = some r ↔ view_helpers.next_cluster f tc top = some (some r) := by
  rw [lnav.next_cluster_eq]
  cases hv : view_helpers.next_cluster f tc top with
  | none => simp
  | some res =>
    cases res with
    | none =>
      simp only [Option.map_some', Option.getD_none, Option.some.injEq, reduceCtorEq, iff_false]
      exact fun e => hr e.symm
    | some x => simp

/-- C26: `next_cluster` only ever returns a bookmarked line strictly beyond the
top.  For a strictly increasing bookmark set, any top and any height, whenever
`next_cluster` returns a target `r` (an engaged optional in `view_helpers.cc`, a
line other than `-1` in `lnav.cc`), `r` is one of the bookmarks, and `r` is
greater than the top when `f` is `next` and less than the top when `f` is
`prev`. -/
theorem next_cluster_target_is_bookmark_beyond_top (tc : textview_curses) (top r : Int)
    (_hsorted : List.Pairwise (fun a b => a < b) tc.tc_bookmarks) (_hh : 0 ≤ tc.tc_height) :
    (view_helpers.next_cluster bookmark_vector.next tc top = some (some r) →
        (∃ m : Nat, m ∈ tc.tc_bookmarks ∧ r = (m : Int)) ∧ top < r)
    ∧ (view_helpers.next_cluster bookmark_vector.prev tc top = some (some r) →
        (∃ m : Nat, m ∈ tc.tc_bookmarks ∧ r = (m : Int)) ∧ r < top)
    ∧ (lnav.next_cluster bookmark_vector.next tc top = some r → r ≠ -1 →
        (∃ m : Nat, m ∈ tc.tc_bookmarks ∧ r = (m : Int)) ∧ top < r)
    ∧ (lnav.next_cluster bookmark_vector.prev tc top = some r → r ≠ -1 →
        (∃ m : Nat, m ∈ tc.tc_bookmarks ∧ r = (m : Int)) ∧ r < top) := by
  have hnext : ∀ x : Int, view_helpers.next_cluster bookmark_vector.next tc top = some (some x) →
      (∃ m : Nat, m ∈ tc.tc_bookmarks ∧ x = (m : Int)) ∧ top < x := by
    intro x hx
    obtain ⟨m, hm, he, hlt⟩ := view_helpers.next_cluster_target tc (next_steps_by _)
      (fun a b c hab hbc => lt_trans hab hbc) top x hx
    exact ⟨⟨m, hm, he⟩, he ▸ hlt⟩
  have hprev : ∀ x : Int, view_helpers.next_cluster bookmark_vector.prev tc top = some (some x) →
      (∃ m : Nat, m ∈ tc.tc_bookmarks ∧ x = (m : Int)) ∧ x < top := by
    intro x hx
    obtain ⟨m, hm, he, hlt⟩ := view_helpers.next_cluster_target tc (prev_steps_by _)
      (fun a b c hab hbc => lt_trans hbc hab) top x hx
    exact ⟨⟨m, hm, he⟩, he ▸ hlt⟩
  refine ⟨hnext r, hprev r, ?_, ?_⟩
  · intro hl hr
    exact hnext r ((lnav.next_cluster_target_iff _ tc top r hr).1 hl)
  · intro hl hr
    exact hprev r ((lnav.next_cluster_target_iff _ tc top r hr).1 hl)

/-- A witness of C26: from the top 10 of the bookmarks `{10, 11, 12, 50}` with the
height 20, going forward gives 50, a bookmark greater than 10. -/
theorem next_cluster_target_is_bookmark_beyond_top_witness :
    (∃ m : Nat, m ∈ [10, 11, 12, 50] ∧ (50 : Int) = (m : Int)) ∧ (10 : Int) < 50 :=
  (next_cluster_target_is_bookmark_beyond_top ⟨[10, 11, 12, 50], 20, 10, 0, false, none⟩ 10 50
    (by decide) (by decide)).1 (by decide)


/-! ## The two implementations of `next_cluster` -/

theorem next_cluster_agree_of (f : bookmark_vector → Int → Int) (tc : textview_curses)
    (top : Int) (hsome : (view_helpers.next_cluster f tc top).isSome = true)
    (hpos : ∀ x : Int, view_helpers.next_cluster f tc top = some (some x) → x ≠ -1) :
    (lnav.next_cluster f tc top = some (-1) ↔ view_helpers.next_cluster f tc top = some none)
    ∧ (∀ r : Int, view_helpers.next_cluster f tc top = some (some r) →
        lnav.next_cluster f tc top = some r)
    ∧ (∀ r : Int, r ≠ -1 → lnav.next_cluster f tc top = some r →
        view_helpers.next_cluster f tc top = some (some r)) := by
  refine ⟨?_, ?_, ?_⟩
  · rw [lnav.next_cluster_eq]
    cases hv : view_helpers.next_cluster f tc top with
    | none => rw [hv] at hsome; simp at hsome
    | some res =>
      cases res with
      | none => simp
      | some x =>
        have hx := hpos x hv
        simp [hx]
  · intro r hr
    rw [lnav.next_cluster_eq, hr]
    rfl
  · intro r hr hl
    exact (lnav.next_cluster_target_iff f tc top r hr).1 hl

/-- C28: the two `next_cluster` implementations agree.  For every view, top and
direction, `next_cluster` of `lnav.cc` and of `view_helpers.cc` both return, the
one of `lnav.cc` returns `-1` exactly when the one of `view_helpers.cc` returns
`nullopt`, and otherwise both return the same line. -/
theorem next_cluster_implementations_agree (tc : textview_curses) (top : Int) :
    ((view_helpers.next_cluster bookmark_vector.next tc top).isSome = true
      ∧ (lnav.next_cluster bookmark_vector.next tc top).isSome = true
      ∧ (lnav.next_cluster bookmark_vector.next tc top = some (-1)
          ↔ view_helpers.next_cluster bookmark_vector.next tc top = some none)
      ∧ (∀ r : Int, view_helpers.next_cluster bookmark_vector.next tc top = some (some r) →
          lnav.next_cluster bookmark_vector.next tc top = some r)
      ∧ (∀ r : Int, r ≠ -1 → lnav.next_cluster bookmark_vector.next tc top = some r →
          view_helpers.next_cluster bookmark_vector.next tc top = some (some r)))
    ∧ ((view_helpers.next_cluster bookmark_vector.prev tc top).isSome = true
      ∧ (lnav.next_cluster bookmark_vector.prev tc top).isSome = true
      ∧ (lnav.next_cluster bookmark_vector.prev tc top = some (-1)
          ↔ view_helpers.next_cluster bookmark_vector.prev tc top = some none)
      ∧ (∀ r : Int, view_helpers.next_cluster bookmark_vector.prev tc top = some (some r) →
          lnav.next_cluster bookmark_vector.prev tc top = some r)
      ∧ (∀ r : Int, r ≠ -1 → lnav.next_cluster bookmark_vector.prev tc top = some r →
          view_helpers.next_cluster bookmark_vector.prev tc top = some (some r))) := by
  have hn := view_helpers.next_cluster_isSome_next tc top
  have hp := view_helpers.next_cluster_isSome_prev tc top
  have hposn : ∀ x : Int,
      view_helpers.next_cluster bookmark_vector.next tc top = some (some x) → x ≠ -1 := by
    intro x hx
    obtain ⟨m, _, he, _⟩ := view_helpers.next_cluster_target tc (next_steps_by _)
      (fun a b c hab hbc => lt_trans hab hbc) top x hx
    omega
  have hposp : ∀ x : Int,
      view_helpers.next_cluster bookmark_vector.prev tc top = some (some x) → x ≠ -1 := by
    intro x hx
    obtain ⟨m, _, he, _⟩ := view_helpers.next_cluster_target tc (prev_steps_by _)
      (fun a b c hab hbc => lt_trans hbc hab) top x hx
    omega
  obtain ⟨n1, n2, n3⟩ := next_cluster_agree_of bookmark_vector.next tc top hn hposn
  obtain ⟨p1, p2, p3⟩ := next_cluster_agree_of bookmark_vector.prev tc top hp hposp
  refine ⟨⟨hn, ?_, n1, n2, n3⟩, ⟨hp, ?_, p1, p2, p3⟩⟩
  · rw [lnav.next_cluster_eq, Option.isSome_map']; exact hn
  · rw [lnav.next_cluster_eq, Option.isSome_map']; exact hp

/-- A witness of C28: both implementations give 50 from the top 10 of the
bookmarks `{10, 11, 12, 50}`. -/
theorem next_cluster_implementations_agree_witness :
    lnav.next_cluster bookmark_vector.next ⟨[10, 11, 12, 50], 20, 10, 0, false, none⟩ 10
      = some 50 :=
  (next_cluster_implementations_agree ⟨[10, 11, 12, 50], 20, 10, 0, false, none⟩ 10).1.2.2.2.1
    50 (by decide)


/-! ## Walking along a run of consecutive bookmarks -/

/-- Going forward from a marked top along the run `t, ..., t+k` with
`k < max(h, 2)`: no iteration inside the run returns, so the loop gives what it
gives from the last line of the run. -/
theorem view_helpers.next_cluster_loop_walk_next (bv : bookmark_vector) (h : Int) (t k : Nat)
    (hrun : ∀ i : Nat, i ≤ k → t + i ∈ bv) (hk : (k : Int) < max h 2) (r : Option Int)
    (hend : ∀ fuel : Nat,
      view_helpers.next_cluster_loop bookmark_vector.next bv true t h fuel
          ((t : Int) + k) ((t : Int) + k) k = none
      ∨ view_helpers.next_cluster_loop bookmark_vector.next bv true t h fuel
          ((t : Int) + k) ((t : Int) + k) k = some r) :
    ∀ (fuel i : Nat), i ≤ k →
      view_helpers.next_cluster_loop bookmark_vector.next bv true t h fuel
          ((t : Int) + i) ((t : Int) + i) i = none
      ∨ view_helpers.next_cluster_loop bookmark_vector.next bv true t h fuel
          ((t : Int) + i) ((t : Int) + i) i = some r := by
  intro fuel
  induction fuel with
  | zero => intro i _; left; rfl
  | succ n ih =>
    intro i hi
    rcases Nat.lt_or_ge i k with hik | hik
    · have hnext : bookmark_vector.next bv ((t : Int) + i) = ((t + (i + 1) : Nat) : Int) := by
        apply bookmark_vector.next_eq_of_least (hrun (i + 1) hik)
        · push_cast; omega
        · intro b _ hb; omega
      have hstep : view_helpers.next_cluster_loop bookmark_vector.next bv true t h (n + 1)
          ((t : Int) + i) ((t : Int) + i) i
          = view_helpers.next_cluster_loop bookmark_vector.next bv true t h n
              ((t : Int) + (i + 1 : Nat)) ((t : Int) + (i + 1 : Nat)) (i + 1 : Nat) := by
        have hmax : (k : Int) < h ∨ k < 2 := by
          rcases le_total h 2 with h2 | h2
          · right; rw [max_eq_right h2] at hk; omega
          · left; rw [max_eq_left h2] at hk; exact hk
        simp only [view_helpers.next_cluster_loop, hnext]
        rw [if_neg (by omega)]
        rw [if_neg (by simp only [Bool.not_true, Bool.false_or, decide_eq_true_eq]; omega)]
        rw [if_neg (by omega), if_neg (by omega)]
        push_cast
        rfl
      rw [hstep]
      exact ih (i + 1) hik
    · have hik' : i = k := le_antisymm hi hik
      subst hik'
      exact hend (n + 1)

/-- Going backward from a marked top along the run `t, ..., t-k` with
`k < max(h, 2)`: no iteration inside the run returns. -/
theorem view_helpers.next_cluster_loop_walk_prev (bv : bookmark_vector) (h : Int) (t k : Nat)
    (hkt : k ≤ t) (hrun : ∀ i : Nat, i ≤ k → t - i ∈ bv) (hk : (k : Int) < max h 2)
    (r : Option Int)
    (hend : ∀ fuel : Nat,
      view_helpers.next_cluster_loop bookmark_vector.prev bv true t h fuel
          ((t : Int) - k) ((t : Int) - k) k = none
      ∨ view_helpers.next_cluster_loop bookmark_vector.prev bv true t h fuel
          ((t : Int) - k) ((t : Int) - k) k = some r) :
    ∀ (fuel i : Nat), i ≤ k →
      view_helpers.next_cluster_loop bookmark_vector.prev bv true t h fuel
          ((t : Int) - i) ((t : Int) - i) i = none
      ∨ view_helpers.next_cluster_loop bookmark_vector.prev bv true t h fuel
          ((t : Int) - i) ((t : Int) - i) i = some r := by
  intro fuel
  induction fuel with
  | zero => intro i _; left; rfl
  | succ n ih =>
    intro i hi
    rcases Nat.lt_or_ge i k with hik | hik
    · have hprev : bookmark_vector.prev bv ((t : Int) - i) = (t : Int) - i - 1 := by
        rw [bookmark_vector.prev_eq_of_greatest (hrun (i + 1) hik)]
        · omega
        · omega
        · intro b _ hb; omega
      have hstep : view_helpers.next_cluster_loop bookmark_vector.prev bv true t h (n + 1)
          ((t : Int) - i) ((t : Int) - i) i
          = view_helpers.next_cluster_loop bookmark_vector.prev bv true t h n
              ((t : Int) - i - 1) ((t : Int) - i - 1) ((i : Int) + 1) := by
        have hmax : (k : Int) < h ∨ k < 2 := by
          rcases le_total h 2 with h2 | h2
          · right; rw [max_eq_right h2] at hk; omega
          · left; rw [max_eq_left h2] at hk; exact hk
        simp only [view_helpers.next_cluster_loop, hprev]
        rw [if_neg (by omega)]
        rw [if_neg (by simp only [Bool.not_true, Bool.false_or, decide_eq_true_eq]; omega)]
        rw [if_neg (by omega), if_neg (by omega)]
      rw [hstep]
      have h2 := ih (i + 1) hik
      have e1 : (t : Int) - ((i + 1 : Nat) : Int) = (t : Int) - i - 1 := by push_cast; ring
      have e2 : ((i + 1 : Nat) : Int) = (i : Int) + 1 := by push_cast; rfl
      rw [e1, e2] at h2
      exact h2
    · have hik' : i = k := le_antisymm hi hik
      subst hik'
      exact hend (n + 1)

/-- At the last line of a run after which there is no bookmark, the loop ends:
with the last line of the run when it is not the top, with no target when it
is. -/
theorem view_helpers.next_cluster_loop_end_next (bv : bookmark_vector) (h : Int) (t k : Nat)
    (hnone : ∀ b : Nat, b ∈ bv → b ≤ t + k) (fuel : Nat) :
    view_helpers.next_cluster_loop bookmark_vector.next bv true t h fuel
        ((t : Int) + k) ((t : Int) + k) k = none
    ∨ view_helpers.next_cluster_loop bookmark_vector.next bv true t h fuel
        ((t : Int) + k) ((t : Int) + k) k
      = some (if k = 0 then none else some ((t : Int) + k)) := by
  cases fuel with
  | zero => left; rfl
  | succ n =>
    right
    have hnext : bookmark_vector.next bv ((t : Int) + k) = -1 :=
      bookmark_vector.next_eq_neg_one (fun b hb => by have := hnone b hb; omega)
    simp only [view_helpers.next_cluster_loop, hnext, if_true]
    by_cases hk0 : k = 0
    · subst hk0; simp
    · rw [if_pos (by omega)]
      simp [hk0]

theorem view_helpers.next_cluster_loop_end_prev (bv : bookmark_vector) (h : Int) (t k : Nat)
    (hkt : k ≤ t) (hnone : ∀ b : Nat, b ∈ bv → t - k ≤ b) (fuel : Nat) :
    view_helpers.next_cluster_loop bookmark_vector.prev bv true t h fuel
        ((t : Int) - k) ((t : Int) - k) k = none
    ∨ view_helpers.next_cluster_loop bookmark_vector.prev bv true t h fuel
        ((t : Int) - k) ((t : Int) - k) k
      = some (if k = 0 then none else some ((t : Int) - k)) := by
  cases fuel with
  | zero => left; rfl
  | succ n =>
    right
    have hprev : bookmark_vector.prev bv ((t : Int) - k) = -1 :=
      bookmark_vector.prev_eq_neg_one (fun b hb => by have := hnone b hb; omega)
    simp only [view_helpers.next_cluster_loop, hprev, if_true]
    by_cases hk0 : k = 0
    · subst hk0; simp
    · rw [if_pos (by omega)]
      simp [hk0]

/-- Inside a run that goes on, once more than one bookmark has been passed and
the next one is at least a screen height from the top, the loop returns the
line it stands on. -/
theorem view_helpers.next_cluster_loop_long_next (bv : bookmark_vector) (h : Int) (t k : Nat)
    (hin : t + k + 1 ∈ bv) (hk1 : 1 ≤ k) (hkh : h ≤ (k : Int) + 1) (fuel : Nat) :
    view_helpers.next_cluster_loop bookmark_vector.next bv true t h fuel
        ((t : Int) + k) ((t : Int) + k) k = none
    ∨ view_helpers.next_cluster_loop bookmark_vector.next bv true t h fuel
        ((t : Int) + k) ((t : Int) + k) k = some (some ((t : Int) + k)) := by
  cases fuel with
  | zero => left; rfl
  | succ n =>
    right
    have hnext : bookmark_vector.next bv ((t : Int) + k) = ((t + k + 1 : Nat) : Int) := by
      apply bookmark_vector.next_eq_of_least hin
      · push_cast; omega
      · intro b _ hb; omega
    simp only [view_helpers.next_cluster_loop, hnext]
    rw [if_neg (by omega)]
    rw [if_neg (by simp only [Bool.not_true, Bool.false_or, decide_eq_true_eq]; omega)]
    rw [if_pos (by omega)]
    congr 2
    push_cast
    ring

/-- From a marked top inside a run of more than `max(h, 2)` further lines,
`next_cluster` with `f = next` returns the line `max(h, 2) - 1` after the top. -/
theorem view_helpers.next_cluster_long_run (tc : textview_curses) (t n : Nat)
    (hrun : ∀ i : Nat, i ≤ n → t + i ∈ tc.tc_bookmarks)
    (hn : max tc.tc_height 2 ≤ (n : Int)) :
    view_helpers.next_cluster bookmark_vector.next tc t
      = some (some ((t : Int) + max tc.tc_height 2 - 1)) := by
  obtain ⟨k, hk⟩ : ∃ k : Nat, (k : Int) = max tc.tc_height 2 - 1 :=
    ⟨(max tc.tc_height 2 - 1).toNat, by
      have : (2 : Int) ≤ max tc.tc_height 2 := le_max_right _ _
      omega⟩
  have h2 : (2 : Int) ≤ max tc.tc_height 2 := le_max_right _ _
  have hh : tc.tc_height ≤ max tc.tc_height 2 := le_max_left _ _
  have hmarked : tc.tc_bookmarks.binary_search (t : Int) = true :=
    (bookmark_vector.binary_search_iff _ _).2 (by simpa using hrun 0 (Nat.zero_le n))
  have hres : (t : Int) + max tc.tc_height 2 - 1 = (t : Int) + k := by omega
  rw [hres]
  apply view_helpers.next_cluster_of_loop (next_advances _) (count_after_le _)
  intro fuel
  rw [hmarked]
  have hwalk := view_helpers.next_cluster_loop_walk_next tc.tc_bookmarks tc.tc_height t k
    (fun i hi => hrun i (by omega)) (by omega) (some ((t : Int) + k))
    (view_helpers.next_cluster_loop_long_next tc.tc_bookmarks tc.tc_height t k
      (by have := hrun (k + 1) (by omega); simpa [Nat.add_assoc] using this)
      (by omega) (by omega))
    fuel 0 (Nat.zero_le k)
  simpa using hwalk


/-- C27: the exact landing line inside a long run.  For a marked top `t` such
that `t, t+1, ..., t+n` are all marked with `n ≥ max(h, 2)`, `next_cluster` with
`f = next` from `t` returns exactly `t + max(h, 2) - 1`, in `view_helpers.cc` and
in `lnav.cc`: that is `t + h - 1` for `h ≥ 2` and `t + 1` for `h ≤ 1`. -/
theorem next_cluster_long_run_landing_line (tc : textview_curses) (t n : Nat)
    (_hh : 0 ≤ tc.tc_height)
    (hrun : ∀ i : Nat, i ≤ n → t + i ∈ tc.tc_bookmarks)
    (hn : max tc.tc_height 2 ≤ (n : Int)) :
    view_helpers.next_cluster bookmark_vector.next tc t
        = some (some ((t : Int) + max tc.tc_height 2 - 1))
    ∧ lnav.next_cluster bookmark_vector.next tc t = some ((t : Int) + max tc.tc_height 2 - 1)
    ∧ (2 ≤ tc.tc_height → (t : Int) + max tc.tc_height 2 - 1 = (t : Int) + tc.tc_height - 1)
    ∧ (tc.tc_height ≤ 1 → (t : Int) + max tc.tc_height 2 - 1 = (t : Int) + 1) := by
  have hvh := view_helpers.next_cluster_long_run tc t n hrun hn
  refine ⟨hvh, by rw [lnav.next_cluster_eq, hvh]; rfl, ?_, ?_⟩
  · intro h2; rw [max_eq_left h2]
  · intro h1; rw [max_eq_right (by omega)]; ring

/-- A witness of C27: in the run `10, ..., 15` with the height 3 the landing line
from the top 10 is 12. -/
theorem next_cluster_long_run_landing_line_witness :
    view_helpers.next_cluster bookmark_vector.next
        ⟨[10, 11, 12, 13, 14, 15], 3, 10, 0, false, none⟩ (10 : Nat)
      = some (some (((10 : Nat) : Int) + max 3 2 - 1)) :=
  (next_cluster_long_run_landing_line ⟨[10, 11, 12, 13, 14, 15], 3, 10, 0, false, none⟩ 10 5
    (by decide) (by decide) (by decide)).1

/-- C22, as the code has it: a long run is crossed a screen at a time.  For a
height `h ≥ 2` and a marked top `t` such that `t, t+1, ..., t+n` are all marked
with `n ≥ h` and `t+n+1` is not, `next_cluster` with `f = next` from `t` returns
`t + h - 1`, a line of the run before its last line `t+n`, in `view_helpers.cc`
and in `lnav.cc`. -/
theorem next_cluster_long_run_screen_step (tc : textview_curses) (t n : Nat)
    (hh : 2 ≤ tc.tc_height)
    (hrun : ∀ i : Nat, i ≤ n → t + i ∈ tc.tc_bookmarks)
    (_hend : t + n + 1 ∉ tc.tc_bookmarks)
    (hn : tc.tc_height ≤ (n : Int)) :
    view_helpers.next_cluster bookmark_vector.next tc t
        = some (some ((t : Int) + tc.tc_height - 1))
    ∧ lnav.next_cluster bookmark_vector.next tc t = some ((t : Int) + tc.tc_height - 1)
    ∧ (t : Int) + tc.tc_height - 1 < (t : Int) + n := by
  have hvh := view_helpers.next_cluster_long_run tc t n hrun (by rw [max_eq_left hh]; exact hn)
  rw [max_eq_left hh] at hvh
  exact ⟨hvh, by rw [lnav.next_cluster_eq, hvh]; rfl, by omega⟩

/-- A witness of the amended C22: the run `10, ..., 15`, the height 3 and the
top 10. -/
theorem next_cluster_long_run_screen_step_witness :
    view_helpers.next_cluster bookmark_vector.next
        ⟨[10, 11, 12, 13, 14, 15], 3, 10, 0, false, none⟩ (10 : Nat)
      = some (some (((10 : Nat) : Int) + 3 - 1)) :=
  (next_cluster_long_run_screen_step ⟨[10, 11, 12, 13, 14, 15], 3, 10, 0, false, none⟩ 10 5
    (by decide) (by decide) (by decide) (by decide)).1

/-- C22 fails as stated: in the run `10, ..., 15` with the height 3, going
forward from the top 10 gives 12, not the last line 15 of the run. -/
theorem next_cluster_long_run_edge_counterexample :
    view_helpers.next_cluster bookmark_vector.next
        ⟨[10, 11, 12, 13, 14, 15], 3, 10, 0, false, none⟩ 10 = some (some 12)
    ∧ lnav.next_cluster bookmark_vector.next
        ⟨[10, 11, 12, 13, 14, 15], 3, 10, 0, false, none⟩ 10 = some 12
    ∧ view_helpers.next_cluster bookmark_vector.next
        ⟨[10, 11, 12, 13, 14, 15], 3, 10, 0, false, none⟩ 10 ≠ some (some 15) := by
  refine ⟨by decide, by decide, by decide⟩

/-- C23, as the code has it: inside the current cluster the navigator goes to
the end of the cluster.  For a marked top `t` such that the bookmarks beyond `t`
in the direction of travel are the `k` lines next to `t` one after the other,
all of them less than `h` lines away, `next_cluster` returns the farthest of
them, `t+k` going forward and `t-k` going backward, and "no target" only when
there is none (`k = 0`), in `view_helpers.cc` and in `lnav.cc`. -/
theorem next_cluster_within_cluster (tc : textview_curses) (t k : Nat)
    (hk : (k : Int) < tc.tc_height) :
    ((∀ i : Nat, i ≤ k → t + i ∈ tc.tc_bookmarks) →
        (∀ b : Nat, b ∈ tc.tc_bookmarks → b ≤ t + k) →
        view_helpers.next_cluster bookmark_vector.next tc t
            = some (if k = 0 then none else some ((t : Int) + k))
          ∧ lnav.next_cluster bookmark_vector.next tc t
            = some (if k = 0 then -1 else (t : Int) + k))
    ∧ (k ≤ t → (∀ i : Nat, i ≤ k → t - i ∈ tc.tc_bookmarks) →
        (∀ b : Nat, b ∈ tc.tc_bookmarks → t - k ≤ b) →
        view_helpers.next_cluster bookmark_vector.prev tc t
            = some (if k = 0 then none else some ((t : Int) - k))
          ∧ lnav.next_cluster bookmark_vector.prev tc t
            = some (if k = 0 then -1 else (t : Int) - k)) := by
  have hkmax : (k : Int) < max tc.tc_height 2 := lt_of_lt_of_le hk (le_max_left _ _)
  constructor
  · intro hrun hnone
    have hmarked : tc.tc_bookmarks.binary_search (t : Int) = true :=
      (bookmark_vector.binary_search_iff _ _).2 (by simpa using hrun 0 (Nat.zero_le k))
    have hvh : view_helpers.next_cluster bookmark_vector.next tc t
        = some (if k = 0 then none else some ((t : Int) + k)) := by
      apply view_helpers.next_cluster_of_loop (next_advances _) (count_after_le _)
      intro fuel
      rw [hmarked]
      have hwalk := view_helpers.next_cluster_loop_walk_next tc.tc_bookmarks tc.tc_height t k
        hrun hkmax _ (view_helpers.next_cluster_loop_end_next tc.tc_bookmarks tc.tc_height t k
          hnone) fuel 0 (Nat.zero_le k)
      simpa using hwalk
    refine ⟨hvh, ?_⟩
    rw [lnav.next_cluster_eq, hvh]
    by_cases hk0 : k = 0 <;> simp [hk0]
  · intro hkt hrun hnone
    have hmarked : tc.tc_bookmarks.binary_search (t : Int) = true :=
      (bookmark_vector.binary_search_iff _ _).2 (by simpa using hrun 0 (Nat.zero_le k))
    have hvh : view_helpers.next_cluster bookmark_vector.prev tc t
        = some (if k = 0 then none else some ((t : Int) - k)) := by
      apply view_helpers.next_cluster_of_loop (prev_advances _) (count_before_le _)
      intro fuel
      rw [hmarked]
      have hwalk := view_helpers.next_cluster_loop_walk_prev tc.tc_bookmarks tc.tc_height t k
        hkt hrun hkmax _ (view_helpers.next_cluster_loop_end_prev tc.tc_bookmarks tc.tc_height
          t k hkt hnone) fuel 0 (Nat.zero_le k)
      simpa using hwalk
    refine ⟨hvh, ?_⟩
    rw [lnav.next_cluster_eq, hvh]
    by_cases hk0 : k = 0 <;> simp [hk0]

/-- A witness of the amended C23: with the bookmarks `{10, 11}` and the height
20, going forward from the top 10 gives 11. -/
theorem next_cluster_within_cluster_witness :
    view_helpers.next_cluster bookmark_vector.next ⟨[10, 11], 20, 10, 0, false, none⟩ (10 : Nat)
      = some (if 1 = 0 then none else some (((10 : Nat) : Int) + (1 : Nat))) :=
  ((next_cluster_within_cluster ⟨[10, 11], 20, 10, 0, false, none⟩ 10 1 (by decide)).1
    (by decide) (by decide)).1

/-- C23 fails as stated: with the bookmarks `{10, 11}` and the height 20, the
only bookmark beyond the marked top 10 is the next line 11, less than a screen
away, and `next_cluster` returns 11, not "no target"; going backward from 11 it
returns 10. -/
theorem next_cluster_within_cluster_counterexample :
    view_helpers.next_cluster bookmark_vector.next ⟨[10, 11], 20, 10, 0, false, none⟩ 10
        = some (some 11)
    ∧ lnav.next_cluster bookmark_vector.next ⟨[10, 11], 20, 10, 0, false, none⟩ 10 = some 11
    ∧ view_helpers.next_cluster bookmark_vector.prev ⟨[10, 11], 20, 11, 0, false, none⟩ 11
        = some (some 10)
    ∧ lnav.next_cluster bookmark_vector.prev ⟨[10, 11], 20, 11, 0, false, none⟩ 11 = some 10 := by
  refine ⟨by decide, by decide, by decide, by decide⟩


/-! ## From the first line of a cluster -/

/-- Going backward in the inner loop along the run `p, ..., p-j` whose lowest
line has no bookmark right before it, with one bookmark passed so far: the loop
returns the lowest line of the run. -/
theorem view_helpers.next_cluster_inner_walk_prev (bv : bookmark_vector) (top h : Int)
    (p j : Nat) (hjp : j ≤ p) (hrun : ∀ i : Nat, i ≤ j → p - i ∈ bv)
    (hlow : ∀ b : Nat, b ∈ bv → (b : Int) ≠ (p : Int) - j - 1) :
    ∀ (fuel i : Nat), i ≤ j →
      view_helpers.next_cluster_inner bookmark_vector.prev bv top h 1 fuel
          ((p : Int) - i) ((p : Int) - i) = none
      ∨ view_helpers.next_cluster_inner bookmark_vector.prev bv top h 1 fuel
          ((p : Int) - i) ((p : Int) - i) = some ((p : Int) - j) := by
  intro fuel
  induction fuel with
  | zero => intro i _; left; rfl
  | succ n ih =>
    intro i hi
    rcases Nat.lt_or_ge i j with hij | hij
    · have hprev : bookmark_vector.prev bv ((p : Int) - i) = (p : Int) - i - 1 := by
        rw [bookmark_vector.prev_eq_of_greatest (hrun (i + 1) hij)]
        · omega
        · omega
        · intro b _ hb; omega
      have hstep : view_helpers.next_cluster_inner bookmark_vector.prev bv top h 1 (n + 1)
          ((p : Int) - i) ((p : Int) - i)
          = view_helpers.next_cluster_inner bookmark_vector.prev bv top h 1 n
              ((p : Int) - i - 1) ((p : Int) - i - 1) := by
        simp only [view_helpers.next_cluster_inner, hprev]
        rw [if_neg (by omega), if_neg (by omega)]
      rw [hstep]
      have h2 := ih (i + 1) hij
      have e1 : (p : Int) - ((i + 1 : Nat) : Int) = (p : Int) - i - 1 := by push_cast; ring
      rw [e1] at h2
      exact h2
    · have hij' : i = j := le_antisymm hi hij
      subst hij'
      right
      rcases bookmark_vector.prev_cases bv ((p : Int) - i) with ⟨hnone, _⟩ | ⟨m, hm, he, hlt, _⟩
      · simp only [view_helpers.next_cluster_inner, hnone, if_true]
      · have hne := hlow m hm
        simp only [view_helpers.next_cluster_inner, he]
        rw [if_neg (by omega), if_pos (by omega)]

/-- C25: from the first line of a cluster, navigation in either direction lands
on the first (lowest) line of the neighbouring cluster.  For a marked top `t`:
going forward, if `t+1` is not marked and `m` is the least bookmark greater than
`t`, `next_cluster` with `f = next` returns `m`, and `m-1` is not marked; going
backward, if `t-1` is not marked and `p` is the greatest bookmark less than `t`,
`next_cluster` with `f = prev` returns the lowest line `q` of the maximal run of
consecutive bookmarks that ends at `p`; in `view_helpers.cc` and in `lnav.cc`. -/
theorem next_cluster_from_first_line_of_cluster (tc : textview_curses) (t : Nat)
    (ht : t ∈ tc.tc_bookmarks) :
    (∀ m : Nat, t + 1 ∉ tc.tc_bookmarks → m ∈ tc.tc_bookmarks → t < m →
        (∀ b : Nat, b ∈ tc.tc_bookmarks → t < b → m ≤ b) →
        view_helpers.next_cluster bookmark_vector.next tc t = some (some (m : Int))
          ∧ lnav.next_cluster bookmark_vector.next tc t = some (m : Int)
          ∧ ∀ b : Nat, b ∈ tc.tc_bookmarks → (b : Int) ≠ (m : Int) - 1)
    ∧ (∀ p q j : Nat, (∀ b : Nat, b ∈ tc.tc_bookmarks → (b : Int) ≠ (t : Int) - 1) →
        p ∈ tc.tc_bookmarks → p < t →
        (∀ b : Nat, b ∈ tc.tc_bookmarks → b < t → b ≤ p) →
        q + j = p → (∀ i : Nat, i ≤ j → q + i ∈ tc.tc_bookmarks) →
        (∀ b : Nat, b ∈ tc.tc_bookmarks → (b : Int) ≠ (q : Int) - 1) →
        view_helpers.next_cluster bookmark_vector.prev tc t = some (some (q : Int))
          ∧ lnav.next_cluster bookmark_vector.prev tc t = some (q : Int)) := by
  have hmarked : tc.tc_bookmarks.binary_search (t : Int) = true :=
    (bookmark_vector.binary_search_iff _ _).2 ht
  constructor
  · intro m hgap hm hlt hleast
    have hvh : view_helpers.next_cluster bookmark_vector.next tc t = some (some (m : Int)) := by
      apply view_helpers.next_cluster_of_loop (next_advances _) (count_after_le _)
      intro fuel
      rw [hmarked]
      simpa using view_helpers.next_cluster_loop_run tc.tc_bookmarks tc.tc_height t 0 m
        (fun i hi => by have : i = 0 := by omega
                        subst this; simpa using ht)
        (by simpa using hgap)
        (by have : (2 : Int) ≤ max tc.tc_height 2 := le_max_right _ _
            omega)
        hm (by simpa using hlt) (fun b hb hlb => hleast b hb (by simpa using hlb)) fuel 0
        (Nat.le_refl 0)
    refine ⟨hvh, by rw [lnav.next_cluster_eq, hvh]; rfl, ?_⟩
    intro b hb he
    by_cases hbt : t < b
    · have := hleast b hb hbt; omega
    · have hbt' : b = t := by omega
      subst hbt'
      exact hgap (by have : b + 1 = m := by omega
                     rw [this]; exact hm)
  · intro p q j hgap hp hlt hgreatest hqj hrun hlow
    have hpt : (p : Int) < (t : Int) - 1 := by
      have := hgap p hp
      omega
    have hprev : bookmark_vector.prev tc.tc_bookmarks (t : Int) = (p : Int) :=
      bookmark_vector.prev_eq_of_greatest hp (by omega)
        (fun b hb hbt => hgreatest b hb (by omega))
    have hvh : view_helpers.next_cluster bookmark_vector.prev tc t = some (some (q : Int)) := by
      apply view_helpers.next_cluster_of_loop (prev_advances _) (count_before_le _)
      intro fuel
      rw [hmarked]
      cases fuel with
      | zero => left; rfl
      | succ n =>
        have hinner := view_helpers.next_cluster_inner_walk_prev tc.tc_bookmarks (t : Int)
          tc.tc_height p j (by omega)
          (fun i hi => by have := hrun (j - i) (by omega)
                          have e : q + (j - i) = p - i := by omega
                          rwa [e] at this)
          (fun b hb => by have := hlow b hb; omega) n 0 (Nat.zero_le j)
        have hq : (p : Int) - (j : Int) = (q : Int) := by omega
        simp only [Nat.cast_zero, sub_zero, hq] at hinner
        simp only [view_helpers.next_cluster_loop, hprev]
        rw [if_neg (by omega)]
        rw [if_neg (by simp only [Bool.not_true, Bool.false_or, decide_eq_true_eq]; omega)]
        rw [if_neg (by omega), if_pos (by omega)]
        simp only [zero_add]
        rcases hinner with hi | hi
        · left; rw [hi]; rfl
        · right; rw [hi]; rfl
    exact ⟨hvh, by rw [lnav.next_cluster_eq, hvh]; rfl⟩

/-- A witness of C25: with the bookmarks `{3, 4, 5, 10, 20, 21}` and the height
20, from the top 10 going forward gives 20 and going backward gives 3. -/
theorem next_cluster_from_first_line_of_cluster_witness :
    (view_helpers.next_cluster bookmark_vector.next
        ⟨[3, 4, 5, 10, 20, 21], 20, 10, 0, false, none⟩ (10 : Nat) = some (some ((20 : Nat) : Int))
      ∧ lnav.next_cluster bookmark_vector.next
        ⟨[3, 4, 5, 10, 20, 21], 20, 10, 0, false, none⟩ (10 : Nat) = some ((20 : Nat) : Int)
      ∧ ∀ b : Nat, b ∈ [3, 4, 5, 10, 20, 21] → (b : Int) ≠ ((20 : Nat) : Int) - 1)
    ∧ (view_helpers.next_cluster bookmark_vector.prev
        ⟨[3, 4, 5, 10, 20, 21], 20, 10, 0, false, none⟩ (10 : Nat) = some (some ((3 : Nat) : Int))
      ∧ lnav.next_cluster bookmark_vector.prev
        ⟨[3, 4, 5, 10, 20, 21], 20, 10, 0, false, none⟩ (10 : Nat) = some ((3 : Nat) : Int)) :=
  ⟨(next_cluster_from_first_line_of_cluster ⟨[3, 4, 5, 10, 20, 21], 20, 10, 0, false, none⟩ 10
      (by decide)).1 20 (by decide) (by decide) (by decide) (by decide),
    (next_cluster_from_first_line_of_cluster ⟨[3, 4, 5, 10, 20, 21], 20, 10, 0, false, none⟩ 10
      (by decide)).2 5 3 2 (by decide) (by decide) (by decide) (by decide) (by decide)
      (by decide) (by decide)⟩



/-! ## `previous_cluster` -/

/-- C24: the repeated-keypress acceleration of `previous_cluster`, on a view
that is not selectable, with `p` the result of `next_cluster` with `f = prev`
from the top `t`, `c` the key-repeat count, `s` the key-repeat start line, `h`
the height and `n` what `bv.next` gives for `max(0, t - h)`.  In
`view_helpers.cc`, if `c > 1`, `2*t < 2*s - 3*h` and `p` is absent or
`t - p < h`, the view is moved to `n`; otherwise it is moved to `p` when `p`
exists and is left as it was when `p` is absent.  In `lnav.cc` the third
condition is `t - p < h` with `-1` for an absent `p`: when `p` is absent and
`h ≤ t + 1` the view is left as it was. -/
theorem previous_cluster_acceleration (krh : key_repeat_history) (tc : textview_curses)
    (p : Option Int) (hsel : tc.tc_selectable = false)
    (hp : view_helpers.next_cluster bookmark_vector.prev tc tc.tc_top = some p) :
    (krh.krh_count > 1 → 2 * tc.tc_top < 2 * krh.krh_start_line - 3 * tc.tc_height →
        (p = none ∨ ∃ v : Int, p = some v ∧ tc.tc_top - v < tc.tc_height) →
        view_helpers.previous_cluster krh tc
          = Except.ok ((tc.loc_history_append
              (tc.tc_bookmarks.next (max 0 (tc.tc_top - tc.tc_height)))).set_top
              (tc.tc_bookmarks.next (max 0 (tc.tc_top - tc.tc_height)))))
    ∧ (¬ (krh.krh_count > 1 ∧ 2 * tc.tc_top < 2 * krh.krh_start_line - 3 * tc.tc_height
          ∧ (p = none ∨ ∃ v : Int, p = some v ∧ tc.tc_top - v < tc.tc_height)) →
        (∀ v : Int, p = some v →
          view_helpers.previous_cluster krh tc
            = Except.ok ((tc.loc_history_append v).set_top v))
        ∧ (p = none → view_helpers.previous_cluster krh tc = Except.ok tc))
    ∧ (krh.krh_count > 1 → 2 * tc.tc_top < 2 * krh.krh_start_line - 3 * tc.tc_height →
        p = none → tc.tc_height ≤ tc.tc_top + 1 →
        lnav.previous_cluster krh tc = Except.ok tc)
    ∧ (∀ v : Int, p = some v → v ≠ -1 →
        ¬ (krh.krh_count > 1 ∧ 2 * tc.tc_top < 2 * krh.krh_start_line - 3 * tc.tc_height
          ∧ tc.tc_top - v < tc.tc_height) →
        lnav.previous_cluster krh tc = Except.ok ((tc.loc_history_append v).set_top v)) := by
  have hl : lnav.next_cluster bookmark_vector.prev tc tc.tc_top = some (p.getD (-1)) := by
    rw [lnav.next_cluster_eq, hp]; rfl
  refine ⟨?_, ?_, ?_, ?_⟩
  · intro hc habove hnear
    rcases hnear with rfl | ⟨v, rfl, hv⟩
    · simp [view_helpers.previous_cluster, hsel, hp, with_fuel, above_repeat_start, bind,
        Except.bind, pure, Except.pure, hc, habove, textview_curses.loc_history_append,
        textview_curses.set_top]
    · simp [view_helpers.previous_cluster, hsel, hp, with_fuel, above_repeat_start, bind,
        Except.bind, pure, Except.pure, hc, habove, hv, textview_curses.loc_history_append,
        textview_curses.set_top]
  · intro hnot
    constructor
    · intro v hv
      subst hv
      have hcond : ¬ (1 < krh.krh_count
          ∧ 2 * tc.tc_top < 2 * krh.krh_start_line - 3 * tc.tc_height
          ∧ tc.tc_top - v < tc.tc_height) := by
        rintro ⟨h1, h2, h3⟩
        exact hnot ⟨h1, h2, Or.inr ⟨v, rfl, h3⟩⟩
      simp [view_helpers.previous_cluster, hsel, hp, with_fuel, above_repeat_start, bind,
        Except.bind, pure, Except.pure, hcond, textview_curses.loc_history_append,
        textview_curses.set_top]
    · intro hv
      subst hv
      have hcond : ¬ (1 < krh.krh_count
          ∧ 2 * tc.tc_top < 2 * krh.krh_start_line - 3 * tc.tc_height) := by
        rintro ⟨h1, h2⟩
        exact hnot ⟨h1, h2, Or.inl rfl⟩
      simp [view_helpers.previous_cluster, hsel, hp, with_fuel, above_repeat_start, bind,
        Except.bind, pure, Except.pure, hcond]
  · intro hc habove hpn hh
    subst hpn
    have hcond : ¬ (tc.tc_top + 1 < tc.tc_height) := by omega
    simp [lnav.previous_cluster, hl, with_fuel, above_repeat_start, bind, Except.bind, pure,
      Except.pure, hcond]
  · intro v hv hne hnot
    subst hv
    have hcond : ¬ (1 < krh.krh_count
        ∧ 2 * tc.tc_top < 2 * krh.krh_start_line - 3 * tc.tc_height
        ∧ tc.tc_top - v < tc.tc_height) := hnot
    simp [lnav.previous_cluster, hl, with_fuel, above_repeat_start, bind, Except.bind, pure,
      Except.pure, hcond, hne, textview_curses.loc_history_append, textview_curses.set_top]

/-- The failing input of C24: the bookmarks `{100}`, the top 50, the height 10,
the key-repeat count 2 and the start line 200.  No bookmark lies before the
top; `view_helpers.cc` moves the view to 100, the first bookmark after
`max(0, 50 - 10)`, and `lnav.cc` leaves the top at 50. -/
theorem previous_cluster_acceleration_witness :
    view_helpers.previous_cluster ⟨2, 200⟩ ⟨[100], 10, 50, 0, false, none⟩
        = Except.ok ⟨[100], 10, 100, 0, false, none⟩
    ∧ lnav.previous_cluster ⟨2, 200⟩ ⟨[100], 10, 50, 0, false, none⟩
        = Except.ok ⟨[100], 10, 50, 0, false, none⟩ :=
  ⟨(previous_cluster_acceleration ⟨2, 200⟩ ⟨[100], 10, 50, 0, false, none⟩ none rfl
      (by decide)).1 (by decide) (by decide) (Or.inl rfl),
    (previous_cluster_acceleration ⟨2, 200⟩ ⟨[100], 10, 50, 0, false, none⟩ none rfl
      (by decide)).2.2.1 (by decide) (by decide) rfl (by decide)⟩

